import Mathlib

/-!
# Go_Backend: timeline merging and narration-window extraction

A shallow embedding of `internal/timeline/build.go`, `internal/windows/extract.go`,
`internal/validate/validate.go`, `internal/audio/tts.go`, `internal/effects/generate.go`,
`internal/instructions/actions.go`, `internal/normalize/time.go` and
`internal/script/generate.go`, with the data model of `internal/models`.

Modelling conventions.
* Go `float64` is the type `F64` of the finite IEEE-754 binary64 values: a rational
  `val` that rounding leaves unchanged. A decimal literal and each of `+`, `-`, `*`, `/`
  is the exact rational result rounded to the nearest binary64 value, ties to even
  (`round64`: 53 significant bits, smallest unit 2^(-1074)); comparisons compare the
  values. The exponent has no upper bound in the model: overflow to an infinity and NaN
  are outside it, and so is the sign of zero. `int(x)` truncates toward zero
  (`truncToInt`), `float64(n)` is `F64.ofInt`.
* Go slices are lists; `append(s, x)` is `s ++ [x]`.
* A `for ... range` loop with mutable locals is a `List.foldl` over an explicit state.
* `sort.Slice` belongs to the Go standard library, not to the repository. It is a
  parameter of `BuildTimeline`, constrained only by what its documentation promises;
  the section on `sort.Slice` transcribes its algorithm, to evaluate the order it gives
  to items of equal time.
* Go `int` is `Int`; an `error` is the formatted message, with `%d` as `toString` and
  `%.2f` as `formatFixed2`.
* `strings.ToLower` is a parameter `toLower` of the functions that call it (its Unicode
  tables are not part of the repository); `asciiToLower` is used on test data. An `int64`
  subtraction wraps around (`wrapInt64`).
* The file system, the TTS provider and ffmpeg are an explicit outside world
  (`AudioWorld`); `SaveFullAudio` returns its error together with the ffmpeg invocation
  it made and the temporary files it left. Log output is not modelled.
-/

namespace GoBackend

/-! ## Go `float64` arithmetic -/

/-- The power `2^k` of two, for an integer `k`. -/
def pow2 (k : ℤ) : ℚ :=
  if 0 ≤ k then ((2 ^ k.toNat : ℕ) : ℚ) else 1 / ((2 ^ (-k).toNat : ℕ) : ℚ)

/-- The absolute value of a rational. -/
def absRat (q : ℚ) : ℚ := if q < 0 then -q else q

/-- Rounding of a rational to the nearest integer, a tie going to the even one. -/
def roundHalfEven (q : ℚ) : ℤ :=
  if q - (Rat.floor q : ℤ) < 1 / 2 then Rat.floor q
  else if 1 / 2 < q - (Rat.floor q : ℤ) then Rat.floor q + 1
  else if Rat.floor q % 2 = 0 then Rat.floor q else Rat.floor q + 1

/-- The number of halvings that bring `n` below 2; `fuel` bounds the recursion. -/
def log2Loop : ℕ → ℕ → ℕ
  | 0, _ => 0
  | fuel + 1, n => if n < 2 then 0 else log2Loop fuel (n / 2) + 1

/-- The position of the leading bit of `n`: the floor of its binary logarithm (0 for 0). -/
def floorLog2 (n : ℕ) : ℕ := log2Loop n n

/-- The binary exponent of a non-zero rational: the `k` with `2^k <= |q| < 2^(k+1)`. -/
def binade (q : ℚ) : ℤ :=
  let k : ℤ := (floorLog2 q.num.natAbs : ℤ) - (floorLog2 q.den : ℤ)
  if pow2 k ≤ absRat q then k else k - 1

/-- The exponent of the unit in the last place of the `float64` values of the magnitude
of `q`: 53 significant bits, and no exponent below that of the subnormal numbers. -/
def ulpExp (q : ℚ) : ℤ := if binade q - 52 < -1074 then -1074 else binade q - 52

/-- Rounding to `float64` precision: the nearest multiple of the unit in the last place,
a tie going to the even multiple (IEEE 754 round-to-nearest-even). -/
def round64 (q : ℚ) : ℚ := roundHalfEven (q / pow2 (ulpExp q)) * pow2 (ulpExp q)

/-- Go type `float64`, finite values: the rationals that rounding leaves unchanged. -/
structure F64 where
  val : ℚ
  rep : round64 val = val

/-- The `float64` nearest to a rational. (Rounding twice is rounding once,
`round64_idem`, so the first branch is always the one taken.) -/
def F64.ofRat (q : ℚ) : F64 :=
  if h : round64 (round64 q) = round64 q then ⟨round64 q, h⟩ else ⟨0, by decide!⟩

instance : Add F64 := ⟨fun a b => F64.ofRat (a.val + b.val)⟩
instance : Sub F64 := ⟨fun a b => F64.ofRat (a.val - b.val)⟩
instance : Mul F64 := ⟨fun a b => F64.ofRat (a.val * b.val)⟩
instance : Div F64 := ⟨fun a b => F64.ofRat (a.val / b.val)⟩
instance : OfScientific F64 := ⟨fun m s e => F64.ofRat (OfScientific.ofScientific m s e)⟩
instance (n : ℕ) : OfNat F64 n := ⟨F64.ofRat n⟩
instance : Neg F64 := ⟨fun a => F64.ofRat (-a.val)⟩
instance : Inhabited F64 := ⟨0⟩

instance : LE F64 := ⟨fun a b => a.val ≤ b.val⟩
instance : LT F64 := ⟨fun a b => a.val < b.val⟩
instance (a b : F64) : Decidable (a ≤ b) := inferInstanceAs (Decidable (a.val ≤ b.val))
instance (a b : F64) : Decidable (a < b) := inferInstanceAs (Decidable (a.val < b.val))
instance : DecidableEq F64 := fun a b =>
  decidable_of_iff (a.val = b.val)
    ⟨fun h => by cases a; cases b; simp_all, fun h => by rw [h]⟩

/-- Comparison of `float64` values is comparison of the numbers they stand for. -/
instance : LinearOrder F64 where
  le_refl a := le_refl a.val
  le_trans a b c h1 h2 := le_trans (α := ℚ) h1 h2
  lt_iff_le_not_le a b := lt_iff_le_not_le (α := ℚ)
  le_antisymm a b h1 h2 := by
    cases a; cases b
    have := le_antisymm (α := ℚ) h1 h2
    simp_all
  le_total a b := le_total a.val b.val
  decidableLE := inferInstance
  decidableLT := inferInstance
  decidableEq := inferInstance

/-- Go's conversion `float64(n)` of an integer. -/
def F64.ofInt (n : Int) : F64 := F64.ofRat n

/-! ## Data model (`internal/models`) -/

/-- Go type `models.BoundingBox`. -/
structure BoundingBox where
  X : F64
  Y : F64
  Width : F64
  Height : F64
  deriving DecidableEq

/-- Go type `models.TimelineItem`. The `map[string]interface{}` target is an optional
association list (`none` is the nil map). -/
structure TimelineItem where
  T : F64
  Kind : String
  Word : String
  PunctuatedWord : String
  Confidence : F64
  Action : String
  Target : Option (List (String × String))
  Bounds : Option BoundingBox
  deriving DecidableEq

/-- Go type `models.Window`. -/
structure Window where
  Start : F64
  End : F64
  deriving DecidableEq

/-- Go type `models.DeepgramWord`. -/
structure DeepgramWord where
  Word : String
  Start : F64
  End : F64
  Confidence : F64
  PunctuatedWord : String
  deriving DecidableEq

/-- Go type `models.DeepgramResult`. -/
structure DeepgramResult where
  Words : List DeepgramWord
  deriving DecidableEq

/-! ## `windows.ExtractNarrationWindows` -/

/-- The local type `speechSegment` of `ExtractNarrationWindows`
(`end_` is the Go field `end`). -/
structure speechSegment where
  start : F64
  end_ : F64
  words : List TimelineItem
  deriving DecidableEq

/-- The segment opened by a speech word: `speechSegment{start: item.T, end: item.T,
words: {item}}`. -/
def newSegment (item : TimelineItem) : speechSegment :=
  { start := item.T, end_ := item.T, words := [item] }

/-- State of the grouping loop: `segments` and the nil-able `currentSegment`. -/
abbrev GroupState := List speechSegment × Option speechSegment

/-- One iteration of the grouping loop (extract.go lines 27-57). -/
def groupStep (st : GroupState) (item : TimelineItem) : GroupState :=
  if item.Kind ≠ "speech_word" then st
  else
    match st.2 with
    | none => (st.1, some (newSegment item))
    | some cur =>
      let gap := item.T - cur.end_
      if gap > 0.8 then
        (st.1 ++ [cur], some (newSegment item))
      else
        (st.1, some { cur with end_ := item.T, words := cur.words ++ [item] })

/-- The grouping loop over the whole timeline, from `segments = nil`,
`currentSegment = nil`. -/
def groupSpeech (timeline : List TimelineItem) : GroupState :=
  timeline.foldl groupStep ([], none)

/-- Close the final segment (extract.go lines 60-62). -/
def closeFinal (st : GroupState) : List speechSegment :=
  match st.2 with
  | none => st.1
  | some cur => st.1 ++ [cur]

/-- The `segments` slice when the conversion loop starts. -/
def speechSegments (timeline : List TimelineItem) : List speechSegment :=
  closeFinal (groupSpeech timeline)

/-- State of the conversion loop: `windows` and `cursor`. -/
abbrev WindowState := List Window × F64

/-- One iteration of the conversion loop (extract.go lines 67-83). -/
def windowStep (st : WindowState) (seg : speechSegment) : WindowState :=
  let windows := st.1
  let cursor := st.2
  let windows :=
    if seg.start > cursor ∧ (seg.start - cursor) > 0.5 then
      windows ++ [{ Start := cursor, End := seg.start }]
    else windows
  let windows := windows ++ [{ Start := seg.start, End := seg.end_ + 0.3 }]
  (windows, seg.end_ + 0.3)

/-- The final action window (extract.go lines 86-91). -/
def finalWindow (st : WindowState) (videoDuration : F64) : List Window :=
  if st.2 < videoDuration ∧ (videoDuration - st.2) > 0.5 then
    st.1 ++ [{ Start := st.2, End := videoDuration }]
  else st.1

/-- Go function `windows.ExtractNarrationWindows`. -/
def ExtractNarrationWindows (timeline : List TimelineItem) (videoDuration : F64) :
    List Window :=
  finalWindow ((speechSegments timeline).foldl windowStep ([], 0)) videoDuration

/-! ## `validate.validateWindows` -/

/-- State of the loop of `validateWindows`: the index `i` and `lastEnd`. -/
abbrev ValidateState := Nat × F64

/-- One iteration of the loop of `validateWindows` (validate.go lines 56-75);
the error is the formatted message. -/
def validateWindowsStep (videoDuration : F64) (st : ValidateState) (w : Window) :
    Except String ValidateState :=
  if w.Start < 0 ∨ w.End < 0 then
    .error ("window " ++ toString st.1 ++ " has negative time")
  else if w.Start ≥ w.End then
    .error ("window " ++ toString st.1 ++ " has invalid range")
  else if w.End > videoDuration then
    .error ("window " ++ toString st.1 ++ " exceeds video duration")
  else if w.Start < st.2 then
    .error ("window " ++ toString st.1 ++ " overlaps previous window")
  else .ok (st.1 + 1, w.End)

/-- The loop of `validateWindows` from state `st`: stops at the first error. -/
def validateWindowsFrom (videoDuration : F64) :
    ValidateState → List Window → Except String Unit
  | _, [] => .ok ()
  | st, w :: ws =>
    match validateWindowsStep videoDuration st w with
    | .error e => .error e
    | .ok st' => validateWindowsFrom videoDuration st' ws

/-- Go function `validate.validateWindows`: `.ok ()` is the nil error. -/
def validateWindows (videoDuration : F64) (windows : List Window) : Except String Unit :=
  validateWindowsFrom videoDuration (0, 0) windows

/-! ## `timeline.BuildTimeline` -/

/-- The timeline item appended for a speech word (build.go lines 19-25); the fields
not named in the composite literal keep their zero values. -/
def speechItem (w : DeepgramWord) : TimelineItem :=
  { T := w.Start, Kind := "speech_word", Word := w.Word,
    PunctuatedWord := w.PunctuatedWord, Confidence := w.Confidence,
    Action := "", Target := none, Bounds := none }

/-- The slice `tl` just before the call of `sort.Slice` (build.go lines 15-29):
one item per word when `deepgram != nil`, then `append(tl, actions...)`. -/
def appendedTimeline (deepgram : Option DeepgramResult) (actions : List TimelineItem) :
    List TimelineItem :=
  let tl : List TimelineItem :=
    match deepgram with
    | none => []
    | some d => d.Words.foldl (fun tl w => tl ++ [speechItem w]) []
  tl ++ actions

/-- The comparison passed to `sort.Slice`: `tl[i].T < tl[j].T`. -/
def lessByT (a b : TimelineItem) : Bool := decide (a.T < b.T)

/-- Type of `sort.Slice`, as a function from the comparison and the slice to the
sorted slice. -/
abbrev SortSlice := (TimelineItem → TimelineItem → Bool) → List TimelineItem → List TimelineItem

/-- Go function `timeline.BuildTimeline`, with the standard library's `sort.Slice` as parameter. -/
def BuildTimeline (sortSlice : SortSlice) (deepgram : Option DeepgramResult)
    (actions : List TimelineItem) : List TimelineItem :=
  sortSlice lessByT (appendedTimeline deepgram actions)

/-- What Go requires of a `less` function: a strict weak ordering (irreflexive,
transitive, and with transitive incomparability). -/
def StrictWeakOrder (less : TimelineItem → TimelineItem → Bool) : Prop :=
  (∀ a, less a a = false) ∧
  (∀ a b c, less a b = true → less b c = true → less a c = true) ∧
  (∀ a b c, less a b = false → less b c = false → less a c = false)

/-- What the documentation of `sort.Slice` promises: for a valid `less` the result is
a rearrangement of the slice in which no later element is `less` than an earlier one.
Nothing is promised about the order of equal elements ("The sort is not guaranteed to
be stable"). -/
def SortSliceContract (sortSlice : SortSlice) : Prop :=
  ∀ less xs, StrictWeakOrder less →
    (sortSlice less xs).Perm xs ∧
    (sortSlice less xs).Pairwise (fun a b => less b a = false)

/-- A stable implementation of `sort.Slice`: insertion sort. -/
def insertionSortSlice : SortSlice :=
  fun less xs => List.insertionSort (fun a b => less b a = false) xs

/-- Stability with respect to `T`: the items of each time `t` appear in `out` in the
order they have in `inp`. -/
def StableByTime (out inp : List TimelineItem) : Prop :=
  ∀ t : F64, out.filter (fun x => decide (x.T = t)) = inp.filter (fun x => decide (x.T = t))

/-- A speech word item at time `t` (test data). -/
def word (t : F64) : TimelineItem :=
  { T := t, Kind := "speech_word", Word := "w", PunctuatedWord := "w", Confidence := 1,
    Action := "", Target := none, Bounds := none }

/-- An action item at time `t` (test data). -/
def click (t : F64) : TimelineItem :=
  { T := t, Kind := "action", Word := "", PunctuatedWord := "", Confidence := 0,
    Action := "click", Target := none, Bounds := none }

/-- The reference procedure of the specification (section 4.2, steps 2 and 3), written
from the specification's words: for each segment, a gap-fill window `[cursor, segStart]`
when `segStart - cursor` exceeds 0.5, then the speech window `[segStart, segEnd + 0.3]`,
then the cursor advances to `segEnd + 0.3`; after the last segment a final window
`[cursor, totalDuration]` when `totalDuration - cursor` exceeds 0.5. Sums, differences
and comparisons are those of `float64`. -/
def referenceWindows (totalDuration : F64) : F64 → List speechSegment → List Window
  | cursor, [] =>
    if totalDuration - cursor > 0.5 then [{ Start := cursor, End := totalDuration }] else []
  | cursor, seg :: rest =>
    (if seg.start - cursor > 0.5 then [{ Start := cursor, End := seg.start }] else []) ++
      { Start := seg.start, End := seg.end_ + 0.3 } ::
        referenceWindows totalDuration (seg.end_ + 0.3) rest

/-! ## Recursive views of the two loops (proof devices) -/

/-- What the grouping loop followed by `closeFinal` adds to `segments` when it resumes
on `items` with `currentSegment = &cur`. -/
def groupFrom : speechSegment → List TimelineItem → List speechSegment
  | cur, [] => [cur]
  | cur, item :: items =>
    if item.Kind ≠ "speech_word" then groupFrom cur items
    else if item.T - cur.end_ > 0.8 then cur :: groupFrom (newSegment item) items
    else groupFrom { cur with end_ := item.T, words := cur.words ++ [item] } items

/-- What the grouping loop followed by `closeFinal` adds to `segments` when it resumes
on `items` with `currentSegment = nil`. -/
def groupNone : List TimelineItem → List speechSegment
  | [] => []
  | item :: items =>
    if item.Kind ≠ "speech_word" then groupNone items
    else groupFrom (newSegment item) items

/-- What the conversion loop followed by the final-window test adds to `windows` when it
resumes on `segs` with the given cursor. -/
def windowsFrom (videoDuration : F64) : F64 → List speechSegment → List Window
  | cursor, [] =>
    if cursor < videoDuration ∧ (videoDuration - cursor) > 0.5 then
      [{ Start := cursor, End := videoDuration }]
    else []
  | cursor, seg :: rest =>
    (if seg.start > cursor ∧ (seg.start - cursor) > 0.5 then
        [{ Start := cursor, End := seg.start }]
      else []) ++
      { Start := seg.start, End := seg.end_ + 0.3 } ::
        windowsFrom videoDuration (seg.end_ + 0.3) rest

/-- The timeline is in non-decreasing time order. -/
def TimeSorted (timeline : List TimelineItem) : Prop :=
  timeline.Pairwise (fun a b => a.T ≤ b.T)

/-- Adjacent windows do not overlap: `window[i].End <= window[i+1].Start`. -/
def AdjacentDisjoint (windows : List Window) : Prop :=
  windows.Chain' (fun a b => a.End ≤ b.Start)

/-- The speech words of a timeline, in timeline order. -/
def speechWords (timeline : List TimelineItem) : List TimelineItem :=
  timeline.filter (fun x => decide (x.Kind = "speech_word"))

/-- The words of a list of segments, in order. -/
def flatWords : List speechSegment → List TimelineItem
  | [] => []
  | seg :: rest => seg.words ++ flatWords rest

/-- The speech word `w1` that comes right after the speech words of `pre` and the next
speech word `w2` lie in the same segment of `segs`: some segment holds `w1` directly
followed by `w2`, and the words before that occurrence of `w1` (those of the earlier
segments, then those earlier in this segment) are the speech words of `pre`. -/
def SameSegment (pre : List TimelineItem) (w1 w2 : TimelineItem)
    (segs : List speechSegment) : Prop :=
  ∃ (A : List speechSegment) (seg : speechSegment) (B : List speechSegment)
    (X Y : List TimelineItem),
    segs = A ++ seg :: B ∧ seg.words = X ++ w1 :: w2 :: Y ∧
      flatWords A ++ X = speechWords pre

/-- Shape of the segment list of a time-sorted timeline: every segment has
`start <= end`, and each segment starts more than 0.8 after the end of the one
before it. -/
def GoodSegments (segs : List speechSegment) : Prop :=
  (∀ s ∈ segs, s.start ≤ s.end_) ∧ segs.Chain' (fun a b => b.start - a.end_ > 0.8)

/-! ## Narrations, audio chunks, instructions and effects (`internal/models`) -/

/-- Go type `models.Narration`. -/
structure Narration where
  WindowIndex : Int
  Start : F64
  End : F64
  Text : String
  MusicStyle : String
  deriving DecidableEq

/-- Go type `models.AudioChunk`; `AudioBytes` is the byte slice, as a list of numbers. -/
structure AudioChunk where
  WindowIndex : Int
  Start : F64
  End : F64
  Duration : F64
  Text : String
  Provider : String
  MusicStyle : String
  AudioURL : String
  AudioBytes : List Nat
  deriving DecidableEq

/-- Go type `models.ActionInstruction`; the metadata map is an optional association
list. -/
structure ActionInstruction where
  Timestamp : F64
  Action : String
  Selector : String
  Bounds : Option BoundingBox
  Metadata : Option (List (String × String))
  Effects : List String
  deriving DecidableEq

/-- Go type `models.EffectTarget`. -/
structure EffectTarget where
  Selector : String
  Bounds : Option BoundingBox
  deriving DecidableEq

/-- Go type `models.DisplayEffect` (`Type_` is the Go field `Type`); the style map is an
optional association list. -/
structure DisplayEffect where
  Start : F64
  End : F64
  Type_ : String
  Target : Option EffectTarget
  Style : Option (List (String × String))
  deriving DecidableEq

/-! ## Standard-library helpers used by the code -/

/-- Go's `unicode.IsSpace`: the white space characters of Unicode. -/
def isSpace (c : Char) : Bool :=
  let n := c.toNat
  n = 0x09 || n = 0x0A || n = 0x0B || n = 0x0C || n = 0x0D || n = 0x20 || n = 0x85 ||
    n = 0xA0 || n = 0x1680 || (0x2000 ≤ n && n ≤ 0x200A) || n = 0x2028 || n = 0x2029 ||
    n = 0x202F || n = 0x205F || n = 0x3000

/-- Go's `strings.TrimSpace`: the string without its leading and trailing white space. -/
def TrimSpace (s : String) : String :=
  String.mk ((s.data.dropWhile isSpace).reverse.dropWhile isSpace).reverse

/-- Go's `%.2f` verb: the exact value of the `float64` to two decimals, rounded to
nearest (ties to even), with a minus sign for negative values. -/
def formatFixed2 (x : F64) : String :=
  let q : ℚ := x.val
  let scaled : ℚ := absRat q * 100
  let fl : Nat := (Rat.floor scaled).toNat
  let frac : ℚ := scaled - fl
  let n : Nat :=
    if frac > 1 / 2 then fl + 1
    else if frac < 1 / 2 then fl
    else if fl % 2 = 0 then fl else fl + 1
  let cents := n % 100
  (if q < 0 then "-" else "") ++ toString (n / 100) ++ "." ++
    (if cents < 10 then "0" else "") ++ toString cents

/-- A `for i, x := range xs` loop whose body either returns an error (`some e`) or goes
on to the next element (`none`), resumed at index `i`; `.ok ()` is the nil error
returned after the loop. -/
def firstErrorFrom {α : Type} (body : Nat → α → Option String) :
    Nat → List α → Except String Unit
  | _, [] => .ok ()
  | i, x :: xs =>
    match body i x with
    | some e => .error e
    | none => firstErrorFrom body (i + 1) xs

/-! ## `audio.MapNarrationsToAudioChunks` -/

/-- The composite literal `models.AudioChunk{...}` of `MapNarrationsToAudioChunks`
(tts.go lines 207-214); the fields it does not name keep their zero values. -/
def chunkOf (provider : String) (n : Narration) : AudioChunk :=
  { WindowIndex := n.WindowIndex, Start := n.Start, End := n.End, Duration := 0,
    Text := n.Text, Provider := provider, MusicStyle := n.MusicStyle, AudioURL := "",
    AudioBytes := [] }

/-- One iteration of the loop of `MapNarrationsToAudioChunks` (tts.go lines 200-216). -/
def mapNarrationsStep (provider : String) (chunks : List AudioChunk) (n : Narration) :
    List AudioChunk :=
  if TrimSpace n.Text = "" then chunks
  else
    let duration := n.End - n.Start
    if duration ≤ 0 then chunks
    else chunks ++ [chunkOf provider n]

set_option linter.unusedVariables false in
/-- Go function `audio.MapNarrationsToAudioChunks`: the chunks and the error (`none` is
the nil error). The parameter `windows` is not read by the code. -/
def MapNarrationsToAudioChunks (narrations : List Narration) (windows : List Window)
    (provider : String) : List AudioChunk × Option String :=
  (narrations.foldl (mapNarrationsStep provider) [], none)

/-! ## `validate.ValidateFinalOutput` and the other validators -/

/-- Go constant `MaxAllowedDriftSec`. -/
def MaxAllowedDriftSec : F64 := 0.15

/-- Body of the loop of `validateNarrations` (validate.go lines 86-104). After the index
test `windows[n.WindowIndex]` is in range, so the default of `getD` is never used. -/
def validateNarrationsBody (windows : List Window) (n : Narration) : Option String :=
  if n.Text = "" then none
  else if n.WindowIndex < 0 ∨ n.WindowIndex ≥ (windows.length : Int) then
    some ("narration references invalid window " ++ toString n.WindowIndex)
  else
    let w := windows.getD n.WindowIndex.toNat ⟨0, 0⟩
    if n.Start < w.Start ∨ n.End > w.End then
      some ("narration out of window bounds (" ++ formatFixed2 n.Start ++ "–" ++
        formatFixed2 n.End ++ " vs " ++ formatFixed2 w.Start ++ "–" ++
        formatFixed2 w.End ++ ")")
    else none

/-- Go function `validate.validateNarrations`. -/
def validateNarrations (windows : List Window) (narrations : List Narration) :
    Except String Unit :=
  firstErrorFrom (fun _ n => validateNarrationsBody windows n) 0 narrations

/-- Body of the loop of `validateAudioSync` (validate.go lines 115-134). -/
def validateAudioSyncBody (windows : List Window) (a : AudioChunk) : Option String :=
  if a.WindowIndex < 0 ∨ a.WindowIndex ≥ (windows.length : Int) then
    some ("audio chunk references invalid window " ++ toString a.WindowIndex)
  else
    let w := windows.getD a.WindowIndex.toNat ⟨0, 0⟩
    let windowDur := w.End - w.Start
    if a.Duration ≤ 0 then
      some "audio duration must be positive"
    else if a.Duration > windowDur + MaxAllowedDriftSec then
      some ("audio duration " ++ formatFixed2 a.Duration ++ "s exceeds window " ++
        formatFixed2 windowDur ++ "s")
    else none

/-- Go function `validate.validateAudioSync`. -/
def validateAudioSync (windows : List Window) (audioChunks : List AudioChunk) :
    Except String Unit :=
  firstErrorFrom (fun _ a => validateAudioSyncBody windows a) 0 audioChunks

/-- Body of the loop of `validateActions` (validate.go lines 145-161). -/
def validateActionsBody (videoDuration : F64) (i : Nat) (a : ActionInstruction) :
    Option String :=
  if a.Timestamp < 0 ∨ a.Timestamp > videoDuration then
    some ("action " ++ toString i ++ " has invalid timestamp " ++ formatFixed2 a.Timestamp)
  else if a.Action = "" then
    some ("action " ++ toString i ++ " has empty action type")
  else
    match a.Bounds with
    | some b =>
      if b.Width ≤ 0 ∨ b.Height ≤ 0 then
        some ("action " ++ toString i ++ " has invalid bounds")
      else none
    | none => none

/-- Go function `validate.validateActions`. -/
def validateActions (videoDuration : F64) (actions : List ActionInstruction) :
    Except String Unit :=
  firstErrorFrom (validateActionsBody videoDuration) 0 actions

/-- The bounds read by `e.Target != nil && e.Target.Bounds != nil`. -/
def effectBounds (e : DisplayEffect) : Option BoundingBox :=
  match e.Target with
  | some t => t.Bounds
  | none => none

/-- Body of the loop of `validateEffects` (validate.go lines 172-195). -/
def validateEffectsBody (videoDuration : F64) (i : Nat) (e : DisplayEffect) :
    Option String :=
  if e.Start < 0 ∨ e.End < 0 then
    some ("effect " ++ toString i ++ " has negative time")
  else if e.Start ≥ e.End then
    some ("effect " ++ toString i ++ " has invalid range")
  else if e.End > videoDuration then
    some ("effect " ++ toString i ++ " exceeds video duration")
  else if e.Type_ = "" then
    some ("effect " ++ toString i ++ " missing type")
  else
    match effectBounds e with
    | some b =>
      if b.Width ≤ 0 ∨ b.Height ≤ 0 then
        some ("effect " ++ toString i ++ " has invalid bounds")
      else none
    | none => none

/-- Go function `validate.validateEffects`. -/
def validateEffects (videoDuration : F64) (effects : List DisplayEffect) :
    Except String Unit :=
  firstErrorFrom (validateEffectsBody videoDuration) 0 effects

/-- Go function `validate.ValidateFinalOutput`. -/
def ValidateFinalOutput (videoDuration : F64) (windows : List Window)
    (narrations : List Narration) (audioChunks : List AudioChunk)
    (actions : List ActionInstruction) (effects : List DisplayEffect) :
    Except String Unit :=
  if videoDuration ≤ 0 then .error "invalid video duration"
  else
    match validateWindows videoDuration windows with
    | .error err => .error err
    | .ok _ =>
      match validateNarrations windows narrations with
      | .error err => .error err
      | .ok _ =>
        match validateAudioSync windows audioChunks with
        | .error err => .error err
        | .ok _ =>
          match validateActions videoDuration actions with
          | .error err => .error err
          | .ok _ =>
            match validateEffects videoDuration effects with
            | .error err => .error err
            | .ok _ => .ok ()

/-- The first error of a list of check results, `.ok ()` when there is none. -/
def firstFailure : List (Except String Unit) → Except String Unit
  | [] => .ok ()
  | .error e :: _ => .error e
  | .ok _ :: rest => firstFailure rest

/-- The duration check of `ValidateFinalOutput` as a check result. -/
def durationCheck (videoDuration : F64) : Except String Unit :=
  if videoDuration ≤ 0 then .error "invalid video duration" else .ok ()

/-- A text is empty or holds white space only. -/
def blankText (s : String) : Bool := s.data.all isSpace

/-- A narration that `MapNarrationsToAudioChunks` keeps: its text is not blank and
`End - Start > 0`. -/
def keptNarration (n : Narration) : Bool := !blankText n.Text && decide (n.End - n.Start > 0)

/-- A chunk references a valid index into `windows` and lies within that window. -/
def ChunkInWindow (windows : List Window) (c : AudioChunk) : Prop :=
  0 ≤ c.WindowIndex ∧ c.WindowIndex < (windows.length : Int) ∧
    ∃ w, windows[c.WindowIndex.toNat]? = some w ∧ w.Start ≤ c.Start ∧ c.End ≤ w.End

/-- A narration references a valid index into `windows` and lies within that window. -/
def NarrationInWindow (windows : List Window) (n : Narration) : Prop :=
  0 ≤ n.WindowIndex ∧ n.WindowIndex < (windows.length : Int) ∧
    ∃ w, windows[n.WindowIndex.toNat]? = some w ∧ w.Start ≤ n.Start ∧ n.End ≤ w.End

/-- A window is well formed for duration `D`: non-negative bounds, `Start < End`, and
`End <= D`. -/
def WindowOk (videoDuration : F64) (w : Window) : Prop :=
  0 ≤ w.Start ∧ 0 ≤ w.End ∧ w.Start < w.End ∧ w.End ≤ videoDuration

/-- The messages `validateWindows` can return for the window at index `i`. -/
def windowMessages (i : Nat) : List String :=
  ["window " ++ toString i ++ " has negative time",
   "window " ++ toString i ++ " has invalid range",
   "window " ++ toString i ++ " exceeds video duration",
   "window " ++ toString i ++ " overlaps previous window"]

/-- The messages `validateNarrations` can return for the narration `n`: they name the
window index it references or its times and those of its window, not its position. -/
def narrationMessages (windows : List Window) (n : Narration) : List String :=
  ["narration references invalid window " ++ toString n.WindowIndex,
   "narration out of window bounds (" ++ formatFixed2 n.Start ++ "–" ++
     formatFixed2 n.End ++ " vs " ++
     formatFixed2 (windows.getD n.WindowIndex.toNat ⟨0, 0⟩).Start ++ "–" ++
     formatFixed2 (windows.getD n.WindowIndex.toNat ⟨0, 0⟩).End ++ ")"]

/-- The messages `validateAudioSync` can return for the chunk `a`: they name the window
index it references or its duration and that of its window, not its position. -/
def audioMessages (windows : List Window) (a : AudioChunk) : List String :=
  ["audio chunk references invalid window " ++ toString a.WindowIndex,
   "audio duration must be positive",
   "audio duration " ++ formatFixed2 a.Duration ++ "s exceeds window " ++
     formatFixed2 ((windows.getD a.WindowIndex.toNat ⟨0, 0⟩).End
       - (windows.getD a.WindowIndex.toNat ⟨0, 0⟩).Start) ++ "s"]

/-- The messages `validateActions` can return for the action `a` at index `i`. -/
def actionMessages (i : Nat) (a : ActionInstruction) : List String :=
  ["action " ++ toString i ++ " has invalid timestamp " ++ formatFixed2 a.Timestamp,
   "action " ++ toString i ++ " has empty action type",
   "action " ++ toString i ++ " has invalid bounds"]

/-- The messages `validateEffects` can return for the effect at index `i`. -/
def effectMessages (i : Nat) : List String :=
  ["effect " ++ toString i ++ " has negative time",
   "effect " ++ toString i ++ " has invalid range",
   "effect " ++ toString i ++ " exceeds video duration",
   "effect " ++ toString i ++ " missing type",
   "effect " ++ toString i ++ " has invalid bounds"]

/-! ## `audio.GenerateAudioBytes` -/

/-- Go constant `TTSDeepgram`. -/
def TTSDeepgram : String := "deepgram"

/-- Go constant `TTSElevenLab`. -/
def TTSElevenLab : String := "elevenlabs"

/-- What the outside world answers to the HTTP request of `GenerateAudioBytes`:
`client.Do` fails, or a response arrives with its status code, status line, body bytes
and the error of `io.ReadAll`, if any. (`http.NewRequest` cannot fail on the constant
method and URL of the code.) -/
inductive HttpOutcome where
  | transportError (msg : String)
  | response (statusCode : Nat) (status : String) (body : List Nat)
      (readErr : Option String)
  deriving DecidableEq

/-- Result of `GenerateAudioBytes`: the returned bytes and error, and the texts posted to
the provider during the call (none when no external call was made). -/
structure AudioBytesResult where
  bytes : List Nat
  err : Option String
  requests : List String
  deriving DecidableEq

/-- Go's `string(body)`: one character per byte (exact for ASCII bodies). -/
def bytesToString (body : List Nat) : String :=
  String.mk (body.map Char.ofNat)

/-- Go function `audio.GenerateAudioBytes`, given the outcome the HTTP round trip would
have. -/
def GenerateAudioBytes (outcome : HttpOutcome) (text : String) (provider : String) :
    AudioBytesResult :=
  if TrimSpace text = "" then
    { bytes := [], err := some "empty text", requests := [] }
  else
    let text := (text.replace "!" "!. ").replace "?" "?. "
    if provider = TTSDeepgram then
      match outcome with
      | .transportError msg => { bytes := [], err := some msg, requests := [text] }
      | .response statusCode status body readErr =>
        if statusCode ≠ 200 then
          { bytes := [],
            err := some ("deepgram error: " ++ status ++ " - " ++ bytesToString body),
            requests := [text] }
        else { bytes := body, err := readErr, requests := [text] }
    else if provider = TTSElevenLab then
      { bytes := [], err := some "elevenlabs not configured", requests := [] }
    else
      { bytes := [], err := some ("unsupported provider: " ++ provider), requests := [] }

/-! ## `audio.SaveFullAudio` -/

/-- The outside world of one run of `SaveFullAudio`: the result of `os.MkdirAll`, the
process id, the outcome of the HTTP request made for chunk `i`, the result of
`os.WriteFile` for chunk `i`, whether `os.Stat` finds a path, and the result of running
ffmpeg. -/
structure AudioWorld where
  mkdirErr : Option String
  pid : Nat
  synth : Nat → HttpOutcome
  writeErr : Nat → Option String
  statOk : String → Bool
  ffmpegErr : Option String

/-- The directory `filepath.Join("instructions", "temp_audio")`. -/
def dirPath : String := "instructions/temp_audio"

/-- The temporary file of chunk `i`:
`filepath.Join(dirPath, fmt.Sprintf("chunk_%d_%d.mp3", i, os.Getpid()))`. -/
def tempFileName (pid i : Nat) : String :=
  dirPath ++ "/" ++ ("chunk_" ++ toString i ++ "_" ++ toString pid ++ ".mp3")

/-- The music file of a style: `filepath.Join("assets", "music", style+".mp3")`. -/
def musicPath (style : String) : String :=
  "assets/music/" ++ (style ++ ".mp3")

/-- The slice `styles` of `SaveFullAudio`. -/
def styles : List String := ["upbeat", "tech", "luxury", "travel", "minimal"]

/-- Go's conversion `int(x)` of a float: truncation toward zero. -/
def truncToInt (x : F64) : Int :=
  if 0 ≤ x.val then Rat.floor x.val else -Rat.floor (-x.val)

/-- The zero value of `models.AudioChunk` (default of an index that is never out of
range in the code). -/
def zeroChunk : AudioChunk :=
  { WindowIndex := 0, Start := 0, End := 0, Duration := 0, Text := "", Provider := "",
    MusicStyle := "", AudioURL := "", AudioBytes := [] }

/-- The synthesis loop of `SaveFullAudio` (tts.go lines 38-49), resumed at index `i`
with the temporary files written so far: the final `tempFiles` and the error returned
from inside the loop, if any. A failed synthesis skips the chunk; a failed write
returns. -/
def synthLoop (world : AudioWorld) (provider : String) :
    Nat → List AudioChunk → List String → List String × Option String
  | _, [], tempFiles => (tempFiles, none)
  | i, chunk :: rest, tempFiles =>
    match (GenerateAudioBytes (world.synth i) chunk.Text provider).err with
    | some _ => synthLoop world provider (i + 1) rest tempFiles
    | none =>
      let tempFile := tempFileName world.pid i
      match world.writeErr i with
      | some e => (tempFiles, some ("failed to write temp chunk: " ++ e))
      | none => synthLoop world provider (i + 1) rest (tempFiles ++ [tempFile])

/-- State of the loop over `styles`: `musicMap`, the music inputs appended to `args`, and
`musicIdx`. -/
abbrev MusicState := List (String × Nat) × List String × Nat

/-- One iteration of the loop over `styles` (tts.go lines 71-78). -/
def musicMapStep (world : AudioWorld) (st : MusicState) (style : String) : MusicState :=
  let musicPath := musicPath style
  if world.statOk musicPath = true then
    (st.1 ++ [(style, st.2.2)], st.2.1 ++ [musicPath], st.2.2 + 1)
  else st

/-- The loop over `styles`, from `musicIdx := len(tempFiles) + 1`. -/
def buildMusicMap (world : AudioWorld) (tempFiles : List String) : MusicState :=
  styles.foldl (musicMapStep world) ([], [], tempFiles.length + 1)

/-- One entry of `filterParts`, by the arguments of its `fmt.Sprintf`: a voice layer
`[input:a]atrim=duration=durationLimit,...,adelay=delayMs|delayMs[v<label>]` or a music
layer `[inputIdx:a]atrim=duration=duration,volume=0.08,adelay=delayMs|delayMs[bg<label>]`. -/
inductive FilterPart where
  | voice (input : Nat) (durationLimit : F64) (delayMs : Int) (label : Nat)
  | music (inputIdx : Nat) (duration : F64) (delayMs : Int) (label : Nat)
  deriving DecidableEq

/-- The `durationLimit` of the voice loop at index `i` (tts.go lines 92-97). -/
def durationLimit (chunks : List AudioChunk) (totalDuration : F64) (i : Nat)
    (chunk : AudioChunk) : F64 :=
  if (i : Int) < (chunks.length : Int) - 1 ∧
      (chunks.getD (i + 1) zeroChunk).Start > chunk.Start then
    ((chunks.getD (i + 1) zeroChunk).Start - chunk.Start) + 0.2
  else if (i : Int) = (chunks.length : Int) - 1 then
    (totalDuration - chunk.Start) + 0.2
  else 100

/-- The voice loop (tts.go lines 85-102), resumed at index `i`: the entries it appends to
`filterParts`. It pairs `chunks[i]` with input `i+1`, the `i`-th temporary file, and
stops at `i >= len(tempFiles)`. -/
def voiceLoop (chunks : List AudioChunk) (tempFiles : List String) (totalDuration : F64) :
    Nat → List AudioChunk → List FilterPart
  | _, [] => []
  | i, chunk :: rest =>
    if i ≥ tempFiles.length then []
    else
      let delayMs := truncToInt (chunk.Start * 1000)
      FilterPart.voice (i + 1) (durationLimit chunks totalDuration i chunk) delayMs (i + 1) ::
        voiceLoop chunks tempFiles totalDuration (i + 1) rest

/-- The `duration` of the music loop at index `i` (tts.go lines 113-116). -/
def musicDuration (chunks : List AudioChunk) (i : Nat) (chunk : AudioChunk) : F64 :=
  if (i : Int) < (chunks.length : Int) - 1 ∧
      (chunks.getD (i + 1) zeroChunk).Start > chunk.Start then
    (chunks.getD (i + 1) zeroChunk).Start - chunk.Start
  else chunk.End - chunk.Start

/-- The style looked up in `musicMap` for a chunk: "upbeat" for the empty style. -/
def chunkStyle (chunk : AudioChunk) : String :=
  if chunk.MusicStyle = "" then "upbeat" else chunk.MusicStyle

/-- The music loop (tts.go lines 105-124), resumed at index `i`: the entries it appends
to `filterParts`. -/
def musicLoop (chunks : List AudioChunk) (musicMap : List (String × Nat)) :
    Nat → List AudioChunk → List FilterPart
  | _, [] => []
  | i, chunk :: rest =>
    match musicMap.lookup (chunkStyle chunk) with
    | none => musicLoop chunks musicMap (i + 1) rest
    | some inputIdx =>
      let duration := musicDuration chunks i chunk
      if duration ≤ 0.1 then musicLoop chunks musicMap (i + 1) rest
      else
        let delayMs := truncToInt (chunk.Start * 1000)
        FilterPart.music inputIdx duration delayMs (i + 1) ::
          musicLoop chunks musicMap (i + 1) rest

/-- The label appended to `mixInputs` with a filter part. -/
def mixLabel : FilterPart → String
  | .voice _ _ _ label => "[v" ++ toString label ++ "]"
  | .music _ _ _ label => "[bg" ++ toString label ++ "]"

/-- The ffmpeg invocation built by `SaveFullAudio`: the duration of the silent base
input, the voice inputs (the temporary files), the music inputs, `filterParts`,
`mixInputs` (the base `[0]`, then one label per filter part) and the output path. -/
structure MixSpec where
  baseDuration : F64
  voiceInputs : List String
  musicInputs : List String
  filterParts : List FilterPart
  mixInputs : List String
  output : String
  deriving DecidableEq

/-- The mix built after the synthesis loop (tts.go lines 55-127). -/
def buildMix (world : AudioWorld) (chunks : List AudioChunk) (tempFiles : List String)
    (filename : String) (totalDuration : F64) : MixSpec :=
  let music := buildMusicMap world tempFiles
  let filterParts :=
    voiceLoop chunks tempFiles totalDuration 0 chunks ++ musicLoop chunks music.1 0 chunks
  { baseDuration := totalDuration, voiceInputs := tempFiles, musicInputs := music.2.1,
    filterParts := filterParts, mixInputs := "[0]" :: filterParts.map mixLabel,
    output := dirPath ++ "/" ++ filename }

/-- The final loop `for _, f := range tempFiles { os.Remove(f) }` on the temporary files
present on disk. -/
def removeAll (tempFiles : List String) (onDisk : List String) : List String :=
  tempFiles.foldl (fun left f => left.filter (fun g => decide (g ≠ f))) onDisk

/-- Result of `SaveFullAudio`: the returned error, the ffmpeg invocation made (if any),
and the temporary chunk files left on disk at return. -/
structure SaveResult where
  err : Option String
  ffmpeg : Option MixSpec
  tempFilesLeft : List String
  deriving DecidableEq

/-- Go function `audio.SaveFullAudio` in the given outside world. -/
def SaveFullAudio (world : AudioWorld) (chunks : List AudioChunk) (provider : String)
    (filename : String) (totalDuration : F64) : SaveResult :=
  match world.mkdirErr with
  | some e =>
    { err := some ("failed to create directory: " ++ e), ffmpeg := none,
      tempFilesLeft := [] }
  | none =>
    match synthLoop world provider 0 chunks [] with
    | (tempFiles, some e) => { err := some e, ffmpeg := none, tempFilesLeft := tempFiles }
    | (tempFiles, none) =>
      if tempFiles.length = 0 then
        { err := some "no audio chunks generated", ffmpeg := none,
          tempFilesLeft := tempFiles }
      else
        let mix := buildMix world chunks tempFiles filename totalDuration
        match world.ffmpegErr with
        | some e =>
          { err := some ("ffmpeg mix error: " ++ e), ffmpeg := some mix,
            tempFilesLeft := tempFiles }
        | none =>
          { err := none, ffmpeg := some mix, tempFilesLeft := removeAll tempFiles tempFiles }

/-- Synthesis of chunk `i` succeeds: `GenerateAudioBytes` returns a nil error. -/
def synthOk (world : AudioWorld) (provider : String) (i : Nat) (chunk : AudioChunk) :
    Bool :=
  (GenerateAudioBytes (world.synth i) chunk.Text provider).err.isNone

/-- The indices, from `i` on, of the chunks whose synthesis succeeds. -/
def succeeded (world : AudioWorld) (provider : String) :
    Nat → List AudioChunk → List Nat
  | _, [] => []
  | i, chunk :: rest =>
    if synthOk world provider i chunk = true then
      i :: succeeded world provider (i + 1) rest
    else succeeded world provider (i + 1) rest

/-- A world for tests: the directory exists, process id 7, every HTTP request answered
`200 OK` with three bytes except that of the chunks listed in `failing`, every write
succeeds, only the music file of "upbeat" exists, and ffmpeg fails exactly when
`ffmpegFails`. -/
def testWorld (failing : List Nat) (ffmpegFails : Bool) : AudioWorld :=
  { mkdirErr := none, pid := 7,
    synth := fun i =>
      if i ∈ failing then .transportError "timeout" else .response 200 "200 OK" [1, 2, 3] none,
    writeErr := fun _ => none,
    statOk := fun p => decide (p = musicPath "upbeat"),
    ffmpegErr := if ffmpegFails = true then some "exit status 1" else none }

/-- The test world in which the write of the temporary file of chunk 1 fails. -/
def failingWriteWorld : AudioWorld :=
  { testWorld [] false with
    writeErr := fun i => if i = 1 then some "disk full" else none }

/-- A chunk for tests, with text "hello" and the empty music style. -/
def testChunk (start stop : F64) : AudioChunk :=
  { WindowIndex := 0, Start := start, End := stop, Duration := 0, Text := "hello",
    Provider := "deepgram", MusicStyle := "", AudioURL := "", AudioBytes := [] }

/-! ## `effects.GenerateEffects` -/

/-- Go constant `EffectCoverageRatio`. -/
def EffectCoverageRatio : F64 := 0.75

/-- Go constant `MinEffectDuration`. -/
def MinEffectDuration : F64 := 0.4

/-- Go constant `MaxZoomScale`. -/
def MaxZoomScale : F64 := 1.15

/-- Go constant `MinZoomScale`. -/
def MinZoomScale : F64 := 1.08

/-- The loop `for _, k := range keys` of the `extract...` helpers: the first key whose
value in the target is a non-empty string, or "". (Values that are not strings are
skipped by the code and are absent from the model.) -/
def firstNonEmpty (target : List (String × String)) : List String → String
  | [] => ""
  | k :: keys =>
    match target.lookup k with
    | some s => if s ≠ "" then s else firstNonEmpty target keys
    | none => firstNonEmpty target keys

/-- Go function `effects.extractSelector`. -/
def effects.extractSelector (action : TimelineItem) : String :=
  match action.Target with
  | none => ""
  | some target => firstNonEmpty target ["selector", "cssSelector", "id", "name"]

/-- Go function `effects.extractLabel`. -/
def extractLabel (action : TimelineItem) : String :=
  match action.Target with
  | none => ""
  | some target => firstNonEmpty target ["text", "ariaLabel", "label", "name"]

/-- Go function `effects.findPrimaryActionForWindow`: `none` is the nil pointer. -/
def findPrimaryActionForWindow : List TimelineItem → Window → Option TimelineItem
  | [], _ => none
  | a :: actions, w =>
    if a.Kind ≠ "action" then findPrimaryActionForWindow actions w
    else if a.T < w.Start ∨ a.T > w.End then findPrimaryActionForWindow actions w
    else if a.Action = "scroll" then findPrimaryActionForWindow actions w
    else some a

/-- Go function `effectForClick`; the nested style map is flattened to text entries. -/
def effectForClick (action : TimelineItem) (start stop : F64) : Option DisplayEffect :=
  match action.Bounds with
  | none => none
  | some b =>
    some { Start := start, End := stop, Type_ := "highlight",
           Target := some { Selector := effects.extractSelector action, Bounds := some b },
           Style := some [("outline", "glow"), ("dimBackground", "true"),
             ("zoom.enabled", "true"), ("zoom.scale", "1.08")] }

/-- Go function `effectForInput`. -/
def effectForInput (action : TimelineItem) (start stop : F64) : Option DisplayEffect :=
  match action.Bounds with
  | none => none
  | some b =>
    some { Start := start, End := stop, Type_ := "focus",
           Target := some { Selector := effects.extractSelector action, Bounds := some b },
           Style := some [("borderColor", "#0066ff"), ("borderWidth", "3"),
             ("dimBackground", "true")] }

/-- Go function `effectForNavigation`. -/
def effectForNavigation (action : TimelineItem) (start stop : F64) : Option DisplayEffect :=
  let label := extractLabel action
  if label = "" then none
  else
    some { Start := start, End := stop, Type_ := "label", Target := none,
           Style := some [("text", label), ("position", "top-center"),
             ("fontSize", "14px"), ("fontColor", "#ffffff")] }

/-- Go function `effectForHover`. -/
def effectForHover (action : TimelineItem) (start stop : F64) : Option DisplayEffect :=
  match action.Bounds with
  | none => none
  | some b =>
    some { Start := start, End := stop, Type_ := "highlight",
           Target := some { Selector := effects.extractSelector action, Bounds := some b },
           Style := some [("outline", "soft"), ("opacity", "0.7")] }

/-- The `end` computed by `generateEffectForAction` (generate.go lines 83-94). -/
def effectEnd (w : Window) (videoDuration : F64) : F64 :=
  let start := w.Start
  let stop := start + max MinEffectDuration ((w.End - w.Start) * EffectCoverageRatio)
  let stop := if stop > w.End then w.End else stop
  if stop > videoDuration then videoDuration else stop

/-- Go function `generateEffectForAction`. -/
def generateEffectForAction (action : TimelineItem) (w : Window) (videoDuration : F64) :
    Option DisplayEffect :=
  let start := w.Start
  let stop := effectEnd w videoDuration
  if action.Action = "click" then effectForClick action start stop
  else if action.Action = "input" then effectForInput action start stop
  else if action.Action = "navigation" then effectForNavigation action start stop
  else if action.Action = "hover" then effectForHover action start stop
  else none

/-- One iteration of the loop of `GenerateEffects` (generate.go lines 26-41). -/
def generateEffectsStep (actions : List TimelineItem) (videoDuration : F64)
    (effects : List DisplayEffect) (w : Window) : List DisplayEffect :=
  if w.End ≤ w.Start then effects
  else
    match findPrimaryActionForWindow actions w with
    | none => effects
    | some action =>
      match generateEffectForAction action w videoDuration with
      | some e => effects ++ [e]
      | none => effects

/-- Go function `effects.GenerateEffects`. -/
def GenerateEffects (actions : List TimelineItem) (windows : List Window)
    (videoDuration : F64) : List DisplayEffect :=
  windows.foldl (generateEffectsStep actions videoDuration) []

/-- The effect of one window, if any: what the loop of `GenerateEffects` appends for
it. -/
def effectOfWindow (actions : List TimelineItem) (videoDuration : F64) (w : Window) :
    Option DisplayEffect :=
  if w.End ≤ w.Start then none
  else
    match findPrimaryActionForWindow actions w with
    | none => none
    | some action => generateEffectForAction action w videoDuration

/-! ## `instructions.GenerateActionInstructions` -/

/-- Go constant `MaxInstructionGapSec`. -/
def MaxInstructionGapSec : F64 := 60.0

/-- Go function `clampTime`. -/
def clampTime (t : F64) (max : F64) : F64 :=
  if t < 0 then 0
  else if t > max then max
  else t

/-- Go function `normalizeAction`; `toLower` is the standard library's
`strings.ToLower`. -/
def normalizeAction (toLower : String → String) (a : String) : String :=
  let l := toLower a
  if l = "click" then "click"
  else if l = "input" ∨ l = "type" then "input"
  else if l = "scroll" then "scroll"
  else if l = "hover" then "hover"
  else if l = "zoom" then "zoom"
  else if l = "navigation" ∨ l = "route_change" then "navigate"
  else ""

/-- Go function `instructions.extractSelector`. -/
def instructions.extractSelector (target : Option (List (String × String))) : String :=
  match target with
  | none => ""
  | some target => firstNonEmpty target ["selector", "cssSelector", "id", "name"]

/-- Go function `extractMetadata`: the entries copied from the target, `none` (nil) when
there is none. -/
def extractMetadata (a : TimelineItem) : Option (List (String × String)) :=
  let meta0 : List (String × String) :=
    match a.Target with
    | none => []
    | some target =>
      (match target.lookup "ariaLabel" with
        | some v => [("ariaLabel", v)]
        | none => []) ++
      (match target.lookup "text" with
        | some v => [("text", v)]
        | none => [])
  if meta0.length = 0 then none else some meta0

/-- Go function `suggestEffects`. -/
def suggestEffects (a : TimelineItem) : List String :=
  if a.Action = "click" then ["highlight", "zoom"]
  else if a.Action = "input" then ["focus"]
  else if a.Action = "navigation" then ["label"]
  else []

/-- The composite literal `models.ActionInstruction{...}` of
`GenerateActionInstructions` (actions.go lines 40-47), with `t` the clamped time. -/
def instructionOf (toLower : String → String) (t : F64) (a : TimelineItem) :
    ActionInstruction :=
  { Timestamp := t, Action := normalizeAction toLower a.Action,
    Selector := instructions.extractSelector a.Target, Bounds := a.Bounds,
    Metadata := extractMetadata a, Effects := suggestEffects a }

/-- One iteration of the loop of `GenerateActionInstructions` (actions.go lines 27-55) on
the state `instructions`, `lastT`. -/
def instructionsStep (toLower : String → String) (videoDuration : F64)
    (st : List ActionInstruction × F64) (a : TimelineItem) : List ActionInstruction × F64 :=
  if a.Kind ≠ "action" then st
  else
    let t := clampTime a.T videoDuration
    let lastT := t
    let inst := instructionOf toLower t a
    if inst.Action = "" then (st.1, lastT)
    else (st.1 ++ [inst], lastT)

/-- Go function `instructions.GenerateActionInstructions`: the instructions and the
error (`none` is nil). -/
def GenerateActionInstructions (toLower : String → String) (actions : List TimelineItem)
    (videoDuration : F64) : List ActionInstruction × Option String :=
  if videoDuration ≤ 0 then ([], some "invalid video duration")
  else ((actions.foldl (instructionsStep toLower videoDuration) ([], -1)).1, none)

/-- Lower-casing of the ASCII letters: agrees with Go's `strings.ToLower` on ASCII
text. -/
def asciiToLower (s : String) : String := String.mk (s.data.map Char.toLower)

/-- An action item kept by `GenerateActionInstructions`: `Kind` is "action" and the
normalized action is not empty. -/
def keptAction (toLower : String → String) (a : TimelineItem) : Bool :=
  decide (a.Kind = "action") && decide (normalizeAction toLower a.Action ≠ "")

/-! ## `normalize.NormalizeDomEvents` -/

/-- Go type `models.DomEvent` (`Type_` is the Go field `Type`, `Timestamp` an
`int64`). -/
structure DomEvent where
  Type_ : String
  Timestamp : Int
  Target : Option (List (String × String))
  Bounds : Option BoundingBox
  deriving DecidableEq

/-- Wrap-around of `int64` arithmetic. -/
def wrapInt64 (x : Int) : Int :=
  (x + 2 ^ 63) % 2 ^ 64 - 2 ^ 63

/-- The time of an event (time.go lines 33-35): `float64(e.Timestamp-startMs) / 1000`
clamped below at 0, then above at `videoDuration`. -/
def eventTime (e : DomEvent) (startMs : Int) (videoDuration : F64) : F64 :=
  let t : F64 := F64.ofInt (wrapInt64 (e.Timestamp - startMs)) / 1000
  let t := if t < 0 then 0 else t
  if t > videoDuration then videoDuration else t

/-- The composite literal `models.TimelineItem{...}` of `NormalizeDomEvents`
(time.go lines 46-52). -/
def itemOfEvent (e : DomEvent) (t : F64) : TimelineItem :=
  { T := t, Kind := "action", Word := "", PunctuatedWord := "", Confidence := 0,
    Action := e.Type_, Target := e.Target, Bounds := e.Bounds }

/-- One iteration of the loop of `NormalizeDomEvents` (time.go lines 23-53) on the state
`out`, `lastScrollTime`. -/
def normalizeStep (startMs : Int) (videoDuration : F64) (st : List TimelineItem × F64)
    (e : DomEvent) : List TimelineItem × F64 :=
  if e.Type_ = "" ∨ e.Type_ = "dom_mutation" then st
  else if e.Timestamp = 0 then st
  else
    let t := eventTime e startMs videoDuration
    if e.Type_ = "scroll" then
      if t - st.2 < 1.5 then st
      else (st.1 ++ [itemOfEvent e t], t)
    else (st.1 ++ [itemOfEvent e t], st.2)

/-- Go function `normalize.NormalizeDomEvents`: the items and the error (`none` is
nil). -/
def NormalizeDomEvents (events : List DomEvent) (startMs : Int) (videoDuration : F64) :
    List TimelineItem × Option String :=
  if videoDuration > 3600 then ([], some "video duration too large")
  else ((events.foldl (normalizeStep startMs videoDuration) ([], -100.0)).1, none)

/-- An action item at time `t` with the given action and bounds (test data). -/
def actionItem (t : F64) (action : String) (bounds : Option BoundingBox) : TimelineItem :=
  { T := t, Kind := "action", Word := "", PunctuatedWord := "", Confidence := 0,
    Action := action, Target := none, Bounds := bounds }

/-! ## `script.GenerateScript` -/

/-- Go constant `MinWindowDurationSec`. -/
def MinWindowDurationSec : F64 := 0.8

/-- Go constant `MaxWordsPerSecond`. -/
def MaxWordsPerSecond : F64 := 2.5

/-- Go constant `MinWordConfidence`. -/
def MinWordConfidence : F64 := 0.50

/-- Go constant `MaxSummaryActions`. -/
def MaxSummaryActions : Nat := 3

/-- The scan of `strings.Fields`: `cur` is the word being read; a white space character
closes it. -/
def fieldsFrom (cur : List Char) : List Char → List (List Char)
  | [] => if cur = [] then [] else [cur]
  | c :: cs =>
    if isSpace c = true then
      (if cur = [] then fieldsFrom [] cs else cur :: fieldsFrom [] cs)
    else fieldsFrom (cur ++ [c]) cs

/-- Go's `strings.Fields`: the maximal runs of characters that are not white space. -/
def Fields (s : String) : List String :=
  (fieldsFrom [] s.data).map String.mk

/-- Go's `strings.Join(words, " ")`. -/
def joinSpace : List String → String
  | [] => ""
  | [w] => w
  | w :: ws => w ++ " " ++ joinSpace ws

/-- Go function `isFillerWord`; `toLower` is the standard library's `strings.ToLower`. -/
def isFillerWord (toLower : String → String) (w : String) : Bool :=
  let l := toLower w
  decide (l = "uh" ∨ l = "um" ∨ l = "ah" ∨ l = "er" ∨ l = "hmm")

/-- One iteration of the loop of `extractSpeechForWindow` (generate.go lines 120-143). -/
def speechStep (toLower : String → String) (window : Window) (words : List String)
    (item : TimelineItem) : List String :=
  if item.Kind ≠ "speech_word" then words
  else if item.T < window.Start ∨ item.T > window.End then words
  else if item.Confidence < MinWordConfidence then words
  else if isFillerWord toLower item.Word = true then words
  else
    let word := if item.PunctuatedWord = "" then item.Word else item.PunctuatedWord
    words ++ [word]

/-- Go function `extractSpeechForWindow`. -/
def extractSpeechForWindow (toLower : String → String) (window : Window)
    (timeline : List TimelineItem) : String :=
  let words := timeline.foldl (speechStep toLower window) []
  if words.length = 0 then "" else joinSpace words

/-- Go function `extractActionsForWindow`. -/
def extractActionsForWindow (window : Window) (timeline : List TimelineItem) :
    List TimelineItem :=
  let actions := timeline.foldl
    (fun actions item =>
      if item.Kind ≠ "action" then actions
      else if item.T ≥ window.Start ∧ item.T < window.End then actions ++ [item]
      else actions) []
  if actions.length > MaxSummaryActions then actions.take MaxSummaryActions else actions

/-- Go function `normalizeLabel`. -/
def normalizeLabel (toLower : String → String) (s : String) : String :=
  toLower (TrimSpace s)

/-- The loop over `keys` of `extractTargetLabel` (generate.go lines 235-245); `len(s)` is
the length in bytes. -/
def targetLabelFrom (toLower : String → String) (target : List (String × String)) :
    List String → String
  | [] => ""
  | k :: keys =>
    match target.lookup k with
    | some s =>
      if s ≠ "" then
        (if s.utf8ByteSize > 40 then targetLabelFrom toLower target keys
         else normalizeLabel toLower s)
      else targetLabelFrom toLower target keys
    | none => targetLabelFrom toLower target keys

/-- Go function `extractTargetLabel`. -/
def extractTargetLabel (toLower : String → String) (action : TimelineItem) : String :=
  match action.Target with
  | none => ""
  | some target => targetLabelFrom toLower target ["ariaLabel", "text", "label", "name"]

/-- Go function `narrateSingleAction`. -/
def narrateSingleAction (toLower : String → String) (action : TimelineItem) : String :=
  if action.Action = "click" then
    let label := extractTargetLabel toLower action
    if label ≠ "" then "The " ++ label ++ " is selected." else "An item is selected."
  else if action.Action = "input" then
    let label := extractTargetLabel toLower action
    if label ≠ "" then "Text is entered into the " ++ label ++ " field."
    else "Text is entered into a field."
  else if action.Action = "navigation" then
    let label := extractTargetLabel toLower action
    if label ≠ "" then "The user navigates to " ++ label ++ "."
    else "The user navigates to a new section."
  else if action.Action = "scroll" then "The page is scrolled to explore more content."
  else ""

/-- Go function `narrateMultipleActions`: `counts["scroll"] > 1 && len(counts) == 1`
on the map of action kinds to their number of occurrences. -/
def narrateMultipleActions (actions : List TimelineItem) : String :=
  let scrolls := actions.countP (fun a => decide (a.Action = "scroll"))
  let kinds := (actions.map (fun a => a.Action)).eraseDups
  if scrolls > 1 ∧ kinds.length = 1 then
    "The user scrolls through the page to explore more content."
  else "Various sections of the interface are explored."

/-- Go function `narrateActions`. -/
def narrateActions (toLower : String → String) (actions : List TimelineItem) : String :=
  if actions.length = 0 then ""
  else
    match actions.find? (fun a => decide (a.Action = "click" ∨ a.Action = "input")) with
    | some a => narrateSingleAction toLower a
    | none =>
      match actions with
      | [a] => narrateSingleAction toLower a
      | _ => narrateMultipleActions actions

/-- Go function `trimToWordLimit`. -/
def trimToWordLimit (text : String) (maxWords : Int) : String :=
  if maxWords ≤ 0 then ""
  else
    let words := Fields text
    if (words.length : Int) ≤ maxWords then text
    else joinSpace (words.take maxWords.toNat)

/-- Go function `script.GenerateScript`: the text and the error (`none` is nil). -/
def GenerateScript (toLower : String → String) (window : Window)
    (timeline : List TimelineItem) : String × Option String :=
  if window.End ≤ window.Start then ("", some "invalid narration window")
  else
    let windowDuration := window.End - window.Start
    if windowDuration < MinWindowDurationSec then ("", none)
    else
      let speech := extractSpeechForWindow toLower window timeline
      if speech ≠ "" then (speech, none)
      else
        let actions := extractActionsForWindow window timeline
        if actions.length = 0 then ("", none)
        else
          let allScrolls := actions.all (fun a => decide (a.Action = "scroll"))
          if allScrolls = true ∧ windowDuration < 3.0 then ("", none)
          else
            let narration := narrateActions toLower actions
            let maxWords := truncToInt (windowDuration * MaxWordsPerSecond)
            if ((Fields narration).length : Int) > maxWords ∧ maxWords < 4 then ("", none)
            else
              let narration :=
                if ((Fields narration).length : Int) > maxWords then
                  trimToWordLimit narration maxWords
                else narration
              if (Fields narration).length < 3 then ("", none)
              else (narration, none)

/-- The characters of `strings.Join(words, " ")` for words given by their characters. -/
def joinChars : List (List Char) → List Char
  | [] => []
  | [w] => w
  | w :: ws => w ++ ' ' :: joinChars ws

/-- A speech word item with the given time and word, confidence 1 (test data). -/
def spoken (t : F64) (w : String) : TimelineItem :=
  { T := t, Kind := "speech_word", Word := w, PunctuatedWord := "", Confidence := 1,
    Action := "", Target := none, Bounds := none }

/-! ## Further definitions used in the statements -/

deriving instance DecidableEq for Except

/-- The reference procedure of the specification (section 4.2, steps 2 and 3) in exact
arithmetic, written from the specification's words: segments and windows are pairs of
rationals and nothing is rounded. -/
def referenceWindowsExact (totalDuration : ℚ) : ℚ → List (ℚ × ℚ) → List (ℚ × ℚ)
  | cursor, [] =>
    if totalDuration - cursor > 0.5 then [(cursor, totalDuration)] else []
  | cursor, (s, e) :: rest =>
    (if s - cursor > 0.5 then [(cursor, s)] else []) ++
      (s, e + 0.3) :: referenceWindowsExact totalDuration (e + 0.3) rest

/-- The windows the handler passes to `MapNarrationsToAudioChunks` (handler.go lines
135-141): one window `{n.Start, n.End}` per narration, in order. -/
def narrationWindows (narrations : List Narration) : List Window :=
  narrations.foldl (fun ws n => ws ++ [{ Start := n.Start, End := n.End }]) []

/-- The call `data.Less(i, j)`: `less` on the elements at `i` and `j`. -/
def lessAt (less : TimelineItem → TimelineItem → Bool) (data : List TimelineItem)
    (i j : Nat) : Bool :=
  match data[i]?, data[j]? with
  | some x, some y => less x y
  | _, _ => false

/-- The call `data.Swap(i, j)`. -/
def swapAt (data : List TimelineItem) (i j : Nat) : List TimelineItem :=
  match data[i]?, data[j]? with
  | some x, some y => (data.set i y).set j x
  | _, _ => data

/-- The inner loop of `insertionSort_func`:
`for j := i; j > a && data.Less(j, j-1); j-- { data.Swap(j, j-1) }`. -/
def insertionSortInner (less : TimelineItem → TimelineItem → Bool) (a : Nat) :
    Nat → List TimelineItem → List TimelineItem
  | 0, data => data
  | j + 1, data =>
    if j + 1 > a ∧ lessAt less data (j + 1) j = true then
      insertionSortInner less a j (swapAt data (j + 1) j)
    else data

/-- Go function `insertionSort_func`: insertion sort of `data[a:b]`. -/
def insertionSort_func (less : TimelineItem → TimelineItem → Bool)
    (data : List TimelineItem) (a b : Nat) : List TimelineItem :=
  (List.range' (a + 1) (b - (a + 1))).foldl
    (fun data i => insertionSortInner less a i data) data

/-- The loop of `siftDown_func`, from `root`. -/
def siftDownLoop (less : TimelineItem → TimelineItem → Bool) (hi first : Nat) :
    Nat → Nat → List TimelineItem → List TimelineItem
  | 0, _, data => data
  | fuel + 1, root, data =>
    let child := 2 * root + 1
    if child ≥ hi then data
    else
      let child :=
        if child + 1 < hi ∧ lessAt less data (first + child) (first + child + 1) = true then
          child + 1
        else child
      if lessAt less data (first + root) (first + child) = false then data
      else siftDownLoop less hi first fuel child (swapAt data (first + root) (first + child))

/-- Go function `siftDown_func`. -/
def siftDown_func (less : TimelineItem → TimelineItem → Bool) (data : List TimelineItem)
    (lo hi first : Nat) : List TimelineItem :=
  siftDownLoop less hi first hi lo data

/-- Go function `heapSort_func`: heap sort of `data[a:b]`. -/
def heapSort_func (less : TimelineItem → TimelineItem → Bool) (data : List TimelineItem)
    (a b : Nat) : List TimelineItem :=
  let first := a
  let lo := 0
  let hi := b - a
  let data := (List.range ((hi - 1) / 2 + 1)).reverse.foldl
    (fun data i => siftDown_func less data i hi first) data
  (List.range hi).reverse.foldl
    (fun data i => siftDown_func less (swapAt data first (first + i)) lo i first) data

/-- Go type `sortedHint`. -/
inductive sortedHint where
  | unknownHint
  | increasingHint
  | decreasingHint
  deriving DecidableEq

/-- Go function `order2_func`: the two indices in order, and the number of swaps. -/
def order2_func (less : TimelineItem → TimelineItem → Bool) (data : List TimelineItem)
    (a b swaps : Nat) : Nat × Nat × Nat :=
  if lessAt less data b a = true then (b, a, swaps + 1) else (a, b, swaps)

/-- Go function `median_func`: the index of the median of three, and the number of
swaps. -/
def median_func (less : TimelineItem → TimelineItem → Bool) (data : List TimelineItem)
    (a b c swaps : Nat) : Nat × Nat :=
  let r1 := order2_func less data a b swaps
  let r2 := order2_func less data r1.2.1 c r1.2.2
  let r3 := order2_func less data r1.1 r2.1 r2.2.2
  (r3.2.1, r3.2.2)

/-- Go function `medianAdjacent_func`. -/
def medianAdjacent_func (less : TimelineItem → TimelineItem → Bool)
    (data : List TimelineItem) (a swaps : Nat) : Nat × Nat :=
  median_func less data (a - 1) a (a + 1) swaps

/-- Go function `choosePivot_func`: the pivot and the hint (`shortestNinther = 50`,
`maxSwaps = 4 * 3`). -/
def choosePivot_func (less : TimelineItem → TimelineItem → Bool) (data : List TimelineItem)
    (a b : Nat) : Nat × sortedHint :=
  let l := b - a
  let i := a + l / 4 * 1
  let j := a + l / 4 * 2
  let k := a + l / 4 * 3
  let r : Nat × Nat :=
    if l ≥ 8 then
      if l ≥ 50 then
        let ri := medianAdjacent_func less data i 0
        let rj := medianAdjacent_func less data j ri.2
        let rk := medianAdjacent_func less data k rj.2
        median_func less data ri.1 rj.1 rk.1 rk.2
      else median_func less data i j k 0
    else (j, 0)
  if r.2 = 0 then (r.1, sortedHint.increasingHint)
  else if r.2 = 4 * 3 then (r.1, sortedHint.decreasingHint)
  else (r.1, sortedHint.unknownHint)

/-- The loop of `reverseRange_func`. -/
def reverseRangeLoop : Nat → Nat → Nat → List TimelineItem → List TimelineItem
  | 0, _, _, data => data
  | fuel + 1, i, j, data =>
    if i < j then reverseRangeLoop fuel (i + 1) (j - 1) (swapAt data i j) else data

/-- Go function `reverseRange_func`. -/
def reverseRange_func (data : List TimelineItem) (a b : Nat) : List TimelineItem :=
  reverseRangeLoop (b - a) a (b - 1) data

/-- The loop `for i < b && !data.Less(i, i-1) { i++ }` of `partialInsertionSort_func`. -/
def skipSorted (less : TimelineItem → TimelineItem → Bool) (data : List TimelineItem)
    (b : Nat) : Nat → Nat → Nat
  | 0, i => i
  | fuel + 1, i =>
    if i < b ∧ lessAt less data i (i - 1) = false then skipSorted less data b fuel (i + 1)
    else i

/-- The loop of `partialInsertionSort_func` that shifts the smaller element to the left:
`for j := i - 1; j >= 1; j-- { if !data.Less(j, j-1) { break }; data.Swap(j, j-1) }`. -/
def shiftSmaller (less : TimelineItem → TimelineItem → Bool) :
    Nat → List TimelineItem → List TimelineItem
  | 0, data => data
  | j + 1, data =>
    if lessAt less data (j + 1) j = false then data
    else shiftSmaller less j (swapAt data (j + 1) j)

/-- The loop of `partialInsertionSort_func` that shifts the greater element to the right:
`for j := i + 1; j < b; j++ { if !data.Less(j, j-1) { break }; data.Swap(j, j-1) }`. -/
def shiftGreater (less : TimelineItem → TimelineItem → Bool) (b : Nat) :
    Nat → Nat → List TimelineItem → List TimelineItem
  | 0, _, data => data
  | fuel + 1, j, data =>
    if j < b then
      (if lessAt less data j (j - 1) = false then data
       else shiftGreater less b fuel (j + 1) (swapAt data j (j - 1)))
    else data

/-- The outer loop of `partialInsertionSort_func` (`maxSteps = 5`,
`shortestShifting = 50`): the slice and whether it is sorted. -/
def partialInsertionSortLoop (less : TimelineItem → TimelineItem → Bool) (a b : Nat) :
    Nat → Nat → List TimelineItem → List TimelineItem × Bool
  | 0, _, data => (data, false)
  | steps + 1, i, data =>
    let i := skipSorted less data b (b - a) i
    if i = b then (data, true)
    else if b - a < 50 then (data, false)
    else
      let data := swapAt data i (i - 1)
      let data := if i - a ≥ 2 then shiftSmaller less (i - 1) data else data
      let data := if b - i ≥ 2 then shiftGreater less b (b - i) (i + 1) data else data
      partialInsertionSortLoop less a b steps i data

/-- Go function `partialInsertionSort_func`. -/
def partialInsertionSort_func (less : TimelineItem → TimelineItem → Bool)
    (data : List TimelineItem) (a b : Nat) : List TimelineItem × Bool :=
  partialInsertionSortLoop less a b 5 (a + 1) data

/-- Go's `bits.Len`. -/
def bitsLen (n : Nat) : Nat := if n = 0 then 0 else floorLog2 n + 1

/-- Go method `(*xorshift).Next`, on 64 bits. -/
def xorshiftNext (r : Nat) : Nat :=
  let r := r ^^^ ((r <<< 13) % 2 ^ 64)
  let r := r ^^^ (r >>> 7)
  r ^^^ ((r <<< 17) % 2 ^ 64)

/-- Go function `nextPowerOfTwo`. -/
def nextPowerOfTwo (length : Nat) : Nat := 1 <<< bitsLen length

/-- Go function `breakPatterns_func`. -/
def breakPatterns_func (data : List TimelineItem) (a b : Nat) : List TimelineItem :=
  let length := b - a
  if length ≥ 8 then
    let modulus := nextPowerOfTwo length
    let idx := a + (length / 4) * 2 - 1
    ([0, 1, 2].foldl
      (fun (st : List TimelineItem × Nat) (i : Nat) =>
        let random := xorshiftNext st.2
        let other := random &&& (modulus - 1)
        let other := if other ≥ length then other - length else other
        (swapAt st.1 (idx - 1 + i) (a + other), random))
      (data, length)).1
  else data

/-- A loop `for i <= j && p(i) { i++ }`. -/
def scanUp (p : Nat → Bool) (j : Nat) : Nat → Nat → Nat
  | 0, i => i
  | fuel + 1, i => if i ≤ j ∧ p i = true then scanUp p j fuel (i + 1) else i

/-- A loop `for i <= j && p(j) { j-- }`. -/
def scanDown (p : Nat → Bool) (i : Nat) : Nat → Nat → Nat
  | 0, j => j
  | fuel + 1, j => if i ≤ j ∧ p j = true then scanDown p i fuel (j - 1) else j

/-- The loop of `partitionEqual_func`: the slice and the final `i`. -/
def partitionEqualLoop (less : TimelineItem → TimelineItem → Bool) (a : Nat) :
    Nat → Nat → Nat → List TimelineItem → List TimelineItem × Nat
  | 0, i, _, data => (data, i)
  | fuel + 1, i, j, data =>
    let i := scanUp (fun i => !lessAt less data a i) j (j + 1) i
    let j := scanDown (fun j => lessAt less data a j) i (j + 1) j
    if i > j then (data, i)
    else partitionEqualLoop less a fuel (i + 1) (j - 1) (swapAt data i j)

/-- Go function `partitionEqual_func`: the slice and the new pivot. -/
def partitionEqual_func (less : TimelineItem → TimelineItem → Bool)
    (data : List TimelineItem) (a b pivot : Nat) : List TimelineItem × Nat :=
  partitionEqualLoop less a (b - a) (a + 1) (b - 1) (swapAt data a pivot)

/-- The second loop of `partition_func`: the slice and the final `i` and `j`. -/
def partitionLoop (less : TimelineItem → TimelineItem → Bool) (a : Nat) :
    Nat → Nat → Nat → List TimelineItem → List TimelineItem × Nat × Nat
  | 0, i, j, data => (data, i, j)
  | fuel + 1, i, j, data =>
    let i := scanUp (fun i => lessAt less data i a) j (j + 1) i
    let j := scanDown (fun j => !lessAt less data j a) i (j + 1) j
    if i > j then (data, i, j)
    else partitionLoop less a fuel (i + 1) (j - 1) (swapAt data i j)

/-- Go function `partition_func`: the slice, the new pivot and whether the slice was
already partitioned. -/
def partition_func (less : TimelineItem → TimelineItem → Bool) (data : List TimelineItem)
    (a b pivot : Nat) : List TimelineItem × Nat × Bool :=
  let data := swapAt data a pivot
  let i := scanUp (fun i => lessAt less data i a) (b - 1) (b - a) (a + 1)
  let j := scanDown (fun j => !lessAt less data j a) i (b - a) (b - 1)
  if i > j then (swapAt data j a, j, true)
  else
    let r := partitionLoop less a (b - a) (i + 1) (j - 1) (swapAt data i j)
    (swapAt r.1 r.2.2 a, r.2.2, false)

/-- Go function `pdqsort_func` (`maxInsertion = 12`): the state of its loop is `a`, `b`,
`limit`, `wasBalanced` and `wasPartitioned`; `fuel` bounds the depth of the loop and of
the recursion. -/
def pdqsort_func (less : TimelineItem → TimelineItem → Bool) :
    Nat → List TimelineItem → Nat → Nat → Nat → Bool → Bool → List TimelineItem
  | 0, data, _, _, _, _, _ => data
  | fuel + 1, data, a, b, limit, wasBalanced, wasPartitioned =>
    let length := b - a
    if length ≤ 12 then insertionSort_func less data a b
    else if limit = 0 then heapSort_func less data a b
    else
      let data := if wasBalanced = false then breakPatterns_func data a b else data
      let limit := if wasBalanced = false then limit - 1 else limit
      let ch := choosePivot_func less data a b
      let reversed : Bool := decide (ch.2 = sortedHint.decreasingHint)
      let data := if reversed = true then reverseRange_func data a b else data
      let pivot := if reversed = true then (b - 1) - (ch.1 - a) else ch.1
      let hint := if reversed = true then sortedHint.increasingHint else ch.2
      let tried : List TimelineItem × Bool :=
        if wasBalanced = true ∧ wasPartitioned = true ∧ hint = sortedHint.increasingHint then
          partialInsertionSort_func less data a b
        else (data, false)
      if tried.2 = true then tried.1
      else
        let data := tried.1
        if a > 0 ∧ lessAt less data (a - 1) pivot = false then
          let r := partitionEqual_func less data a b pivot
          pdqsort_func less fuel r.1 r.2 b limit wasBalanced wasPartitioned
        else
          let r := partition_func less data a b pivot
          let mid := r.2.1
          let leftLen := mid - a
          let rightLen := b - mid
          let balanceThreshold := length / 8
          if leftLen < rightLen then
            pdqsort_func less fuel (pdqsort_func less fuel r.1 a mid limit true true)
              (mid + 1) b limit (decide (leftLen ≥ balanceThreshold)) r.2.2
          else
            pdqsort_func less fuel (pdqsort_func less fuel r.1 (mid + 1) b limit true true)
              a mid limit (decide (rightLen ≥ balanceThreshold)) r.2.2

/-- Go function `sort.Slice`:
`pdqsort_func(lessSwap{less, swap}, 0, length, bits.Len(uint(length)))`. -/
def sort.Slice : SortSlice :=
  fun less data =>
    pdqsort_func less (data.length + 1) data 0 data.length (bitsLen data.length) true true

/-- A word spoken at `t` (test data); its timeline item is `word t`. -/
def spokenWord (t : F64) : DeepgramWord :=
  { Word := "w", Start := t, End := t, Confidence := 1, PunctuatedWord := "w" }

/-- Twelve words spoken at 1 s, 2 s, ..., 12 s (test data). -/
def twelveWords : List DeepgramWord :=
  [spokenWord 1, spokenWord 2, spokenWord 3, spokenWord 4, spokenWord 5, spokenWord 6,
   spokenWord 7, spokenWord 8, spokenWord 9, spokenWord 10, spokenWord 11, spokenWord 12]

/-! ## Lemmas on `float64` rounding -/

theorem pow2_eq (k : ℤ) : pow2 k = (2 : ℚ) ^ k := by
  unfold pow2
  split_ifs with h
  · obtain ⟨n, rfl⟩ := Int.eq_ofNat_of_zero_le h
    simp
  · obtain ⟨n, hn⟩ := Int.eq_ofNat_of_zero_le (by omega : (0 : ℤ) ≤ -k)
    have hk : k = -(n : ℤ) := by omega
    subst hk
    simp

theorem absRat_eq (q : ℚ) : absRat q = |q| := by
  unfold absRat
  split_ifs with h
  · exact (abs_of_neg h).symm
  · exact (abs_of_nonneg (not_lt.mp h)).symm

theorem roundHalfEven_def (q : ℚ) :
    roundHalfEven q
      = if q - ⌊q⌋ < 1 / 2 then ⌊q⌋
        else if 1 / 2 < q - ⌊q⌋ then ⌊q⌋ + 1
        else if ⌊q⌋ % 2 = 0 then ⌊q⌋ else ⌊q⌋ + 1 := rfl

theorem binade_def (q : ℚ) :
    binade q
      = if (2 : ℚ) ^ ((floorLog2 q.num.natAbs : ℤ) - (floorLog2 q.den : ℤ)) ≤ |q| then
          (floorLog2 q.num.natAbs : ℤ) - (floorLog2 q.den : ℤ)
        else (floorLog2 q.num.natAbs : ℤ) - (floorLog2 q.den : ℤ) - 1 := by
  unfold binade
  simp only [pow2_eq, absRat_eq]

theorem ulpExp_def (q : ℚ) : ulpExp q = max (binade q - 52) (-1074) := by
  unfold ulpExp
  split_ifs with h
  · exact (max_eq_right (le_of_lt h)).symm
  · exact (max_eq_left (not_lt.mp h)).symm

theorem round64_def (q : ℚ) :
    round64 q = roundHalfEven (q / 2 ^ ulpExp q) * 2 ^ ulpExp q := by
  unfold round64
  rw [pow2_eq]

/-! ### Rounding to the nearest integer -/

theorem roundHalfEven_cases (q : ℚ) :
    roundHalfEven q = ⌊q⌋ ∨ roundHalfEven q = ⌊q⌋ + 1 := by
  simp only [roundHalfEven_def]; split_ifs <;> simp

theorem roundHalfEven_intCast (n : ℤ) : roundHalfEven (n : ℚ) = n := by
  simp only [roundHalfEven_def]; simp

theorem abs_roundHalfEven_sub_le (q : ℚ) : |(roundHalfEven q : ℚ) - q| ≤ 1 / 2 := by
  have h1 := Int.floor_le q
  have h2 := Int.lt_floor_add_one q
  simp only [roundHalfEven_def]
  split_ifs with ha hb hc <;> rw [abs_le] <;> push_cast <;> constructor <;> linarith

theorem roundHalfEven_mono {a b : ℚ} (h : a ≤ b) : roundHalfEven a ≤ roundHalfEven b := by
  have hf : ⌊a⌋ ≤ ⌊b⌋ := Int.floor_mono h
  rcases hf.lt_or_eq with hlt | heq
  · rcases roundHalfEven_cases a with ha | ha <;>
      rcases roundHalfEven_cases b with hb | hb <;> omega
  · simp only [roundHalfEven_def]
    rw [heq]
    split_ifs <;> first | omega | (exfalso; linarith)

/-- The value of `roundHalfEven` is the only integer within 1/2 of `q`, the even one of
the two when `q` lies half way. -/
theorem roundHalfEven_eq_of {q : ℚ} {n : ℤ}
    (h : |(n : ℚ) - q| < 1 / 2 ∨ (|(n : ℚ) - q| = 1 / 2 ∧ n % 2 = 0)) :
    roundHalfEven q = n := by
  have h1 := Int.floor_le q
  have h2 := Int.lt_floor_add_one q
  have hle : |(n : ℚ) - q| ≤ 1 / 2 := by
    rcases h with h | h
    · exact h.le
    · exact h.1.le
  rw [abs_le] at hle
  have hn1 : ⌊q⌋ ≤ n := by
    have : ((⌊q⌋ - 1 : ℤ) : ℚ) < n := by push_cast; linarith
    have := Int.cast_lt.mp this
    omega
  have hn2 : n ≤ ⌊q⌋ + 1 := by
    have : (n : ℚ) < ((⌊q⌋ + 2 : ℤ) : ℚ) := by push_cast; linarith
    have := Int.cast_lt.mp this
    omega
  have hcase : n = ⌊q⌋ ∨ n = ⌊q⌋ + 1 := by omega
  simp only [roundHalfEven_def]
  rcases hcase with hc | hc
  · rcases h with h | h
    · rw [hc, abs_lt] at h
      rw [if_pos (by linarith), hc]
    · obtain ⟨h, hpar⟩ := h
      rw [hc] at h hpar
      have hq : q - ⌊q⌋ = 1 / 2 := by
        rw [abs_sub_comm, abs_of_nonneg (by linarith)] at h
        exact h
      rw [if_neg (by linarith), if_neg (by linarith), if_pos hpar, hc]
  · rcases h with h | h
    · rw [hc, abs_lt] at h
      push_cast at h
      rw [if_neg (by linarith), if_pos (by linarith), hc]
    · obtain ⟨h, hpar⟩ := h
      rw [hc] at h hpar
      push_cast at h
      have hq : q - ⌊q⌋ = 1 / 2 := by
        rw [abs_of_nonneg (by linarith)] at h
        linarith
      rw [if_neg (by linarith), if_neg (by linarith), if_neg (by omega), hc]

theorem roundHalfEven_spec (q : ℚ) :
    |(roundHalfEven q : ℚ) - q| < 1 / 2 ∨
      (|(roundHalfEven q : ℚ) - q| = 1 / 2 ∧ roundHalfEven q % 2 = 0) := by
  have h1 := Int.floor_le q
  have h2 := Int.lt_floor_add_one q
  simp only [roundHalfEven_def]
  split_ifs with ha hb hc
  · left; rw [abs_lt]; constructor <;> linarith
  · left; rw [abs_lt]; push_cast; constructor <;> linarith
  · right
    refine ⟨?_, hc⟩
    rw [abs_sub_comm, abs_of_nonneg (by linarith)]; linarith
  · right
    refine ⟨?_, by omega⟩
    push_cast
    rw [abs_of_nonneg (by linarith)]; linarith

theorem roundHalfEven_neg (q : ℚ) : roundHalfEven (-q) = -roundHalfEven q := by
  apply roundHalfEven_eq_of
  have hcast : ((-roundHalfEven q : ℤ) : ℚ) - -q = -((roundHalfEven q : ℚ) - q) := by
    push_cast; ring
  rw [hcast, abs_neg]
  rcases roundHalfEven_spec q with h | h
  · exact Or.inl h
  · exact Or.inr ⟨h.1, by omega⟩

/-- No integer is nearer to `q` than `roundHalfEven q`. -/
theorem roundHalfEven_nearest (q : ℚ) (n : ℤ) :
    |(roundHalfEven q : ℚ) - q| ≤ |(n : ℚ) - q| := by
  by_contra hlt
  push_neg at hlt
  have h := abs_roundHalfEven_sub_le q
  have heq : roundHalfEven q = n :=
    (roundHalfEven_eq_of (Or.inl (lt_of_lt_of_le hlt h))).symm ▸ rfl
  rw [heq] at hlt
  exact lt_irrefl _ hlt

/-! ### The binary exponent -/

theorem log2Loop_spec : ∀ (fuel n : ℕ), n ≤ fuel → n ≠ 0 →
    2 ^ log2Loop fuel n ≤ n ∧ n < 2 ^ (log2Loop fuel n + 1)
  | 0, n, h, h0 => absurd (Nat.le_zero.mp h) h0
  | fuel + 1, n, h, h0 => by
    unfold log2Loop
    split_ifs with h2
    · have : n = 1 := by omega
      subst this; simp
    · have hn2 : n / 2 ≠ 0 := by omega
      have hle : n / 2 ≤ fuel := by omega
      obtain ⟨ih1, ih2⟩ := log2Loop_spec fuel (n / 2) hle hn2
      rw [pow_succ, pow_succ]
      rw [pow_succ] at ih2
      constructor <;> omega

theorem floorLog2_spec {n : ℕ} (h : n ≠ 0) :
    2 ^ floorLog2 n ≤ n ∧ n < 2 ^ (floorLog2 n + 1) :=
  log2Loop_spec n n le_rfl h


theorem abs_eq_natAbs_div_den (q : ℚ) : |q| = (q.num.natAbs : ℚ) / (q.den : ℚ) := by
  have hd : (0 : ℚ) < q.den := by exact_mod_cast q.den_pos
  conv_lhs => rw [← Rat.num_div_den q]
  rw [abs_div, abs_of_pos hd, Nat.cast_natAbs, Int.cast_abs]

theorem binade_spec {q : ℚ} (hq : q ≠ 0) :
    (2 : ℚ) ^ binade q ≤ |q| ∧ |q| < (2 : ℚ) ^ (binade q + 1) := by
  have hn : q.num.natAbs ≠ 0 := by simpa using hq
  have hd : q.den ≠ 0 := q.den_nz
  obtain ⟨a1, a2⟩ := floorLog2_spec hn
  obtain ⟨b1, b2⟩ := floorLog2_spec hd
  have habs := abs_eq_natAbs_div_den q
  have hdpos : (0 : ℚ) < q.den := by exact_mod_cast q.den_pos
  have A1 : (2 : ℚ) ^ floorLog2 q.num.natAbs ≤ (q.num.natAbs : ℚ) := by exact_mod_cast a1
  have A2 : (q.num.natAbs : ℚ) < (2 : ℚ) ^ (floorLog2 q.num.natAbs + 1) := by
    exact_mod_cast a2
  have B1 : (2 : ℚ) ^ floorLog2 q.den ≤ (q.den : ℚ) := by exact_mod_cast b1
  have B2 : (q.den : ℚ) < (2 : ℚ) ^ (floorLog2 q.den + 1) := by exact_mod_cast b2
  have hup : |q| < (2 : ℚ) ^ ((floorLog2 q.num.natAbs : ℤ) - (floorLog2 q.den : ℤ) + 1) := by
    have e : (2 : ℚ) ^ ((floorLog2 q.num.natAbs : ℤ) - (floorLog2 q.den : ℤ) + 1) =
        (2 : ℚ) ^ (floorLog2 q.num.natAbs + 1) / (2 : ℚ) ^ floorLog2 q.den := by
      rw [show (floorLog2 q.num.natAbs : ℤ) - (floorLog2 q.den : ℤ) + 1 =
        ((floorLog2 q.num.natAbs + 1 : ℕ) : ℤ) - ((floorLog2 q.den : ℕ) : ℤ) by push_cast; ring,
        zpow_sub₀ (by norm_num), zpow_natCast, zpow_natCast]
    rw [e, habs, div_lt_div_iff₀ hdpos (by positivity)]
    calc (q.num.natAbs : ℚ) * 2 ^ floorLog2 q.den ≤ q.num.natAbs * q.den :=
          mul_le_mul_of_nonneg_left B1 (by positivity)
      _ < 2 ^ (floorLog2 q.num.natAbs + 1) * q.den := mul_lt_mul_of_pos_right A2 hdpos
  have hlo : (2 : ℚ) ^ ((floorLog2 q.num.natAbs : ℤ) - (floorLog2 q.den : ℤ) - 1) ≤ |q| := by
    have e : (2 : ℚ) ^ ((floorLog2 q.num.natAbs : ℤ) - (floorLog2 q.den : ℤ) - 1) =
        (2 : ℚ) ^ floorLog2 q.num.natAbs / (2 : ℚ) ^ (floorLog2 q.den + 1) := by
      rw [show (floorLog2 q.num.natAbs : ℤ) - (floorLog2 q.den : ℤ) - 1 =
        ((floorLog2 q.num.natAbs : ℕ) : ℤ) - ((floorLog2 q.den + 1 : ℕ) : ℤ) by push_cast; ring,
        zpow_sub₀ (by norm_num), zpow_natCast, zpow_natCast]
    rw [e, habs, div_le_div_iff₀ (by positivity) hdpos]
    calc (2 : ℚ) ^ floorLog2 q.num.natAbs * q.den
          ≤ q.num.natAbs * q.den := mul_le_mul_of_nonneg_right A1 hdpos.le
      _ ≤ q.num.natAbs * 2 ^ (floorLog2 q.den + 1) :=
          mul_le_mul_of_nonneg_left B2.le (by positivity)
  simp only [binade_def]
  split_ifs with h
  · exact ⟨h, hup⟩
  · push_neg at h
    refine ⟨hlo, ?_⟩
    rwa [sub_add_cancel]

theorem binade_unique {q : ℚ} {k : ℤ} (h1 : (2 : ℚ) ^ k ≤ |q|) (h2 : |q| < (2 : ℚ) ^ (k + 1)) :
    binade q = k := by
  have hpos : (0 : ℚ) < |q| := lt_of_lt_of_le (zpow_pos (by norm_num) k) h1
  obtain ⟨s1, s2⟩ := binade_spec (abs_pos.mp hpos)
  have two : (1 : ℚ) < 2 := by norm_num
  have hk1 : k < binade q + 1 := (zpow_lt_zpow_iff_right₀ two).mp (lt_of_le_of_lt h1 s2)
  have hk2 : binade q < k + 1 := (zpow_lt_zpow_iff_right₀ two).mp (lt_of_le_of_lt s1 h2)
  omega

theorem binade_neg (q : ℚ) : binade (-q) = binade q := by
  simp only [binade_def]; simp

theorem binade_mono {a b : ℚ} (ha : a ≠ 0) (h : |a| ≤ |b|) : binade a ≤ binade b := by
  have hb : b ≠ 0 := abs_pos.mp (lt_of_lt_of_le (abs_pos.mpr ha) h)
  obtain ⟨a1, _⟩ := binade_spec ha
  obtain ⟨_, b2⟩ := binade_spec hb
  have two : (1 : ℚ) < 2 := by norm_num
  have := (zpow_lt_zpow_iff_right₀ two).mp (lt_of_le_of_lt (a1.trans h) b2)
  omega

/-! ### The unit in the last place -/

theorem ulpExp_neg (q : ℚ) : ulpExp (-q) = ulpExp q := by
  simp only [ulpExp_def]; rw [binade_neg]

theorem ulpExp_ge (q : ℚ) : -1074 ≤ ulpExp q := by
  rw [ulpExp_def]; exact le_max_right _ _

theorem binade_le_ulpExp (q : ℚ) : binade q - 52 ≤ ulpExp q := by
  rw [ulpExp_def]; exact le_max_left _ _

theorem ulp_pos (q : ℚ) : (0 : ℚ) < 2 ^ ulpExp q := zpow_pos (by norm_num) _

theorem ulpExp_mono {a b : ℚ} (ha : a ≠ 0) (h : |a| ≤ |b|) : ulpExp a ≤ ulpExp b := by
  rw [ulpExp_def, ulpExp_def]
  exact max_le_max (by have := binade_mono ha h; omega) le_rfl

/-- Every rational is below 2^53 units in the last place. -/
theorem abs_lt_two_zpow_ulpExp (q : ℚ) : |q| < (2 : ℚ) ^ (ulpExp q + 53) := by
  by_cases hq : q = 0
  · rw [hq, abs_zero]; exact zpow_pos (by norm_num) _
  · obtain ⟨_, h2⟩ := binade_spec hq
    refine lt_of_lt_of_le h2 (zpow_le_zpow_right₀ (by norm_num) ?_)
    have := binade_le_ulpExp q
    omega

theorem two_zpow_eq_intCast {j : ℤ} (hj : 0 ≤ j) :
    (2 : ℚ) ^ j = (((2 : ℤ) ^ j.toNat : ℤ) : ℚ) := by
  obtain ⟨n, rfl⟩ := Int.eq_ofNat_of_zero_le hj
  simp

/-! ### Rounding to `float64` -/

theorem round64_neg (q : ℚ) : round64 (-q) = -round64 q := by
  simp only [round64_def]
  rw [ulpExp_neg, neg_div, roundHalfEven_neg]
  push_cast; ring

theorem round64_zero : round64 0 = 0 := by simp [round64_def, roundHalfEven_def]

/-- A point of the grid of `x` (a multiple of its unit in the last place) that bounds `x`
bounds its rounding too. -/
theorem round64_le_of_grid {x : ℚ} (m : ℤ) (h : x ≤ m * 2 ^ ulpExp x) :
    round64 x ≤ m * 2 ^ ulpExp x := by
  simp only [round64_def]
  have hp := ulp_pos x
  have h1 : x / 2 ^ ulpExp x ≤ (m : ℚ) := (div_le_iff₀ hp).mpr h
  have h2 := roundHalfEven_mono h1
  rw [roundHalfEven_intCast] at h2
  exact mul_le_mul_of_nonneg_right (by exact_mod_cast h2) hp.le

theorem le_round64_of_grid {x : ℚ} (m : ℤ) (h : (m : ℚ) * 2 ^ ulpExp x ≤ x) :
    (m : ℚ) * 2 ^ ulpExp x ≤ round64 x := by
  simp only [round64_def]
  have hp := ulp_pos x
  have h1 : (m : ℚ) ≤ x / 2 ^ ulpExp x := (le_div_iff₀ hp).mpr h
  have h2 := roundHalfEven_mono h1
  rw [roundHalfEven_intCast] at h2
  exact mul_le_mul_of_nonneg_right (by exact_mod_cast h2) hp.le

theorem round64_eq_of_grid {x : ℚ} (m : ℤ) (h : x = m * 2 ^ ulpExp x) : round64 x = x :=
  le_antisymm (by conv_rhs => rw [h]
                  exact round64_le_of_grid m h.le)
    (by conv_lhs => rw [h]
        exact le_round64_of_grid m h.ge)

/-- A power of two at or above the unit in the last place of `x` lies on the grid of `x`. -/
theorem two_zpow_on_grid (x : ℚ) {k : ℤ} (hk : ulpExp x ≤ k) :
    (2 : ℚ) ^ k = (((2 : ℤ) ^ (k - ulpExp x).toNat : ℤ) : ℚ) * 2 ^ ulpExp x := by
  rw [← two_zpow_eq_intCast (by omega), ← zpow_add₀ (by norm_num)]
  congr 1; ring

theorem round64_le_two_zpow {x : ℚ} {k : ℤ} (hk : ulpExp x ≤ k) (h : x ≤ (2 : ℚ) ^ k) :
    round64 x ≤ (2 : ℚ) ^ k := by
  rw [two_zpow_on_grid x hk] at h ⊢
  exact round64_le_of_grid _ h

theorem two_zpow_le_round64 {x : ℚ} {k : ℤ} (hk : ulpExp x ≤ k) (h : (2 : ℚ) ^ k ≤ x) :
    (2 : ℚ) ^ k ≤ round64 x := by
  rw [two_zpow_on_grid x hk] at h ⊢
  exact le_round64_of_grid _ h

theorem round64_nonneg {x : ℚ} (h : 0 ≤ x) : 0 ≤ round64 x := by
  have := le_round64_of_grid (x := x) 0 (by simpa using h)
  simpa using this

theorem round64_mono_pos {a b : ℚ} (ha : 0 < a) (h : a ≤ b) : round64 a ≤ round64 b := by
  have hb : 0 < b := lt_of_lt_of_le ha h
  have habs : |a| ≤ |b| := by rwa [abs_of_pos ha, abs_of_pos hb]
  have he : ulpExp a ≤ ulpExp b := ulpExp_mono ha.ne' habs
  rcases he.lt_or_eq with hlt | heq
  · -- different binades: the power of two between them separates the roundings
    have hb1 : ulpExp b = binade b - 52 := by
      have h1 := ulpExp_ge a
      simp only [ulpExp_def] at hlt ⊢
      rcases max_cases (binade b - 52) (-1074) with ⟨h2, _⟩ | ⟨h2, _⟩
      · exact h2
      · rw [h2] at hlt; simp only [ulpExp_def] at h1; omega
    have ha1 : binade a < binade b := by
      have := binade_le_ulpExp a
      omega
    obtain ⟨_, a2⟩ := binade_spec ha.ne'
    obtain ⟨b1, _⟩ := binade_spec hb.ne'
    rw [abs_of_pos ha] at a2
    rw [abs_of_pos hb] at b1
    have hmid : a ≤ (2 : ℚ) ^ binade b :=
      a2.le.trans (zpow_le_zpow_right₀ (by norm_num) (by omega))
    exact (round64_le_two_zpow (by omega) hmid).trans
      (two_zpow_le_round64 (by omega) b1)
  · simp only [round64_def]
    rw [heq]
    have hp := ulp_pos b
    have h1 : a / 2 ^ ulpExp b ≤ b / 2 ^ ulpExp b := div_le_div_of_nonneg_right h hp.le
    exact mul_le_mul_of_nonneg_right (by exact_mod_cast roundHalfEven_mono h1) hp.le

/-- Rounding to `float64` is monotone. -/
theorem round64_mono {a b : ℚ} (h : a ≤ b) : round64 a ≤ round64 b := by
  rcases lt_trichotomy 0 a with ha | ha | ha
  · exact round64_mono_pos ha h
  · rw [← ha, round64_zero]; exact round64_nonneg (ha ▸ h)
  · rcases lt_or_le b 0 with hb | hb
    · have := round64_mono_pos (neg_pos.mpr hb) (neg_le_neg h)
      rw [round64_neg, round64_neg] at this
      linarith
    · have h1 : round64 a ≤ 0 := by
        have := round64_nonneg (neg_nonneg.mpr ha.le)
        rw [round64_neg] at this
        linarith
      exact h1.trans (round64_nonneg hb)


/-- A multiple of a power of two with at most 53 significant bits, at or above the
smallest subnormal exponent, is a `float64`. -/
theorem round64_of_int_mul_zpow {n k : ℤ} (hk : -1074 ≤ k) (hn : |n| ≤ 2 ^ 53) :
    round64 ((n : ℚ) * 2 ^ k) = (n : ℚ) * 2 ^ k := by
  have two : (1 : ℚ) < 2 := by norm_num
  have hkpos : (0 : ℚ) < 2 ^ k := zpow_pos (by norm_num) k
  rw [abs_le] at hn
  by_cases hmax : n = 2 ^ 53 ∨ n = -2 ^ 53
  · -- the value is the power of two 2^(k+53), whose unit is 2^(k+1)
    have habs : |(n : ℚ) * 2 ^ k| = (2 : ℚ) ^ (k + 53) := by
      rw [abs_mul, abs_of_pos hkpos, add_comm, zpow_add₀ (by norm_num)]
      rcases hmax with h | h <;> rw [h] <;> norm_num
    have hb : binade ((n : ℚ) * 2 ^ k) = k + 53 :=
      binade_unique habs.ge (by rw [habs]; exact zpow_lt_zpow_right₀ two (by omega))
    have he : ulpExp ((n : ℚ) * 2 ^ k) = k + 1 := by
      simp only [ulpExp_def]; rw [hb]; rw [max_eq_left (by omega)]; ring
    apply round64_eq_of_grid (n / 2)
    rw [he, zpow_add₀ (by norm_num)]
    rcases hmax with h | h <;> rw [h] <;> norm_num <;> ring
  · push_neg at hmax
    by_cases h0 : n = 0
    · rw [h0]; simp [round64_zero]
    have hlt : |(n : ℚ) * 2 ^ k| < (2 : ℚ) ^ (k + 53) := by
      rw [abs_mul, abs_of_pos hkpos, add_comm, zpow_add₀ (by norm_num)]
      apply mul_lt_mul_of_pos_right _ hkpos
      rw [abs_lt]
      have h1 : -2 ^ 53 < n := by omega
      have h2 : n < 2 ^ 53 := by omega
      constructor
      · exact_mod_cast h1
      · exact_mod_cast h2
    have hne : (n : ℚ) * 2 ^ k ≠ 0 := mul_ne_zero (by exact_mod_cast h0) hkpos.ne'
    have hb : binade ((n : ℚ) * 2 ^ k) < k + 53 :=
      (zpow_lt_zpow_iff_right₀ two).mp (lt_of_le_of_lt (binade_spec hne).1 hlt)
    have he : ulpExp ((n : ℚ) * 2 ^ k) ≤ k := by
      rw [ulpExp_def]; exact max_le (by omega) hk
    apply round64_eq_of_grid (n * 2 ^ (k - ulpExp ((n : ℚ) * 2 ^ k)).toNat)
    push_cast
    rw [mul_assoc]
    congr 1
    have := two_zpow_on_grid _ he
    push_cast at this
    exact this

theorem abs_roundHalfEven_div_ulp_le (q : ℚ) :
    |roundHalfEven (q / 2 ^ ulpExp q)| ≤ 2 ^ 53 := by
  have hp := ulp_pos q
  have h := abs_lt_two_zpow_ulpExp q
  rw [zpow_add₀ (by norm_num), abs_lt] at h
  have e53 : (2 : ℚ) ^ (53 : ℤ) = (((2 : ℤ) ^ 53 : ℤ) : ℚ) := by norm_num
  rw [e53] at h
  rw [abs_le]
  constructor
  · have h1 : (((-2 ^ 53 : ℤ)) : ℚ) ≤ q / 2 ^ ulpExp q := by
      rw [le_div_iff₀ hp]; push_cast; push_cast at h; linarith [h.1]
    have := roundHalfEven_mono h1
    rwa [roundHalfEven_intCast] at this
  · have h1 : q / 2 ^ ulpExp q ≤ (((2 ^ 53 : ℤ)) : ℚ) := by
      rw [div_le_iff₀ hp]; push_cast; push_cast at h; linarith [h.2]
    have := roundHalfEven_mono h1
    rwa [roundHalfEven_intCast] at this

/-- Rounding twice is rounding once. -/
theorem round64_idem (q : ℚ) : round64 (round64 q) = round64 q := by
  rw [round64_def q]
  exact round64_of_int_mul_zpow (ulpExp_ge q) (abs_roundHalfEven_div_ulp_le q)

/-- The rounding error is at most half a unit in the last place. -/
theorem abs_round64_sub_le (q : ℚ) : |round64 q - q| ≤ 2 ^ ulpExp q / 2 := by
  have hp := ulp_pos q
  have h := abs_roundHalfEven_sub_le (q / 2 ^ ulpExp q)
  have e : round64 q - q =
      ((roundHalfEven (q / 2 ^ ulpExp q) : ℚ) - q / 2 ^ ulpExp q) * 2 ^ ulpExp q := by
    simp only [round64_def]; field_simp
  rw [e, abs_mul, abs_of_pos hp]
  calc _ ≤ 1 / 2 * 2 ^ ulpExp q := mul_le_mul_of_nonneg_right h hp.le
    _ = 2 ^ ulpExp q / 2 := by ring

/-- No point of the grid of `q` is nearer to `q` than its rounding. -/
theorem round64_nearest_grid (q : ℚ) (m : ℤ) :
    |round64 q - q| ≤ |(m : ℚ) * 2 ^ ulpExp q - q| := by
  have hp := ulp_pos q
  have h := roundHalfEven_nearest (q / 2 ^ ulpExp q) m
  have e1 : round64 q - q =
      ((roundHalfEven (q / 2 ^ ulpExp q) : ℚ) - q / 2 ^ ulpExp q) * 2 ^ ulpExp q := by
    simp only [round64_def]; field_simp
  have e2 : (m : ℚ) * 2 ^ ulpExp q - q = ((m : ℚ) - q / 2 ^ ulpExp q) * 2 ^ ulpExp q := by
    field_simp
  rw [e1, e2, abs_mul, abs_mul, abs_of_pos hp]
  exact mul_le_mul_of_nonneg_right h hp.le

/-- A `float64` whose unit in the last place is at least that of `q` lies on the grid
of `q`. -/
theorem on_grid_of_ulpExp_le {q y : ℚ} (hy : round64 y = y) (h : ulpExp q ≤ ulpExp y) :
    ∃ m : ℤ, y = (m : ℚ) * 2 ^ ulpExp q := by
  refine ⟨roundHalfEven (y / 2 ^ ulpExp y) * 2 ^ (ulpExp y - ulpExp q).toNat, ?_⟩
  have := two_zpow_on_grid q h
  push_cast at this ⊢
  rw [mul_assoc, ← this, ← round64_def]
  exact hy.symm

theorem round64_nearest_pos {q y : ℚ} (hq : 0 < q) (hy : round64 y = y) :
    |round64 q - q| ≤ |y - q| := by
  rcases le_or_lt (ulpExp q) (ulpExp y) with h | h
  · obtain ⟨m, hm⟩ := on_grid_of_ulpExp_le hy h
    rw [hm]; exact round64_nearest_grid q m
  · -- `y` lies below the binade of `q`: the power of two at its start is nearer
    have hq1 : ulpExp q = binade q - 52 := by
      have h1 := ulpExp_ge y
      simp only [ulpExp_def] at h ⊢
      rcases max_cases (binade q - 52) (-1074) with ⟨h2, _⟩ | ⟨h2, _⟩
      · exact h2
      · rw [h2] at h; simp only [ulpExp_def] at h1; omega
    obtain ⟨q1, _⟩ := binade_spec hq.ne'
    rw [abs_of_pos hq] at q1
    have hylt : y < (2 : ℚ) ^ binade q := by
      by_cases hy0 : y = 0
      · rw [hy0]; exact zpow_pos (by norm_num) _
      · obtain ⟨_, y2⟩ := binade_spec hy0
        have hb := binade_le_ulpExp y
        exact lt_of_le_of_lt (le_abs_self y)
          (lt_of_lt_of_le y2 (zpow_le_zpow_right₀ (by norm_num) (by omega)))
    have hgrid := two_zpow_on_grid q (k := binade q) (by omega)
    have h1 := round64_nearest_grid q ((2 : ℤ) ^ (binade q - ulpExp q).toNat)
    rw [← hgrid] at h1
    rw [abs_sub_comm ((2 : ℚ) ^ binade q) q,
      abs_of_nonneg (show (0 : ℚ) ≤ q - 2 ^ binade q by linarith)] at h1
    rw [abs_sub_comm y q, abs_of_nonneg (show (0 : ℚ) ≤ q - y by linarith)]
    linarith

/-- No `float64` is nearer to `q` than its rounding. -/
theorem round64_nearest {q y : ℚ} (hy : round64 y = y) : |round64 q - q| ≤ |y - q| := by
  rcases lt_trichotomy 0 q with hq | hq | hq
  · exact round64_nearest_pos hq hy
  · rw [← hq, round64_zero]; simp
  · have hny : round64 (-y) = -y := by rw [round64_neg, hy]
    have := round64_nearest_pos (neg_pos.mpr hq) hny
    rw [round64_neg] at this
    have e1 : -round64 q - -q = -(round64 q - q) := by ring
    have e2 : -y - -q = -(y - q) := by ring
    rwa [e1, e2, abs_neg, abs_neg] at this

/-! ### Operations on `float64` values -/

theorem F64.ext {a b : F64} (h : a.val = b.val) : a = b := by
  cases a; cases b; simp_all

theorem F64.le_def {a b : F64} : a ≤ b ↔ a.val ≤ b.val := Iff.rfl

theorem F64.lt_def {a b : F64} : a < b ↔ a.val < b.val := Iff.rfl

theorem F64.ofRat_val (q : ℚ) : (F64.ofRat q).val = round64 q := by
  unfold F64.ofRat
  rw [dif_pos (round64_idem q)]

theorem F64.add_val (a b : F64) : (a + b).val = round64 (a.val + b.val) :=
  F64.ofRat_val _

theorem F64.sub_val (a b : F64) : (a - b).val = round64 (a.val - b.val) :=
  F64.ofRat_val _

theorem F64.mul_val (a b : F64) : (a * b).val = round64 (a.val * b.val) :=
  F64.ofRat_val _

theorem F64.zero_val : (0 : F64).val = 0 := by
  show (F64.ofRat ((0 : ℕ) : ℚ)).val = 0
  rw [F64.ofRat_val, Nat.cast_zero, round64_zero]

/-- Rounding does not cross a `float64`: a number at or below `d` rounds at or below
`d`. -/
theorem F64.ofRat_le {q : ℚ} {d : F64} (h : q ≤ d.val) : F64.ofRat q ≤ d := by
  rw [F64.le_def, F64.ofRat_val, ← d.rep]
  exact round64_mono h

theorem F64.le_ofRat {q : ℚ} {d : F64} (h : d.val ≤ q) : d ≤ F64.ofRat q := by
  rw [F64.le_def, F64.ofRat_val, ← d.rep]
  exact round64_mono h

theorem F64.lt_of_lt_ofRat {q : ℚ} {d : F64} (h : d < F64.ofRat q) : d.val < q := by
  by_contra hn
  exact absurd h (not_lt.mpr (F64.ofRat_le (not_lt.mp hn)))

theorem F64.lt_of_ofRat_lt {q : ℚ} {d : F64} (h : F64.ofRat q < d) : q < d.val := by
  by_contra hn
  exact absurd h (not_lt.mpr (F64.le_ofRat (not_lt.mp hn)))

theorem F64.sub_zero_eq (a : F64) : a - 0 = a := by
  apply F64.ext
  rw [F64.sub_val, F64.zero_val, sub_zero, a.rep]

/-- A float difference above a non-negative threshold: the exact difference is above the
threshold too. -/
theorem F64.lt_sub {a b d : F64} (h : d < a - b) : d.val < a.val - b.val :=
  F64.lt_of_lt_ofRat h

theorem F64.add_le {a b d : F64} (h : a.val + b.val ≤ d.val) : a + b ≤ d :=
  F64.ofRat_le h

theorem F64.le_add {a b d : F64} (h : d.val ≤ a.val + b.val) : d ≤ a + b :=
  F64.le_ofRat h

/-- The rounding error is at most half a unit of the binade that holds `x`. -/
theorem abs_round64_sub_le_of_lt {x : ℚ} {k : ℤ} (hk : -1074 ≤ k)
    (h : |x| < (2 : ℚ) ^ (k + 53)) : |round64 x - x| ≤ 2 ^ k / 2 := by
  by_cases hx : x = 0
  · rw [hx, round64_zero]; simp; positivity
  · have hb : binade x < k + 53 :=
      (zpow_lt_zpow_iff_right₀ (by norm_num : (1 : ℚ) < 2)).mp
        (lt_of_le_of_lt (binade_spec hx).1 h)
    have he : ulpExp x ≤ k := by
      rw [ulpExp_def]; exact max_le (by omega) hk
    have h1 := abs_round64_sub_le x
    have h2 : (2 : ℚ) ^ ulpExp x ≤ 2 ^ k := zpow_le_zpow_right₀ (by norm_num) he
    linarith

/-- Segments more than 0.8 apart: the padded end of the first is not after the start of
the second. -/
theorem F64.add_pad_le {a b : F64} (h : (0.8 : F64) < b - a) : a + 0.3 ≤ b := by
  have h1 := F64.lt_sub h
  have hc : (0.3 : F64).val ≤ (0.8 : F64).val := by decide!
  exact F64.add_le (by linarith)

theorem F64.lt_of_half_lt_sub {a b : F64} (h : (0.5 : F64) < b - a) : a < b := by
  have h1 := F64.lt_sub h
  have hc : (0 : ℚ) ≤ (0.5 : F64).val := by decide!
  rw [F64.lt_def]; linarith

theorem F64.le_add_pad (e : F64) : e ≤ e + 0.3 := by
  have hc : (0 : ℚ) ≤ (0.3 : F64).val := by decide!
  exact F64.le_add (by linarith)

/-- Below 2^51 the padding of 0.3 is not lost in rounding. -/
theorem F64.lt_add_pad {e : F64} (h : |e.val| < 2 ^ 51) : e < e + 0.3 := by
  have hc : (1 / 4 : ℚ) < (0.3 : F64).val := by decide!
  have hc2 : (0.3 : F64).val < 1 := by decide!
  have hx : |e.val + (0.3 : F64).val| < (2 : ℚ) ^ ((-1 : ℤ) + 53) := by
    have : (2 : ℚ) ^ ((-1 : ℤ) + 53) = 2 ^ 52 := by norm_num
    rw [this]
    calc |e.val + (0.3 : F64).val| ≤ |e.val| + |(0.3 : F64).val| := abs_add _ _
      _ < 2 ^ 51 + 1 := by rw [abs_of_pos (by linarith : (0 : ℚ) < (0.3 : F64).val)]; linarith
      _ ≤ 2 ^ 52 := by norm_num
  have herr := abs_round64_sub_le_of_lt (by norm_num) hx
  rw [abs_le] at herr
  rw [F64.lt_def, F64.add_val]
  have : (2 : ℚ) ^ (-1 : ℤ) / 2 = 1 / 4 := by norm_num
  rw [this] at herr
  linarith [herr.1]


theorem truncToInt_of_nonneg (q : F64) (hq : 0 ≤ q.val) : truncToInt q = Int.floor q.val := by
  unfold truncToInt
  rw [if_pos hq]
  rfl

/-- In the normal range the rounding error is at most 2^(-53) of the value. -/
theorem abs_round64_sub_le_rel {x : ℚ} (hx : (2 : ℚ) ^ (-1022 : ℤ) ≤ |x|) :
    |round64 x - x| ≤ |x| * 2 ^ (-53 : ℤ) := by
  have hpos : (0 : ℚ) < |x| := lt_of_lt_of_le (zpow_pos (by norm_num) _) hx
  obtain ⟨s1, s2⟩ := binade_spec (abs_pos.mp hpos)
  have hb : (-1022 : ℤ) < binade x + 1 :=
    (zpow_lt_zpow_iff_right₀ (by norm_num : (1 : ℚ) < 2)).mp (lt_of_le_of_lt hx s2)
  have h := abs_round64_sub_le_of_lt (x := x) (k := binade x - 52) (by omega)
    (by rw [show binade x - 52 + 53 = binade x + 1 by ring]; exact s2)
  have e : (2 : ℚ) ^ (binade x - 52) / 2 = 2 ^ binade x * 2 ^ (-53 : ℤ) := by
    rw [show binade x - 52 = binade x + (-53) + 1 by ring, zpow_add₀ (by norm_num),
      zpow_add₀ (by norm_num), zpow_one]
    ring
  rw [e] at h
  exact le_trans h (mul_le_mul_of_nonneg_right s1 (by positivity))

/-- A sum `a + m` is above `a` when `m` is more than half the distance to a value above
`a`. -/
theorem F64.lt_add_of_half_lt {a b m : F64} (hab : a < b) (hm : b.val - a.val < 2 * m.val) :
    a < a + m := by
  rw [F64.lt_def, F64.add_val]
  rcases le_or_lt b.val (a.val + m.val) with h | h
  · calc a.val < b.val := hab
      _ = round64 b.val := b.rep.symm
      _ ≤ round64 (a.val + m.val) := round64_mono h
  · by_contra hn
    have hn : round64 (a.val + m.val) ≤ a.val := not_lt.mp hn
    have hnear := round64_nearest (q := a.val + m.val) b.rep
    rw [abs_of_pos (by linarith : (0 : ℚ) < b.val - (a.val + m.val))] at hnear
    have h2 := neg_abs_le (round64 (a.val + m.val) - (a.val + m.val))
    linarith

/-! ## Lemmas on the loops -/

theorem foldl_groupStep_some (items : List TimelineItem) :
    ∀ (segs : List speechSegment) (cur : speechSegment),
      closeFinal (items.foldl groupStep (segs, some cur)) = segs ++ groupFrom cur items := by
  induction items with
  | nil => intro segs cur; simp [closeFinal, groupFrom]
  | cons item items ih =>
    intro segs cur
    simp only [List.foldl_cons, groupFrom]
    by_cases hk : item.Kind ≠ "speech_word"
    · simp only [groupStep]
      rw [if_pos hk, if_pos hk]
      exact ih segs cur
    · by_cases hg : item.T - cur.end_ > 0.8
      · simp only [groupStep]
        rw [if_neg hk, if_neg hk, if_pos hg, if_pos hg, ih]; simp
      · simp only [groupStep]
        rw [if_neg hk, if_neg hk, if_neg hg, if_neg hg, ih]

theorem foldl_groupStep_none (items : List TimelineItem) :
    ∀ (segs : List speechSegment),
      closeFinal (items.foldl groupStep (segs, none)) = segs ++ groupNone items := by
  induction items with
  | nil => intro segs; simp [closeFinal, groupNone]
  | cons item items ih =>
    intro segs
    simp only [List.foldl_cons, groupNone]
    by_cases hk : item.Kind ≠ "speech_word"
    · simp only [groupStep]
      rw [if_pos hk, if_pos hk]
      exact ih segs
    · simp only [groupStep]
      rw [if_neg hk, if_neg hk, foldl_groupStep_some]

theorem speechSegments_eq_groupNone (timeline : List TimelineItem) :
    speechSegments timeline = groupNone timeline := by
  simp [speechSegments, groupSpeech, foldl_groupStep_none]

theorem finalWindow_foldl_windowStep (videoDuration : F64) (segs : List speechSegment) :
    ∀ (windows : List Window) (cursor : F64),
      finalWindow (segs.foldl windowStep (windows, cursor)) videoDuration
        = windows ++ windowsFrom videoDuration cursor segs := by
  induction segs with
  | nil =>
    intro windows cursor
    simp only [List.foldl_nil, finalWindow, windowsFrom]
    split <;> simp
  | cons seg rest ih =>
    intro windows cursor
    simp only [List.foldl_cons, windowsFrom]
    by_cases hg : seg.start > cursor ∧ (seg.start - cursor) > 0.5
    · simp only [windowStep]
      rw [if_pos hg, if_pos hg, ih]; simp
    · simp only [windowStep]
      rw [if_neg hg, if_neg hg, ih]; simp

theorem ExtractNarrationWindows_eq_windowsFrom (timeline : List TimelineItem)
    (videoDuration : F64) :
    ExtractNarrationWindows timeline videoDuration
      = windowsFrom videoDuration 0 (groupNone timeline) := by
  simp [ExtractNarrationWindows, finalWindow_foldl_windowStep, speechSegments_eq_groupNone]

/-! ## Segments of a time-sorted timeline -/

theorem groupFrom_head (items : List TimelineItem) :
    ∀ cur : speechSegment, ∀ s ∈ (groupFrom cur items).head?, s.start = cur.start := by
  induction items with
  | nil => intro cur s hs; simp [groupFrom] at hs; rw [← hs]
  | cons item items ih =>
    intro cur s hs
    rw [groupFrom] at hs
    by_cases hk : item.Kind ≠ "speech_word"
    · rw [if_pos hk] at hs; exact ih cur s hs
    · rw [if_neg hk] at hs
      by_cases hg : item.T - cur.end_ > 0.8
      · rw [if_pos hg] at hs; simp at hs; rw [← hs]
      · rw [if_neg hg] at hs
        exact ih { cur with end_ := item.T, words := cur.words ++ [item] } s hs

theorem groupFrom_good (items : List TimelineItem) :
    ∀ cur : speechSegment, cur.start ≤ cur.end_ → TimeSorted items →
      (∀ x ∈ items, cur.end_ ≤ x.T) → GoodSegments (groupFrom cur items) := by
  induction items with
  | nil =>
    intro cur hc _ _
    simp [groupFrom, GoodSegments, hc]
  | cons item items ih =>
    intro cur hc hs hle
    have hs' : (∀ y ∈ items, item.T ≤ y.T) ∧ TimeSorted items := List.pairwise_cons.mp hs
    have hle' : ∀ x ∈ items, cur.end_ ≤ x.T := fun x hx => hle x (List.mem_cons_of_mem _ hx)
    have hi : cur.end_ ≤ item.T := hle item (List.mem_cons_self _ _)
    simp only [groupFrom]
    by_cases hk : item.Kind ≠ "speech_word"
    · rw [if_pos hk]; exact ih cur hc hs'.2 hle'
    · rw [if_neg hk]
      by_cases hg : item.T - cur.end_ > 0.8
      · rw [if_pos hg]
        have h := ih (newSegment item) (le_refl _) hs'.2 hs'.1
        refine ⟨?_, ?_⟩
        · intro s hs1
          rcases List.mem_cons.mp hs1 with h1 | h1
          · rw [h1]; exact hc
          · exact h.1 s h1
        · refine List.chain'_cons'.mpr ⟨?_, h.2⟩
          intro y hy
          have := groupFrom_head items (newSegment item) y hy
          rw [this]; exact hg
      · rw [if_neg hg]
        exact ih _ (le_trans hc hi) hs'.2 hs'.1

theorem groupNone_good (items : List TimelineItem) :
    TimeSorted items → GoodSegments (groupNone items) := by
  induction items with
  | nil => intro _; simp [groupNone, GoodSegments]
  | cons item items ih =>
    intro hs
    have hs' : (∀ y ∈ items, item.T ≤ y.T) ∧ TimeSorted items := List.pairwise_cons.mp hs
    simp only [groupNone]
    by_cases hk : item.Kind ≠ "speech_word"
    · rw [if_pos hk]; exact ih hs'.2
    · rw [if_neg hk]
      exact groupFrom_good items (newSegment item) (le_refl _) hs'.2 hs'.1

theorem GoodSegments_tail {seg : speechSegment} {rest : List speechSegment}
    (h : GoodSegments (seg :: rest)) : GoodSegments rest :=
  ⟨fun s hs => h.1 s (List.mem_cons_of_mem _ hs), (List.chain'_cons'.mp h.2).2⟩

/-! ## Windows of a good segment list -/

theorem windowsFrom_chain (videoDuration : F64) (segs : List speechSegment) :
    ∀ (cursor : F64) (w : Window), w.End ≤ cursor →
      (∀ s ∈ segs.head?, cursor ≤ s.start) → GoodSegments segs →
      List.Chain (fun a b : Window => a.End ≤ b.Start) w
        (windowsFrom videoDuration cursor segs) := by
  induction segs with
  | nil =>
    intro cursor w hw _ _
    simp only [windowsFrom]
    split
    · exact List.Chain.cons hw List.Chain.nil
    · exact List.Chain.nil
  | cons seg rest ih =>
    intro cursor w hw hhead hgood
    have hcs : cursor ≤ seg.start := hhead seg (by simp)
    have hrest : List.Chain (fun a b : Window => a.End ≤ b.Start)
        { Start := seg.start, End := seg.end_ + 0.3 }
        (windowsFrom videoDuration (seg.end_ + 0.3) rest) := by
      refine ih _ _ (le_refl _) ?_ (GoodSegments_tail hgood)
      intro s hs
      exact F64.add_pad_le ((List.chain'_cons'.mp hgood.2).1 s hs)
    simp only [windowsFrom]
    split
    · exact List.Chain.cons hw (List.Chain.cons (le_refl _) hrest)
    · exact List.Chain.cons (le_trans hw hcs) hrest

theorem windowsFrom_adjacent (videoDuration : F64) (segs : List speechSegment)
    (hgood : GoodSegments segs) :
    AdjacentDisjoint (windowsFrom videoDuration 0 segs) := by
  cases segs with
  | nil =>
    simp only [windowsFrom, AdjacentDisjoint]
    split <;> simp
  | cons seg rest =>
    have hrest : List.Chain (fun a b : Window => a.End ≤ b.Start)
        { Start := seg.start, End := seg.end_ + 0.3 }
        (windowsFrom videoDuration (seg.end_ + 0.3) rest) := by
      refine windowsFrom_chain videoDuration rest _ _ (le_refl _) ?_ (GoodSegments_tail hgood)
      intro s hs
      exact F64.add_pad_le ((List.chain'_cons'.mp hgood.2).1 s hs)
    simp only [windowsFrom, AdjacentDisjoint]
    split
    · exact List.Chain.cons (le_refl _) hrest
    · exact hrest

theorem windowsFrom_start_le_end (videoDuration : F64) (segs : List speechSegment) :
    ∀ (cursor : F64), (∀ s ∈ segs, s.start ≤ s.end_) →
      ∀ w ∈ windowsFrom videoDuration cursor segs, w.Start ≤ w.End := by
  induction segs with
  | nil =>
    intro cursor _ w hw
    simp only [windowsFrom] at hw
    split at hw
    · rename_i h
      simp at hw; rw [hw]; exact h.1.le
    · simp at hw
  | cons seg rest ih =>
    intro cursor hgood w hw
    have hse : seg.start ≤ seg.end_ := hgood seg (List.mem_cons_self _ _)
    have hr := ih (seg.end_ + 0.3) (fun s hs => hgood s (List.mem_cons_of_mem _ hs))
    simp only [windowsFrom] at hw
    rcases List.mem_append.mp hw with h1 | h1
    · split at h1
      · rename_i h
        simp at h1; rw [h1]; exact h.1.le
      · simp at h1
    · rcases List.mem_cons.mp h1 with h2 | h2
      · rw [h2]; exact le_trans hse (F64.le_add_pad _)
      · exact hr w h2

theorem windowsFrom_start_lt_end (videoDuration : F64) (segs : List speechSegment) :
    ∀ (cursor : F64), (∀ s ∈ segs, s.start ≤ s.end_) →
      (∀ s ∈ segs, |s.end_.val| < 2 ^ 51) →
      ∀ w ∈ windowsFrom videoDuration cursor segs, w.Start < w.End := by
  induction segs with
  | nil =>
    intro cursor _ _ w hw
    simp only [windowsFrom] at hw
    split at hw
    · rename_i h
      simp at hw; rw [hw]; exact h.1
    · simp at hw
  | cons seg rest ih =>
    intro cursor hgood hsmall w hw
    have hse : seg.start ≤ seg.end_ := hgood seg (List.mem_cons_self _ _)
    have hr := ih (seg.end_ + 0.3) (fun s hs => hgood s (List.mem_cons_of_mem _ hs))
      (fun s hs => hsmall s (List.mem_cons_of_mem _ hs))
    simp only [windowsFrom] at hw
    rcases List.mem_append.mp hw with h1 | h1
    · split at h1
      · rename_i h
        simp at h1; rw [h1]; exact h.1
      · simp at h1
    · rcases List.mem_cons.mp h1 with h2 | h2
      · rw [h2]
        exact lt_of_le_of_lt hse (F64.lt_add_pad (hsmall seg (List.mem_cons_self _ _)))
      · exact hr w h2

theorem groupFrom_end (P : F64 → Prop) (items : List TimelineItem) :
    ∀ cur : speechSegment, P cur.end_ →
      (∀ x ∈ items, x.Kind = "speech_word" → P x.T) →
      ∀ s ∈ groupFrom cur items, P s.end_ := by
  induction items with
  | nil =>
    intro cur hc _ s hs
    simp only [groupFrom, List.mem_singleton] at hs
    rw [hs]; exact hc
  | cons item items ih =>
    intro cur hc hall s hs
    have hall' : ∀ x ∈ items, x.Kind = "speech_word" → P x.T :=
      fun x hx => hall x (List.mem_cons_of_mem _ hx)
    rw [groupFrom] at hs
    by_cases hk : item.Kind ≠ "speech_word"
    · rw [if_pos hk] at hs; exact ih cur hc hall' s hs
    · rw [if_neg hk] at hs
      have hi : P item.T := hall item (List.mem_cons_self _ _) (not_not.mp hk)
      by_cases hg : item.T - cur.end_ > 0.8
      · rw [if_pos hg] at hs
        rcases List.mem_cons.mp hs with h1 | h1
        · rw [h1]; exact hc
        · exact ih (newSegment item) hi hall' s h1
      · rw [if_neg hg] at hs
        exact ih _ hi hall' s hs

theorem groupNone_end (P : F64 → Prop) (items : List TimelineItem) :
    (∀ x ∈ items, x.Kind = "speech_word" → P x.T) →
      ∀ s ∈ groupNone items, P s.end_ := by
  induction items with
  | nil => intro _ s hs; simp [groupNone] at hs
  | cons item items ih =>
    intro hall s hs
    have hall' : ∀ x ∈ items, x.Kind = "speech_word" → P x.T :=
      fun x hx => hall x (List.mem_cons_of_mem _ hx)
    rw [groupNone] at hs
    by_cases hk : item.Kind ≠ "speech_word"
    · rw [if_pos hk] at hs; exact ih hall' s hs
    · rw [if_neg hk] at hs
      exact groupFrom_end P items (newSegment item)
        (hall item (List.mem_cons_self _ _) (not_not.mp hk)) hall' s hs

/-! ## Claims on `ExtractNarrationWindows` -/

/-- C1. For every timeline in non-decreasing time order and every video duration, each
pair of adjacent windows returned by `ExtractNarrationWindows` satisfies
`window[i].End <= window[i+1].Start`. -/
theorem ExtractNarrationWindows_adjacent_disjoint (timeline : List TimelineItem)
    (videoDuration : F64) (hsorted : TimeSorted timeline) :
    (ExtractNarrationWindows timeline videoDuration).Chain' (fun a b => a.End ≤ b.Start) := by
  rw [ExtractNarrationWindows_eq_windowsFrom]
  exact windowsFrom_adjacent videoDuration _ (groupNone_good timeline hsorted)

/-- C2 (counterexample). One speech word at 1e16 s in a video of 2e16 s: the padded end
`1e16 + 0.3` rounds back to 1e16, so the speech window is `{1e16, 1e16}` and
`Start < End` fails for it. -/
theorem ExtractNarrationWindows_start_eq_end :
    TimeSorted [word 1e16] ∧
      ExtractNarrationWindows [word 1e16] 2e16
        = [⟨0, 1e16⟩, ⟨1e16, 1e16⟩, ⟨1e16, 2e16⟩] ∧
      ¬ ∀ w ∈ ExtractNarrationWindows [word 1e16] 2e16, w.Start < w.End := by
  have h : ExtractNarrationWindows [word 1e16] 2e16
      = [⟨0, 1e16⟩, ⟨1e16, 1e16⟩, ⟨1e16, 2e16⟩] := by decide!
  refine ⟨by unfold TimeSorted; decide!, h, ?_⟩
  rw [h]
  intro hall
  exact lt_irrefl _ (hall ⟨1e16, 1e16⟩ (by simp))

/-- C2 (amended). For every timeline in non-decreasing time order and every video
duration, each window returned by `ExtractNarrationWindows` has `Start <= End`, and
`Start < End` when every speech word time is below 2^51 s in absolute value. -/
theorem ExtractNarrationWindows_start_lt_end (timeline : List TimelineItem)
    (videoDuration : F64) (hsorted : TimeSorted timeline) :
    (∀ w ∈ ExtractNarrationWindows timeline videoDuration, w.Start ≤ w.End) ∧
    ((∀ x ∈ timeline, x.Kind = "speech_word" → |x.T.val| < 2 ^ 51) →
      ∀ w ∈ ExtractNarrationWindows timeline videoDuration, w.Start < w.End) := by
  rw [ExtractNarrationWindows_eq_windowsFrom]
  refine ⟨windowsFrom_start_le_end videoDuration _ 0 (groupNone_good timeline hsorted).1, ?_⟩
  intro hsmall
  exact windowsFrom_start_lt_end videoDuration _ 0 (groupNone_good timeline hsorted).1
    (groupNone_end (fun t => |t.val| < 2 ^ 51) timeline hsmall)

theorem ExtractNarrationWindows_adjacent_disjoint_witness :
    TimeSorted [word 0, click 0.5, word 2] ∧
      (ExtractNarrationWindows [word 0, click 0.5, word 2] 10).Chain'
        (fun a b => a.End ≤ b.Start) :=
  ⟨by unfold TimeSorted; decide!,
    ExtractNarrationWindows_adjacent_disjoint [word 0, click 0.5, word 2] 10
      (by unfold TimeSorted; decide!)⟩

theorem ExtractNarrationWindows_start_lt_end_witness :
    TimeSorted [word 0, click 0.5, word 2] ∧
      (∀ x ∈ [word 0, click 0.5, word 2], x.Kind = "speech_word" → |x.T.val| < 2 ^ 51) ∧
      ∀ w ∈ ExtractNarrationWindows [word 0, click 0.5, word 2] 10, w.Start < w.End :=
  have hsmall : ∀ x ∈ [word 0, click 0.5, word 2],
      x.Kind = "speech_word" → |x.T.val| < 2 ^ 51 := by decide!
  ⟨by unfold TimeSorted; decide!, hsmall,
    (ExtractNarrationWindows_start_lt_end [word 0, click 0.5, word 2] 10
      (by unfold TimeSorted; decide!)).2 hsmall⟩

/-- C3 (evaluation at the failing input). With one speech word at 9.9 in a 10 s video
(a time-sorted timeline with every time in `[0, 10]`) `ExtractNarrationWindows` returns
`[{0, 9.9}, {9.9, 10.200000000000001}]` (the `float64` sum `9.9 + 0.3`): the speech
window ends after the video, and `validateWindows` rejects the list with
"window 1 exceeds video duration". -/
theorem ExtractNarrationWindows_exceeds_duration :
    (10 : F64) > 0 ∧ TimeSorted [word 9.9] ∧ (∀ x ∈ [word 9.9], 0 ≤ x.T ∧ x.T ≤ 10) ∧
      ExtractNarrationWindows [word 9.9] 10 = [⟨0, 9.9⟩, ⟨9.9, 10.200000000000001⟩] ∧
      (∃ w ∈ ExtractNarrationWindows [word 9.9] 10, ¬ w.End ≤ 10) ∧
      validateWindows 10 (ExtractNarrationWindows [word 9.9] 10)
        = .error "window 1 exceeds video duration" := by
  have h : ExtractNarrationWindows [word 9.9] 10
      = [⟨0, 9.9⟩, ⟨9.9, 10.200000000000001⟩] := by decide!
  refine ⟨by decide!, by unfold TimeSorted; decide!, by decide!, h, ?_, by decide!⟩
  rw [h]; exact ⟨⟨9.9, 10.200000000000001⟩, by simp, by decide!⟩

theorem windowsFrom_eq_referenceWindows (totalDuration : F64) (segs : List speechSegment) :
    ∀ cursor : F64,
      windowsFrom totalDuration cursor segs = referenceWindows totalDuration cursor segs := by
  induction segs with
  | nil =>
    intro cursor
    have h : (cursor < totalDuration ∧ totalDuration - cursor > 0.5)
        ↔ totalDuration - cursor > 0.5 := by
      constructor
      · exact fun h => h.2
      · intro h; exact ⟨F64.lt_of_half_lt_sub h, h⟩
    simp only [windowsFrom, referenceWindows, h]
  | cons seg rest ih =>
    intro cursor
    have h : (seg.start > cursor ∧ seg.start - cursor > 0.5)
        ↔ seg.start - cursor > 0.5 := by
      constructor
      · exact fun h => h.2
      · intro h; exact ⟨F64.lt_of_half_lt_sub h, h⟩
    simp only [windowsFrom, referenceWindows, h, ih]

/-- C4 (counterexample). One speech word at 0.3 and `D = 1.1`. In exact arithmetic the
reference procedure emits the speech window `[0.3, 0.6]` alone, since `1.1 - 0.6` is not
above 0.5; the code, on the `float64` values of the same numbers, also emits the final
window `[0.6, 1.1]` (the `float64` difference is 0.5000000000000001). Run in exact
arithmetic on the `float64` values themselves, the reference procedure gives other window
bounds than the code. -/
theorem ExtractNarrationWindows_ne_exact_reference :
    referenceWindowsExact 1.1 0 [(0.3, 0.3)] = [(0.3, 0.6)] ∧
      speechSegments [word 0.3] = [⟨0.3, 0.3, [word 0.3]⟩] ∧
      ExtractNarrationWindows [word 0.3] 1.1 = [⟨0.3, 0.6⟩, ⟨0.6, 1.1⟩] ∧
      (ExtractNarrationWindows [word 0.3] 1.1).map (fun w => (w.Start.val, w.End.val))
        ≠ referenceWindowsExact (1.1 : F64).val 0
            ((speechSegments [word 0.3]).map (fun s => (s.start.val, s.end_.val))) := by
  refine ⟨by decide!, by decide!, by decide!, by decide!⟩

/-- C4 (amended). `ExtractNarrationWindows` equals the reference procedure of the
specification run in `float64` arithmetic on the code's speech segments with the cursor
starting at 0: a gap-fill window `[cursor, s]` exactly when the rounded difference
`s - cursor` is above 0.5, then the speech window `[s, e + 0.3]` with the rounded sum, the
cursor set to that sum, and after the last segment the final window `[cursor, D]` exactly
when the rounded difference `D - cursor` is above 0.5. -/
theorem ExtractNarrationWindows_eq_reference (timeline : List TimelineItem)
    (videoDuration : F64) :
    ExtractNarrationWindows timeline videoDuration
      = referenceWindows videoDuration 0 (speechSegments timeline) := by
  rw [ExtractNarrationWindows_eq_windowsFrom, speechSegments_eq_groupNone,
    windowsFrom_eq_referenceWindows]

/-- C6 (counterexample). For speech words at 0, 0.3, 0.6 and `D = 10` the result is
`[{0, 0.8999999999999999}, {0.8999999999999999, 10}]`, the `float64` sum `0.6 + 0.3`, and
not `[{0, 0.9}, {0.9, 10}]`. -/
theorem ExtractNarrationWindows_single_segment_rounded :
    ExtractNarrationWindows [word 0, word 0.3, word 0.6] 10
        = [⟨0, 0.8999999999999999⟩, ⟨0.8999999999999999, 10⟩] ∧
      ExtractNarrationWindows [word 0, word 0.3, word 0.6] 10 ≠ [⟨0, 0.9⟩, ⟨0.9, 10⟩] := by
  refine ⟨by decide!, by decide!⟩

/-- C6 (amended). When the speech words of the timeline form the single segment `[s, e]`
with `0 <= s <= 0.5` and `D - (e + 0.3) > 0.5` in `float64` arithmetic,
`ExtractNarrationWindows` returns exactly `[s, e + 0.3]` and `[e + 0.3, D]`, with the
rounded sum `e + 0.3`; for speech words at 0, 0.3, 0.6 and `D = 10` the result is
`[{0, 0.8999999999999999}, {0.8999999999999999, 10}]`. -/
theorem ExtractNarrationWindows_single_segment :
    (∀ (timeline : List TimelineItem) (videoDuration : F64) (seg : speechSegment),
      speechSegments timeline = [seg] → 0 ≤ seg.start → seg.start ≤ 0.5 →
      videoDuration - (seg.end_ + 0.3) > 0.5 →
      ExtractNarrationWindows timeline videoDuration
        = [⟨seg.start, seg.end_ + 0.3⟩, ⟨seg.end_ + 0.3, videoDuration⟩]) ∧
    speechSegments [word 0, word 0.3, word 0.6]
      = [⟨0, 0.6, [word 0, word 0.3, word 0.6]⟩] ∧
    ExtractNarrationWindows [word 0, word 0.3, word 0.6] 10
      = [⟨0, 0.8999999999999999⟩, ⟨0.8999999999999999, 10⟩] := by
  refine ⟨?_, by decide!, by decide!⟩
  intro timeline videoDuration seg hseg _ hs hd
  rw [ExtractNarrationWindows_eq_windowsFrom, ← speechSegments_eq_groupNone, hseg]
  have h1 : ¬ (seg.start > 0 ∧ seg.start - 0 > 0.5) := by
    intro h; have := h.2
    rw [F64.sub_zero_eq] at this
    exact absurd hs (not_le.mpr this)
  have h2 : seg.end_ + 0.3 < videoDuration ∧ videoDuration - (seg.end_ + 0.3) > 0.5 :=
    ⟨F64.lt_of_half_lt_sub hd, hd⟩
  simp only [windowsFrom]
  rw [if_neg h1, if_pos h2]; rfl

theorem ExtractNarrationWindows_single_segment_witness :
    speechSegments [word 0, word 0.3, word 0.6]
        = [⟨0, 0.6, [word 0, word 0.3, word 0.6]⟩] ∧
      ExtractNarrationWindows [word 0, word 0.3, word 0.6] 10
        = [⟨(0 : F64), (0.6 : F64) + 0.3⟩, ⟨(0.6 : F64) + 0.3, 10⟩] :=
  ⟨ExtractNarrationWindows_single_segment.2.1,
    ExtractNarrationWindows_single_segment.1 [word 0, word 0.3, word 0.6] 10
      ⟨0, 0.6, [word 0, word 0.3, word 0.6]⟩ ExtractNarrationWindows_single_segment.2.1
      (by decide!) (by decide!) (by decide!)⟩

theorem groupNone_no_speech (items : List TimelineItem) :
    (∀ x ∈ items, x.Kind ≠ "speech_word") → groupNone items = [] := by
  induction items with
  | nil => intro _; rfl
  | cons item items ih =>
    intro h
    rw [groupNone, if_pos (h item (List.mem_cons_self _ _))]
    exact ih (fun x hx => h x (List.mem_cons_of_mem _ hx))

/-- C7. For every timeline without a `speech_word` item (the empty timeline included)
and every duration `D`, `ExtractNarrationWindows` returns the single window `[0, D]`
when `D > 0.5` and the empty list otherwise. -/
theorem ExtractNarrationWindows_no_speech (timeline : List TimelineItem)
    (videoDuration : F64) (hno : ∀ x ∈ timeline, x.Kind ≠ "speech_word") :
    ExtractNarrationWindows timeline videoDuration
      = if videoDuration > 0.5 then [⟨0, videoDuration⟩] else [] := by
  rw [ExtractNarrationWindows_eq_windowsFrom, groupNone_no_speech timeline hno]
  simp only [windowsFrom]
  by_cases h : videoDuration > 0.5
  · have h2 : (0 : F64) < videoDuration ∧ videoDuration - 0 > 0.5 := by
      rw [F64.sub_zero_eq]
      exact ⟨lt_trans (by decide!) h, h⟩
    rw [if_pos h, if_pos h2]
  · have h2 : ¬ ((0 : F64) < videoDuration ∧ videoDuration - 0 > 0.5) := by
      rw [F64.sub_zero_eq]
      intro h3; exact h h3.2
    rw [if_neg h, if_neg h2]

theorem ExtractNarrationWindows_no_speech_witness :
    (∀ x ∈ [click 1, click 2], x.Kind ≠ "speech_word") ∧
      ExtractNarrationWindows [click 1, click 2] 10
        = if (10 : F64) > 0.5 then [⟨0, 10⟩] else [] :=
  ⟨by simp [click], ExtractNarrationWindows_no_speech [click 1, click 2] 10 (by simp [click])⟩

/-! ## The 0.8 s grouping threshold -/

theorem flatWords_append (A B : List speechSegment) :
    flatWords (A ++ B) = flatWords A ++ flatWords B := by
  induction A with
  | nil => rfl
  | cons a A ih => simp [flatWords, ih]

theorem speechWords_cons_speech {item : TimelineItem} (items : List TimelineItem)
    (h : ¬ item.Kind ≠ "speech_word") :
    speechWords (item :: items) = item :: speechWords items := by
  have h1 : item.Kind = "speech_word" := not_not.mp h
  simp [speechWords, h1]

theorem speechWords_cons_other {item : TimelineItem} (items : List TimelineItem)
    (h : item.Kind ≠ "speech_word") :
    speechWords (item :: items) = speechWords items := by
  simp [speechWords, h]

/-- The loop state reached after `pre` and the speech word `w1`, started with current
segment `c`: closed segments `A` and a current segment ending with `w1`. -/
theorem groupFrom_after_pre (pre : List TimelineItem) (w1 : TimelineItem)
    (hw1 : ¬ w1.Kind ≠ "speech_word") :
    ∀ c : speechSegment, ∃ (A : List speechSegment) (cur : speechSegment)
      (X : List TimelineItem),
      (∀ rest, groupFrom c (pre ++ w1 :: rest) = A ++ groupFrom cur rest) ∧
        cur.words = X ++ [w1] ∧ cur.end_ = w1.T ∧
        flatWords A ++ X = c.words ++ speechWords pre := by
  induction pre with
  | nil =>
    intro c
    by_cases hg : w1.T - c.end_ > 0.8
    · refine ⟨[c], newSegment w1, [], ?_, rfl, rfl, ?_⟩
      · intro rest
        rw [List.nil_append, groupFrom, if_neg hw1, if_pos hg]; rfl
      · simp [flatWords, speechWords]
    · refine ⟨[], { c with end_ := w1.T, words := c.words ++ [w1] }, c.words, ?_, rfl, rfl, ?_⟩
      · intro rest
        rw [List.nil_append, groupFrom, if_neg hw1, if_neg hg]; rfl
      · simp [flatWords, speechWords]
  | cons item pre ih =>
    intro c
    by_cases hk : item.Kind ≠ "speech_word"
    · obtain ⟨A, cur, X, h1, h2, h3, h4⟩ := ih c
      refine ⟨A, cur, X, ?_, h2, h3, ?_⟩
      · intro rest
        rw [List.cons_append, groupFrom, if_pos hk]; exact h1 rest
      · rw [speechWords_cons_other pre hk]; exact h4
    · by_cases hg : item.T - c.end_ > 0.8
      · obtain ⟨A, cur, X, h1, h2, h3, h4⟩ := ih (newSegment item)
        refine ⟨c :: A, cur, X, ?_, h2, h3, ?_⟩
        · intro rest
          rw [List.cons_append, groupFrom, if_neg hk, if_pos hg, h1 rest]; rfl
        · rw [speechWords_cons_speech pre hk]
          simp only [flatWords, List.append_assoc]
          rw [h4]; rfl
      · obtain ⟨A, cur, X, h1, h2, h3, h4⟩ :=
          ih { c with end_ := item.T, words := c.words ++ [item] }
        refine ⟨A, cur, X, ?_, h2, h3, ?_⟩
        · intro rest
          rw [List.cons_append, groupFrom, if_neg hk, if_neg hg]; exact h1 rest
        · rw [speechWords_cons_speech pre hk, h4]
          simp

/-- The loop state reached after `pre` and the speech word `w1`, started with no
current segment. -/
theorem groupNone_after_pre (pre : List TimelineItem) (w1 : TimelineItem)
    (hw1 : ¬ w1.Kind ≠ "speech_word") :
    ∃ (A : List speechSegment) (cur : speechSegment) (X : List TimelineItem),
      (∀ rest, groupNone (pre ++ w1 :: rest) = A ++ groupFrom cur rest) ∧
        cur.words = X ++ [w1] ∧ cur.end_ = w1.T ∧
        flatWords A ++ X = speechWords pre := by
  induction pre with
  | nil =>
    refine ⟨[], newSegment w1, [], ?_, rfl, rfl, ?_⟩
    · intro rest
      rw [List.nil_append, groupNone, if_neg hw1]; rfl
    · simp [flatWords, speechWords]
  | cons item pre ih =>
    by_cases hk : item.Kind ≠ "speech_word"
    · obtain ⟨A, cur, X, h1, h2, h3, h4⟩ := ih
      refine ⟨A, cur, X, ?_, h2, h3, ?_⟩
      · intro rest
        rw [List.cons_append, groupNone, if_pos hk]; exact h1 rest
      · rw [speechWords_cons_other pre hk]; exact h4
    · obtain ⟨A, cur, X, h1, h2, h3, h4⟩ := groupFrom_after_pre pre w1 hw1 (newSegment item)
      refine ⟨A, cur, X, ?_, h2, h3, ?_⟩
      · intro rest
        rw [List.cons_append, groupNone, if_neg hk]; exact h1 rest
      · rw [speechWords_cons_speech pre hk, h4]; rfl

theorem groupFrom_skip (mid : List TimelineItem)
    (hmid : ∀ x ∈ mid, x.Kind ≠ "speech_word") (cur : speechSegment)
    (rest : List TimelineItem) :
    groupFrom cur (mid ++ rest) = groupFrom cur rest := by
  induction mid with
  | nil => rfl
  | cons item mid ih =>
    rw [List.cons_append, groupFrom, if_pos (hmid item (List.mem_cons_self _ _))]
    exact ih (fun x hx => hmid x (List.mem_cons_of_mem _ hx))

theorem groupFrom_first (items : List TimelineItem) :
    ∀ c : speechSegment, ∃ (seg : speechSegment) (tail : List speechSegment)
      (Y : List TimelineItem),
      groupFrom c items = seg :: tail ∧ seg.words = c.words ++ Y := by
  induction items with
  | nil => intro c; exact ⟨c, [], [], rfl, by simp⟩
  | cons item items ih =>
    intro c
    by_cases hk : item.Kind ≠ "speech_word"
    · obtain ⟨seg, tail, Y, h1, h2⟩ := ih c
      exact ⟨seg, tail, Y, by rw [groupFrom, if_pos hk]; exact h1, h2⟩
    · by_cases hg : item.T - c.end_ > 0.8
      · exact ⟨c, groupFrom (newSegment item) items, [],
          by rw [groupFrom, if_neg hk, if_pos hg], by simp⟩
      · obtain ⟨seg, tail, Y, h1, h2⟩ :=
          ih { c with end_ := item.T, words := c.words ++ [item] }
        refine ⟨seg, tail, item :: Y, by rw [groupFrom, if_neg hk, if_neg hg]; exact h1, ?_⟩
        rw [h2]; simp

/-- A word that closes its segment is not directly followed, in that segment, by
another word: the two decompositions of the same segment list cannot both hold. -/
theorem segment_position_unique {A A' B B' : List speechSegment} {seg s1 : speechSegment}
    {X X' Y : List TimelineItem} {w1 w2 w1' : TimelineItem}
    (hlist : A ++ seg :: B = A' ++ s1 :: B')
    (hseg : seg.words = X ++ w1 :: w2 :: Y) (hs1 : s1.words = X' ++ [w1'])
    (hpos : flatWords A ++ X = flatWords A' ++ X') : False := by
  have hlen := congrArg List.length hpos
  have hl1 := congrArg List.length hseg
  have hl2 := congrArg List.length hs1
  simp only [List.length_append, List.length_cons, List.length_nil] at hlen hl1 hl2
  rcases List.append_eq_append_iff.mp hlist with ⟨a, ha, hb⟩ | ⟨c, hc, hd⟩
  · cases a with
    | nil =>
      simp only [List.nil_append, List.cons.injEq] at hb
      simp only [List.append_nil] at ha
      rw [ha] at hlen; rw [hb.1] at hl1
      omega
    | cons a0 a =>
      simp only [List.cons_append, List.cons.injEq] at hb
      rw [ha, flatWords_append] at hlen
      simp only [flatWords, List.length_append] at hlen
      rw [← hb.1] at hlen
      omega
  · cases c with
    | nil =>
      simp only [List.nil_append, List.cons.injEq] at hd
      simp only [List.append_nil] at hc
      rw [hc] at hlen; rw [← hd.1] at hl1
      omega
    | cons c0 c =>
      simp only [List.cons_append, List.cons.injEq] at hd
      rw [hc, flatWords_append] at hlen
      simp only [flatWords, List.length_append] at hlen
      rw [← hd.1] at hlen
      omega

/-- Two consecutive speech words fall in the same segment if and only if the loop's gap
test `w2.T - w1.T > 0.8` fails. -/
theorem sameSegment_iff (pre mid post : List TimelineItem) (w1 w2 : TimelineItem)
    (hw1 : w1.Kind = "speech_word") (hw2 : w2.Kind = "speech_word")
    (hmid : ∀ x ∈ mid, x.Kind ≠ "speech_word") :
    SameSegment pre w1 w2 (speechSegments (pre ++ w1 :: (mid ++ w2 :: post)))
      ↔ w2.T - w1.T ≤ 0.8 := by
  have hw1' : ¬ w1.Kind ≠ "speech_word" := not_not.mpr hw1
  have hw2' : ¬ w2.Kind ≠ "speech_word" := not_not.mpr hw2
  obtain ⟨A, cur, X, h1, h2, h3, h4⟩ := groupNone_after_pre pre w1 hw1'
  rw [speechSegments_eq_groupNone, h1, groupFrom_skip mid hmid, groupFrom, if_neg hw2', h3]
  by_cases hg : w2.T - w1.T > 0.8
  · rw [if_pos hg]
    constructor
    · rintro ⟨A', seg, B, X', Y, e1, e2, e3⟩
      exact (segment_position_unique e1.symm e2 h2 (e3.trans h4.symm)).elim
    · intro hle
      exact absurd hg (not_lt.mpr hle)
  · rw [if_neg hg]
    constructor
    · intro _
      exact not_lt.mp hg
    · intro _
      obtain ⟨seg, tail, Y, g1, g2⟩ :=
        groupFrom_first post { cur with end_ := w2.T, words := cur.words ++ [w2] }
      refine ⟨A, seg, tail, X, Y, by rw [g1], ?_, h4⟩
      rw [g2, h2]; simp

/-- C5 (counterexample). Speech words at 1.4 and 2.2, which are 0.8 apart: the `float64`
difference `2.2 - 1.4` is 0.8000000000000003, above the threshold, so the code puts them
in two segments. -/
theorem speech_gap_float_split :
    (2.2 : ℚ) - 1.4 ≤ 0.8 ∧
      (word 1.4).Kind = "speech_word" ∧ (word 2.2).Kind = "speech_word" ∧
      (2.2 : F64) - 1.4 = 0.8000000000000003 ∧
      speechSegments [word 1.4, word 2.2]
        = [⟨1.4, 1.4, [word 1.4]⟩, ⟨2.2, 2.2, [word 2.2]⟩] ∧
      ¬ SameSegment [] (word 1.4) (word 2.2)
          (speechSegments ([] ++ word 1.4 :: ([] ++ word 2.2 :: []))) := by
  refine ⟨by norm_num, rfl, rfl, by decide!, by decide!, ?_⟩
  rw [sameSegment_iff [] [] [] (word 1.4) (word 2.2) rfl rfl (by simp)]
  decide!

/-- C5 (amended). The grouping threshold in `float64` arithmetic: two consecutive speech
words `w1`, `w2` of a timeline (only non-speech items between them) fall in the same
speech segment if and only if the rounded difference `w2.T - w1.T` is at most 0.8 (the
`float64` nearest to 0.8). Words at 0 and 0.8 give the single segment `[0, 0.8]` and the
single speech window `[0, 1.1]`; words at 0 and 0.81 give the two segments `[0, 0]` and
`[0.81, 0.81]`, hence the speech windows `[0, 0.3]` and `[0.81, 1.11]` (with the gap-fill
window `[0.3, 0.81]` between them). -/
theorem speech_gap_threshold :
    (∀ (pre mid post : List TimelineItem) (w1 w2 : TimelineItem),
      w1.Kind = "speech_word" → w2.Kind = "speech_word" →
      (∀ x ∈ mid, x.Kind ≠ "speech_word") →
      (SameSegment pre w1 w2 (speechSegments (pre ++ w1 :: (mid ++ w2 :: post)))
        ↔ w2.T - w1.T ≤ 0.8)) ∧
    speechSegments [word 0, word 0.8] = [⟨0, 0.8, [word 0, word 0.8]⟩] ∧
    (∀ D : F64, ExtractNarrationWindows [word 0, word 0.8] D
      = ⟨0, 1.1⟩ :: (if D - 1.1 > 0.5 then [⟨1.1, D⟩] else [])) ∧
    speechSegments [word 0, word 0.81]
      = [⟨0, 0, [word 0]⟩, ⟨0.81, 0.81, [word 0.81]⟩] ∧
    (∀ D : F64, ExtractNarrationWindows [word 0, word 0.81] D
      = ⟨0, 0.3⟩ :: ⟨0.3, 0.81⟩ :: ⟨0.81, 1.11⟩ ::
          (if D - 1.11 > 0.5 then [⟨1.11, D⟩] else [])) := by
  have hA : speechSegments [word 0, word 0.8] = [⟨0, 0.8, [word 0, word 0.8]⟩] := by
    decide!
  have hB : speechSegments [word 0, word 0.81]
      = [⟨0, 0, [word 0]⟩, ⟨0.81, 0.81, [word 0.81]⟩] := by
    decide!
  refine ⟨sameSegment_iff, hA, ?_, hB, ?_⟩
  · intro D
    rw [ExtractNarrationWindows_eq_windowsFrom, ← speechSegments_eq_groupNone, hA,
      windowsFrom_eq_referenceWindows]
    have e1 : ¬ ((0 : F64) - 0 > 0.5) := by decide!
    have e2 : (0.8 : F64) + 0.3 = 1.1 := by decide!
    simp only [referenceWindows]
    rw [if_neg e1, e2]; rfl
  · intro D
    rw [ExtractNarrationWindows_eq_windowsFrom, ← speechSegments_eq_groupNone, hB,
      windowsFrom_eq_referenceWindows]
    have e1 : ¬ ((0 : F64) - 0 > 0.5) := by decide!
    have e2 : (0 : F64) + 0.3 = 0.3 := by decide!
    have e3 : (0.81 : F64) - 0.3 > 0.5 := by decide!
    have e4 : (0.81 : F64) + 0.3 = 1.11 := by decide!
    simp only [referenceWindows]
    rw [if_neg e1, e2, if_pos e3, e4]; rfl

theorem speech_gap_threshold_witness :
    (word 0).Kind = "speech_word" ∧ (word 0.8).Kind = "speech_word" ∧
      (∀ x ∈ [click 0.5], x.Kind ≠ "speech_word") ∧
      (SameSegment [] (word 0) (word 0.8)
          (speechSegments ([] ++ word 0 :: ([click 0.5] ++ word 0.8 :: [word 3])))
        ↔ (word 0.8).T - (word 0).T ≤ 0.8) :=
  ⟨rfl, rfl, by simp [click],
    speech_gap_threshold.1 [] [click 0.5] [word 3] (word 0) (word 0.8) rfl rfl
      (by simp [click])⟩

/-! ## `BuildTimeline` -/

theorem lessByT_strictWeakOrder : StrictWeakOrder lessByT := by
  refine ⟨?_, ?_, ?_⟩
  · intro a; simp [lessByT]
  · intro a b c hab hbc
    simp only [lessByT, decide_eq_true_eq] at hab hbc ⊢
    exact lt_trans hab hbc
  · intro a b c hab hbc
    simp only [lessByT, decide_eq_false_iff_not, not_lt] at hab hbc ⊢
    exact le_trans hbc hab

theorem sorted_insertionSort_of_strictWeakOrder
    (less : TimelineItem → TimelineItem → Bool) (hless : StrictWeakOrder less)
    (xs : List TimelineItem) :
    (List.insertionSort (fun a b => less b a = false) xs).Pairwise
      (fun a b => less b a = false) := by
  obtain ⟨hirr, htrans, hneg⟩ := hless
  haveI : IsTotal TimelineItem (fun a b => less b a = false) := ⟨by
    intro a b
    by_cases h1 : less b a = false
    · exact Or.inl h1
    · right
      have h1' : less b a = true := by simpa using h1
      by_contra h2
      have h2' : less a b = true := by simpa using h2
      have := htrans a b a h2' h1'
      rw [hirr a] at this
      exact Bool.noConfusion this⟩
  haveI : IsTrans TimelineItem (fun a b => less b a = false) := ⟨by
    intro a b c hab hbc
    exact hneg c b a hbc hab⟩
  exact List.sorted_insertionSort (fun a b => less b a = false) xs

theorem insertionSortSlice_contract : SortSliceContract insertionSortSlice := by
  intro less xs hless
  exact ⟨List.perm_insertionSort _ xs, sorted_insertionSort_of_strictWeakOrder less hless xs⟩

theorem foldl_append_speechItem (words : List DeepgramWord) :
    ∀ tl : List TimelineItem,
      words.foldl (fun tl w => tl ++ [speechItem w]) tl = tl ++ words.map speechItem := by
  induction words with
  | nil => intro tl; simp
  | cons w words ih => intro tl; simp [ih]

theorem appendedTimeline_some (words : List DeepgramWord) (actions : List TimelineItem) :
    appendedTimeline (some ⟨words⟩) actions = words.map speechItem ++ actions := by
  simp [appendedTimeline, foldl_append_speechItem]

theorem appendedTimeline_none (actions : List TimelineItem) :
    appendedTimeline none actions = actions := by
  simp [appendedTimeline]

theorem BuildTimeline_perm_appended (sortSlice : SortSlice)
    (hsort : SortSliceContract sortSlice) (deepgram : Option DeepgramResult)
    (actions : List TimelineItem) :
    (BuildTimeline sortSlice deepgram actions).Perm (appendedTimeline deepgram actions) :=
  (hsort lessByT _ lessByT_strictWeakOrder).1

theorem BuildTimeline_pairwise_le (sortSlice : SortSlice)
    (hsort : SortSliceContract sortSlice) (deepgram : Option DeepgramResult)
    (actions : List TimelineItem) :
    (BuildTimeline sortSlice deepgram actions).Pairwise (fun a b => a.T ≤ b.T) := by
  refine (hsort lessByT _ lessByT_strictWeakOrder).2.imp ?_
  intro a b h
  simpa [lessByT] using h

/-- C8. For every speech-word list, or absent speech input, and every action list, the
sequence returned by `BuildTimeline` is non-decreasing in `T` (for every `sort.Slice`
that keeps its documented promise). -/
theorem BuildTimeline_nondecreasing (sortSlice : SortSlice)
    (hsort : SortSliceContract sortSlice) (deepgram : Option DeepgramResult)
    (actions : List TimelineItem) :
    TimeSorted (BuildTimeline sortSlice deepgram actions) :=
  BuildTimeline_pairwise_le sortSlice hsort deepgram actions

theorem BuildTimeline_nondecreasing_witness :
    SortSliceContract insertionSortSlice ∧
      TimeSorted (BuildTimeline insertionSortSlice
        (some ⟨[⟨"hello", 2, 2.4, 1, "Hello"⟩, ⟨"world", 1, 1.5, 1, "world."⟩]⟩)
        [click 3, click 0.5]) :=
  ⟨insertionSortSlice_contract,
    BuildTimeline_nondecreasing insertionSortSlice insertionSortSlice_contract _ _⟩

/-- C9. `BuildTimeline` neither loses nor invents events: with speech input its output
is a permutation of one item per word, with `T` the word's `Start`, `Kind` "speech_word",
the word, the punctuated word and the confidence of the word (and no action, target or
bounds), followed by the action items, so its length is `len(words) + len(actions)`;
with absent speech input it is a permutation of the action items. -/
theorem BuildTimeline_permutation (sortSlice : SortSlice)
    (hsort : SortSliceContract sortSlice) :
    (∀ (words : List DeepgramWord) (actions : List TimelineItem),
      (BuildTimeline sortSlice (some ⟨words⟩) actions).Perm
          (words.map (fun w => (⟨w.Start, "speech_word", w.Word, w.PunctuatedWord,
              w.Confidence, "", none, none⟩ : TimelineItem)) ++ actions) ∧
        (BuildTimeline sortSlice (some ⟨words⟩) actions).length
          = words.length + actions.length) ∧
    (∀ actions : List TimelineItem, (BuildTimeline sortSlice none actions).Perm actions) := by
  refine ⟨?_, ?_⟩
  · intro words actions
    have h := BuildTimeline_perm_appended sortSlice hsort (some ⟨words⟩) actions
    rw [appendedTimeline_some] at h
    refine ⟨h, ?_⟩
    rw [h.length_eq]; simp
  · intro actions
    have h := BuildTimeline_perm_appended sortSlice hsort none actions
    rw [appendedTimeline_none] at h
    exact h

theorem BuildTimeline_permutation_witness :
    SortSliceContract insertionSortSlice ∧
      (BuildTimeline insertionSortSlice (some ⟨[⟨"hello", 2, 2.4, 1, "Hello"⟩]⟩)
        [click 3, click 0.5]).Perm
          [⟨2, "speech_word", "hello", "Hello", 1, "", none, none⟩, click 3, click 0.5] ∧
      (BuildTimeline insertionSortSlice (some ⟨[⟨"hello", 2, 2.4, 1, "Hello"⟩]⟩)
        [click 3, click 0.5]).length = 1 + 2 ∧
      (BuildTimeline insertionSortSlice none [click 3, click 0.5]).Perm
        [click 3, click 0.5] :=
  ⟨insertionSortSlice_contract,
    ((BuildTimeline_permutation insertionSortSlice insertionSortSlice_contract).1
      [⟨"hello", 2, 2.4, 1, "Hello"⟩] [click 3, click 0.5]).1,
    ((BuildTimeline_permutation insertionSortSlice insertionSortSlice_contract).1
      [⟨"hello", 2, 2.4, 1, "Hello"⟩] [click 3, click 0.5]).2,
    (BuildTimeline_permutation insertionSortSlice insertionSortSlice_contract).2
      [click 3, click 0.5]⟩

/-! ## Order of items with equal time -/

theorem filter_time_length_le_one (t : F64) (l : List TimelineItem) :
    (l.map (fun x => x.T)).Nodup →
      (l.filter (fun x => decide (x.T = t))).length ≤ 1 := by
  induction l with
  | nil => intro _; simp
  | cons a l ih =>
    intro h
    rw [List.map_cons, List.nodup_cons] at h
    by_cases ha : a.T = t
    · have hnil : l.filter (fun x => decide (x.T = t)) = [] := by
        rw [List.filter_eq_nil_iff]
        intro b hb
        have hne : b.T ≠ a.T := by
          intro hEq
          exact h.1 (List.mem_map.mpr ⟨b, hb, hEq⟩)
        simp only [decide_eq_true_eq]
        intro hbt
        exact hne (hbt.trans ha.symm)
      simp [List.filter_cons, ha, hnil]
    · have := ih h.2
      simpa [List.filter_cons, ha] using this

theorem eq_of_perm_of_length_le_one {l1 l2 : List TimelineItem} (hp : l1.Perm l2)
    (hlen : l2.length ≤ 1) : l1 = l2 := by
  match l2, hlen with
  | [], _ => exact List.perm_nil.mp hp
  | [x], _ => exact List.perm_singleton.mp hp
  | _ :: _ :: _, h => simp at h

/-- C10 (counterexample). Twelve words spoken at 1 s, 2 s, ..., 12 s and one click at
1 s. The appended slice has 13 elements, one more than `sort.Slice` sorts by insertion:
it is partitioned around the word of 7 s, which brings the click to the front, and the
output starts with the click, before the word of 1 s that was appended before it. -/
theorem BuildTimeline_not_stable :
    appendedTimeline (some ⟨twelveWords⟩) [click 1]
        = [word 1, word 2, word 3, word 4, word 5, word 6, word 7, word 8, word 9,
           word 10, word 11, word 12, click 1] ∧
      BuildTimeline sort.Slice (some ⟨twelveWords⟩) [click 1]
        = [click 1, word 1, word 2, word 3, word 4, word 5, word 6, word 7, word 8,
           word 9, word 10, word 11, word 12] ∧
      ¬ StableByTime (BuildTimeline sort.Slice (some ⟨twelveWords⟩) [click 1])
          (appendedTimeline (some ⟨twelveWords⟩) [click 1]) := by
  have h1 : appendedTimeline (some ⟨twelveWords⟩) [click 1]
      = [word 1, word 2, word 3, word 4, word 5, word 6, word 7, word 8, word 9,
         word 10, word 11, word 12, click 1] := by decide!
  have h2 : BuildTimeline sort.Slice (some ⟨twelveWords⟩) [click 1]
      = [click 1, word 1, word 2, word 3, word 4, word 5, word 6, word 7, word 8,
         word 9, word 10, word 11, word 12] := by decide!
  refine ⟨h1, h2, ?_⟩
  intro hst
  have h := hst 1
  rw [h1, h2] at h
  exact absurd h (by decide!)

/-- C10 (amended). For every `sort.Slice` that keeps its documented promise, the output
of `BuildTimeline` is non-decreasing in `T` and holds, for every time `t`, exactly the
items of time `t` of the appended list (speech words, then actions); when no two items of
the appended list share a `T`, every item is in its append-order place. The order of
items with equal `T` is left to `sort.Slice`. -/
theorem BuildTimeline_order_up_to_ties (sortSlice : SortSlice)
    (hsort : SortSliceContract sortSlice) (deepgram : Option DeepgramResult)
    (actions : List TimelineItem) :
    TimeSorted (BuildTimeline sortSlice deepgram actions) ∧
    (∀ t : F64, ((BuildTimeline sortSlice deepgram actions).filter
        (fun x => decide (x.T = t))).Perm
      ((appendedTimeline deepgram actions).filter (fun x => decide (x.T = t)))) ∧
    (((appendedTimeline deepgram actions).map (fun x => x.T)).Nodup →
      StableByTime (BuildTimeline sortSlice deepgram actions)
        (appendedTimeline deepgram actions)) := by
  have hperm := BuildTimeline_perm_appended sortSlice hsort deepgram actions
  refine ⟨BuildTimeline_pairwise_le sortSlice hsort deepgram actions, ?_, ?_⟩
  · intro t
    exact hperm.filter _
  · intro hnodup t
    exact eq_of_perm_of_length_le_one (hperm.filter _)
      (filter_time_length_le_one t _ hnodup)


theorem BuildTimeline_order_up_to_ties_witness :
    SortSliceContract insertionSortSlice ∧
      ((appendedTimeline (some ⟨[spokenWord 2]⟩) [click 3, click 0.5]).map
        (fun x => x.T)).Nodup ∧
      StableByTime (BuildTimeline insertionSortSlice (some ⟨[spokenWord 2]⟩)
          [click 3, click 0.5])
        (appendedTimeline (some ⟨[spokenWord 2]⟩) [click 3, click 0.5]) :=
  have hn : ((appendedTimeline (some ⟨[spokenWord 2]⟩) [click 3, click 0.5]).map
      (fun x => x.T)).Nodup := by decide!
  ⟨insertionSortSlice_contract, hn,
    (BuildTimeline_order_up_to_ties insertionSortSlice insertionSortSlice_contract
      (some ⟨[spokenWord 2]⟩) [click 3, click 0.5]).2.2 hn⟩

/-! ## `MapNarrationsToAudioChunks` -/

theorem dropWhile_all_iff (p : Char → Bool) (l : List Char) :
    (∀ c ∈ l.dropWhile p, p c = true) ↔ ∀ c ∈ l, p c = true := by
  induction l with
  | nil => simp
  | cons a l ih =>
    by_cases ha : p a = true
    · rw [List.dropWhile_cons_of_pos ha, ih]
      simp [ha]
    · rw [List.dropWhile_cons_of_neg ha]

theorem TrimSpace_eq_empty_iff (s : String) : TrimSpace s = "" ↔ blankText s = true := by
  have h1 : TrimSpace s = "" ↔
      ((s.data.dropWhile isSpace).reverse.dropWhile isSpace).reverse = [] := by
    unfold TrimSpace
    constructor
    · intro h
      have := congrArg String.data h
      simpa using this
    · intro h
      rw [h]
  rw [h1, List.reverse_eq_nil_iff, List.dropWhile_eq_nil_iff]
  simp only [List.mem_reverse]
  rw [dropWhile_all_iff]
  simp [blankText, List.all_eq_true]

theorem mapNarrationsStep_eq (provider : String) (chunks : List AudioChunk)
    (n : Narration) :
    mapNarrationsStep provider chunks n
      = if keptNarration n = true then chunks ++ [chunkOf provider n] else chunks := by
  unfold mapNarrationsStep keptNarration
  by_cases hb : blankText n.Text = true
  · have ht : TrimSpace n.Text = "" := (TrimSpace_eq_empty_iff _).mpr hb
    simp [ht, hb]
  · have ht : ¬ TrimSpace n.Text = "" := fun h => hb ((TrimSpace_eq_empty_iff _).mp h)
    have hb' : blankText n.Text = false := by simpa using hb
    by_cases hd : n.End - n.Start ≤ 0
    · have hd' : ¬ (n.End - n.Start > 0) := not_lt.mpr hd
      simp only [ht, hd, hb', if_true, if_false]
      simp [hd']
    · have hd' : n.End - n.Start > 0 := not_le.mp hd
      simp only [ht, hd, hb', if_false]
      simp [hd']

theorem foldl_mapNarrationsStep (provider : String) (narrations : List Narration) :
    ∀ chunks : List AudioChunk,
      narrations.foldl (mapNarrationsStep provider) chunks
        = chunks ++ (narrations.filter keptNarration).map (chunkOf provider) := by
  induction narrations with
  | nil => intro chunks; simp
  | cons n narrations ih =>
    intro chunks
    rw [List.foldl_cons, ih, mapNarrationsStep_eq]
    by_cases hk : keptNarration n = true
    · simp [hk]
    · simp [hk]

theorem MapNarrationsToAudioChunks_chunks (narrations : List Narration)
    (windows : List Window) (provider : String) :
    (MapNarrationsToAudioChunks narrations windows provider).1
      = (narrations.filter keptNarration).map (chunkOf provider) := by
  simp [MapNarrationsToAudioChunks, foldl_mapNarrationsStep]

/-- C11. `MapNarrationsToAudioChunks` is an order-preserving filter-and-copy: its chunks
are the narrations whose text is not empty or white space only and whose
`End - Start > 0`, in input order, each copied to a chunk with the same `WindowIndex`,
`Start`, `End`, `Text` and `MusicStyle` and with `Provider` the given provider; the
returned error is always nil. -/
theorem MapNarrationsToAudioChunks_filter_copy (narrations : List Narration)
    (windows : List Window) (provider : String) :
    MapNarrationsToAudioChunks narrations windows provider
        = ((narrations.filter
              (fun n => !(n.Text.data.all isSpace) && decide (n.End - n.Start > 0))).map
            (chunkOf provider), none) ∧
      ∀ n : Narration,
        (chunkOf provider n).WindowIndex = n.WindowIndex ∧
        (chunkOf provider n).Start = n.Start ∧ (chunkOf provider n).End = n.End ∧
        (chunkOf provider n).Text = n.Text ∧
        (chunkOf provider n).MusicStyle = n.MusicStyle ∧
        (chunkOf provider n).Provider = provider := by
  refine ⟨?_, fun n => ⟨rfl, rfl, rfl, rfl, rfl, rfl⟩⟩
  have h := MapNarrationsToAudioChunks_chunks narrations windows provider
  have h2 : (MapNarrationsToAudioChunks narrations windows provider).2 = none := rfl
  have h3 : keptNarration
      = fun n => !(n.Text.data.all isSpace) && decide (n.End - n.Start > 0) := by
    funext n; rfl
  rw [← h3, ← h]
  exact Prod.ext rfl h2

/-- C12 (counterexample). A narration with text "hi", times `[0, 1]` and window index 3,
mapped with an empty window list, gives a chunk with window index 3: the chunk does not
reference a valid window. -/
theorem MapNarrationsToAudioChunks_invalid_window :
    MapNarrationsToAudioChunks [⟨3, 0, 1, "hi", ""⟩] [] "deepgram"
        = ([⟨3, 0, 1, 0, "hi", "deepgram", "", "", []⟩], none) ∧
      ¬ ∀ c ∈ (MapNarrationsToAudioChunks [⟨3, 0, 1, "hi", ""⟩] [] "deepgram").1,
          ChunkInWindow [] c := by
  have h : MapNarrationsToAudioChunks [⟨3, 0, 1, "hi", ""⟩] [] "deepgram"
      = ([⟨3, 0, 1, 0, "hi", "deepgram", "", "", []⟩], none) := by
    have hk : keptNarration ⟨3, 0, 1, "hi", ""⟩ = true := by decide!
    have h1 := MapNarrationsToAudioChunks_chunks [⟨3, 0, 1, "hi", ""⟩] [] "deepgram"
    rw [List.filter_cons_of_pos hk] at h1
    exact Prod.ext h1 rfl
  refine ⟨h, ?_⟩
  rw [h]
  intro hall
  have := hall _ (List.mem_singleton.mpr rfl)
  simp [ChunkInWindow] at this

theorem forall₂_map_right {α β : Type} (R : α → β → Prop) (f : α → β)
    (h : ∀ a, R a (f a)) : ∀ l : List α, List.Forall₂ R l (l.map f)
  | [] => List.Forall₂.nil
  | a :: l => List.Forall₂.cons (h a) (forall₂_map_right R f h l)

theorem foldl_narrationWindows (narrations : List Narration) :
    ∀ ws : List Window,
      narrations.foldl (fun ws n => ws ++ [(⟨n.Start, n.End⟩ : Window)]) ws
        = ws ++ narrations.map (fun n => (⟨n.Start, n.End⟩ : Window)) := by
  induction narrations with
  | nil => intro ws; simp
  | cons n narrations ih => intro ws; simp [ih]

theorem narrationWindows_eq_map (narrations : List Narration) :
    narrationWindows narrations = narrations.map (fun n => (⟨n.Start, n.End⟩ : Window)) := by
  simp [narrationWindows, foldl_narrationWindows]

/-- C12 (amended). The chunks returned are, in order, one per narration kept (text not
blank and `End - Start > 0`), and each carries the `WindowIndex`, `Start` and `End` of
its narration unchanged: it references a valid index into `windows` and lies within that
window exactly when its narration does. With the windows the handler builds, one
`{n.Start, n.End}` per narration, and narrations numbered by their position, every chunk
lies within its window. -/
theorem MapNarrationsToAudioChunks_in_window :
    (∀ (narrations : List Narration) (windows : List Window) (provider : String),
      List.Forall₂
        (fun (n : Narration) (c : AudioChunk) =>
          c.WindowIndex = n.WindowIndex ∧ c.Start = n.Start ∧ c.End = n.End ∧
            (ChunkInWindow windows c ↔ NarrationInWindow windows n))
        (narrations.filter
          (fun n => !(n.Text.data.all isSpace) && decide (n.End - n.Start > 0)))
        (MapNarrationsToAudioChunks narrations windows provider).1) ∧
    (∀ (narrations : List Narration) (provider : String),
      (∀ (i : Nat) (n : Narration), narrations[i]? = some n → n.WindowIndex = (i : Int)) →
      ∀ c ∈ (MapNarrationsToAudioChunks narrations (narrationWindows narrations)
          provider).1,
        ChunkInWindow (narrationWindows narrations) c) := by
  refine ⟨?_, ?_⟩
  · intro narrations windows provider
    rw [MapNarrationsToAudioChunks_chunks]
    have h3 : keptNarration
        = fun n => !(n.Text.data.all isSpace) && decide (n.End - n.Start > 0) := by
      funext n; rfl
    rw [← h3]
    exact forall₂_map_right _ _ (fun n => ⟨rfl, rfl, rfl, Iff.rfl⟩) _
  · intro narrations provider hidx c hc
    rw [MapNarrationsToAudioChunks_chunks, List.mem_map] at hc
    obtain ⟨n, hn, rfl⟩ := hc
    rw [List.mem_filter] at hn
    obtain ⟨i, hi⟩ := List.getElem?_of_mem hn.1
    have hw := hidx i n hi
    have hlt : i < narrations.length := by
      by_contra hge
      rw [List.getElem?_eq_none (not_lt.mp hge)] at hi
      exact Option.noConfusion hi
    show 0 ≤ n.WindowIndex ∧ n.WindowIndex < ((narrationWindows narrations).length : Int) ∧
      ∃ w, (narrationWindows narrations)[n.WindowIndex.toNat]? = some w ∧
        w.Start ≤ n.Start ∧ n.End ≤ w.End
    rw [hw, narrationWindows_eq_map]
    refine ⟨by omega, by simp; omega, ⟨n.Start, n.End⟩, ?_, le_refl _, le_refl _⟩
    simp [hi]

theorem MapNarrationsToAudioChunks_in_window_witness :
    (∀ (i : Nat) (n : Narration),
        [(⟨0, 1, 2, "a", ""⟩ : Narration), ⟨1, 2, 3, " ", ""⟩, ⟨2, 3, 5, "b", ""⟩][i]?
          = some n → n.WindowIndex = (i : Int)) ∧
      (MapNarrationsToAudioChunks [⟨0, 1, 2, "a", ""⟩, ⟨1, 2, 3, " ", ""⟩, ⟨2, 3, 5, "b", ""⟩]
          (narrationWindows [⟨0, 1, 2, "a", ""⟩, ⟨1, 2, 3, " ", ""⟩, ⟨2, 3, 5, "b", ""⟩])
          "deepgram").1
        = [⟨0, 1, 2, 0, "a", "deepgram", "", "", []⟩,
           ⟨2, 3, 5, 0, "b", "deepgram", "", "", []⟩] ∧
      ∀ c ∈ (MapNarrationsToAudioChunks
          [⟨0, 1, 2, "a", ""⟩, ⟨1, 2, 3, " ", ""⟩, ⟨2, 3, 5, "b", ""⟩]
          (narrationWindows [⟨0, 1, 2, "a", ""⟩, ⟨1, 2, 3, " ", ""⟩, ⟨2, 3, 5, "b", ""⟩])
          "deepgram").1,
        ChunkInWindow
          (narrationWindows [⟨0, 1, 2, "a", ""⟩, ⟨1, 2, 3, " ", ""⟩, ⟨2, 3, 5, "b", ""⟩]) c :=
  have h : ∀ (i : Nat) (n : Narration),
      [(⟨0, 1, 2, "a", ""⟩ : Narration), ⟨1, 2, 3, " ", ""⟩, ⟨2, 3, 5, "b", ""⟩][i]?
        = some n → n.WindowIndex = (i : Int) := by
    intro i n hn
    match i, hn with
    | 0, hn => simp at hn; rw [← hn]; rfl
    | 1, hn => simp at hn; rw [← hn]; rfl
    | 2, hn => simp at hn; rw [← hn]; rfl
    | k + 3, hn => simp at hn
  ⟨h, by decide!, MapNarrationsToAudioChunks_in_window.2 _ _ h⟩

/-! ## The validators: success conditions -/

theorem firstErrorFrom_ok_iff {α : Type} (body : Nat → α → Option String) (P : α → Prop)
    (hP : ∀ i x, body i x = none ↔ P x) (xs : List α) :
    ∀ k : Nat, firstErrorFrom body k xs = .ok () ↔ ∀ x ∈ xs, P x := by
  induction xs with
  | nil => intro k; simp [firstErrorFrom]
  | cons x xs ih =>
    intro k
    rw [firstErrorFrom]
    cases hb : body k x with
    | some e =>
      have hnp : ¬ P x := fun hp => by
        have := (hP k x).mpr hp
        rw [hb] at this
        exact Option.noConfusion this
      simp [hnp]
    | none =>
      have hp : P x := (hP k x).mp hb
      simp [hp, ih (k + 1)]

theorem getD_of_index {ws : List Window} {idx : Int} (h0 : ¬ idx < 0)
    (h1 : ¬ idx ≥ (ws.length : Int)) :
    ws[idx.toNat]? = some (ws.getD idx.toNat ⟨0, 0⟩) := by
  have hlt : idx.toNat < ws.length := by omega
  rw [List.getD_eq_getElem?_getD, List.getElem?_eq_getElem hlt]
  rfl

theorem validateWindowsStep_ok_iff (videoDuration : F64) (st st' : ValidateState)
    (w : Window) :
    validateWindowsStep videoDuration st w = .ok st'
      ↔ (WindowOk videoDuration w ∧ st.2 ≤ w.Start) ∧ st' = (st.1 + 1, w.End) := by
  unfold validateWindowsStep WindowOk
  by_cases h1 : w.Start < 0 ∨ w.End < 0
  · rw [if_pos h1]
    constructor
    · intro h; exact Except.noConfusion h
    · rintro ⟨⟨⟨a, b, _, _⟩, _⟩, _⟩
      rcases h1 with h1 | h1
      · exact absurd a (not_le.mpr h1)
      · exact absurd b (not_le.mpr h1)
  · rw [if_neg h1]
    have ha : 0 ≤ w.Start := not_lt.mp (fun h => h1 (Or.inl h))
    have hb : 0 ≤ w.End := not_lt.mp (fun h => h1 (Or.inr h))
    by_cases h2 : w.Start ≥ w.End
    · rw [if_pos h2]
      constructor
      · intro h; exact Except.noConfusion h
      · rintro ⟨⟨⟨_, _, c, _⟩, _⟩, _⟩
        exact absurd c (not_lt.mpr h2)
    · rw [if_neg h2]
      by_cases h3 : w.End > videoDuration
      · rw [if_pos h3]
        constructor
        · intro h; exact Except.noConfusion h
        · rintro ⟨⟨⟨_, _, _, d⟩, _⟩, _⟩
          exact absurd d (not_le.mpr h3)
      · rw [if_neg h3]
        by_cases h4 : w.Start < st.2
        · rw [if_pos h4]
          constructor
          · intro h; exact Except.noConfusion h
          · rintro ⟨⟨_, e⟩, _⟩
            exact absurd e (not_le.mpr h4)
        · rw [if_neg h4]
          constructor
          · intro h
            injection h with h
            exact ⟨⟨⟨ha, hb, not_le.mp h2, not_lt.mp h3⟩, not_lt.mp h4⟩, h.symm⟩
          · rintro ⟨_, e⟩
            rw [e]

theorem validateWindowsFrom_ok_iff (videoDuration : F64) (ws : List Window) :
    ∀ st : ValidateState, validateWindowsFrom videoDuration st ws = .ok ()
      ↔ (∀ w ∈ ws, WindowOk videoDuration w) ∧ (∀ w ∈ ws.head?, st.2 ≤ w.Start) ∧
          ws.Chain' (fun a b => a.End ≤ b.Start) := by
  induction ws with
  | nil => intro st; simp [validateWindowsFrom]
  | cons w ws ih =>
    intro st
    rw [validateWindowsFrom]
    cases hstep : validateWindowsStep videoDuration st w with
    | error e =>
      have hno : ¬ (WindowOk videoDuration w ∧ st.2 ≤ w.Start) := by
        intro h
        have := (validateWindowsStep_ok_iff videoDuration st (st.1 + 1, w.End) w).mpr ⟨h, rfl⟩
        rw [hstep] at this
        exact Except.noConfusion this
      constructor
      · intro h; exact Except.noConfusion h
      · rintro ⟨h1, h2, _⟩
        exact absurd ⟨h1 w (List.mem_cons_self _ _), h2 w (by simp)⟩ hno
    | ok st' =>
      obtain ⟨⟨hw, hle⟩, hst⟩ := (validateWindowsStep_ok_iff videoDuration st st' w).mp hstep
      simp only []
      rw [ih st', hst]
      constructor
      · rintro ⟨h1, h2, h3⟩
        refine ⟨?_, ?_, List.chain'_cons'.mpr ⟨h2, h3⟩⟩
        · intro x hx
          rcases List.mem_cons.mp hx with hx | hx
          · rw [hx]; exact hw
          · exact h1 x hx
        · intro x hx
          simp at hx
          rw [← hx]; exact hle
      · rintro ⟨h1, _, h3⟩
        have h3' := List.chain'_cons'.mp h3
        exact ⟨fun x hx => h1 x (List.mem_cons_of_mem _ hx), h3'.1, h3'.2⟩

/-- C15. `validateWindows(D, windows)` succeeds if and only if every window has
`Start >= 0`, `End >= 0`, `Start < End` and `End <= D`, and every window starts at or
after the end of the window before it (the first one at or after 0). -/
theorem validateWindows_ok_iff (videoDuration : F64) (windows : List Window) :
    validateWindows videoDuration windows = .ok ()
      ↔ (∀ w ∈ windows, 0 ≤ w.Start ∧ 0 ≤ w.End ∧ w.Start < w.End ∧ w.End ≤ videoDuration) ∧
          (∀ w ∈ windows.head?, (0 : F64) ≤ w.Start) ∧
          windows.Chain' (fun a b => a.End ≤ b.Start) := by
  unfold validateWindows
  rw [validateWindowsFrom_ok_iff]
  rfl

theorem validateAudioSyncBody_none_iff (windows : List Window) (a : AudioChunk) :
    validateAudioSyncBody windows a = none
      ↔ 0 ≤ a.WindowIndex ∧ a.WindowIndex < (windows.length : Int) ∧ 0 < a.Duration ∧
          ∃ w, windows[a.WindowIndex.toNat]? = some w ∧
            a.Duration ≤ (w.End - w.Start) + 0.15 := by
  unfold validateAudioSyncBody
  by_cases h1 : a.WindowIndex < 0 ∨ a.WindowIndex ≥ (windows.length : Int)
  · rw [if_pos h1]
    constructor
    · intro h; exact Option.noConfusion h
    · rintro ⟨a0, a1, _, _⟩
      rcases h1 with h1 | h1 <;> omega
  · rw [if_neg h1]
    have h0 : ¬ a.WindowIndex < 0 := fun h => h1 (Or.inl h)
    have hl : ¬ a.WindowIndex ≥ (windows.length : Int) := fun h => h1 (Or.inr h)
    have hget := getD_of_index h0 hl
    simp only []
    by_cases h2 : a.Duration ≤ 0
    · rw [if_pos h2]
      constructor
      · intro h; exact Option.noConfusion h
      · rintro ⟨_, _, c, _⟩
        exact absurd c (not_lt.mpr h2)
    · rw [if_neg h2]
      by_cases h3 : a.Duration >
          (windows.getD a.WindowIndex.toNat ⟨0, 0⟩).End
            - (windows.getD a.WindowIndex.toNat ⟨0, 0⟩).Start + MaxAllowedDriftSec
      · rw [if_pos h3]
        constructor
        · intro h; exact Option.noConfusion h
        · rintro ⟨_, _, _, w, hw, hd⟩
          rw [hget] at hw
          injection hw with hw
          rw [← hw] at hd
          unfold MaxAllowedDriftSec at h3
          exact absurd hd (not_le.mpr h3)
      · rw [if_neg h3]
        refine ⟨fun _ => ⟨not_lt.mp h0, not_le.mp hl, not_le.mp h2, _, hget, ?_⟩, fun _ => rfl⟩
        unfold MaxAllowedDriftSec at h3
        exact not_lt.mp h3

theorem validateAudioSync_body_all (windows : List Window)
    (audioChunks : List AudioChunk) :
    validateAudioSync windows audioChunks = .ok ()
      ↔ ∀ a ∈ audioChunks,
          0 ≤ a.WindowIndex ∧ a.WindowIndex < (windows.length : Int) ∧ 0 < a.Duration ∧
            ∃ w, windows[a.WindowIndex.toNat]? = some w ∧
              a.Duration ≤ (w.End - w.Start) + 0.15 := by
  unfold validateAudioSync
  exact firstErrorFrom_ok_iff _ _ (fun _ a => validateAudioSyncBody_none_iff windows a) _ 0

/-- C16 (counterexample). In the window `[0, 0.3]` a chunk of duration 0.45, which is
`windowDuration + 0.15`, is rejected: the `float64` sum `0.3 + 0.15` is
0.44999999999999996, below 0.45. -/
theorem validateAudioSync_rounded_bound :
    (0.45 : ℚ) ≤ (0.3 - 0) + 0.15 ∧
      (0.3 : F64) - 0 + 0.15 = 0.44999999999999996 ∧
      validateAudioSync [⟨0, 0.3⟩] [⟨0, 0, 0.3, 0.45, "a", "deepgram", "", "", []⟩]
        = .error "audio duration 0.45s exceeds window 0.30s" := by
  refine ⟨by norm_num, by decide!, by decide!⟩

/-- C16 (amended). `validateAudioSync(windows, chunks)` succeeds if and only if every
chunk has `0 <= WindowIndex < len(windows)`, `Duration > 0` and
`Duration <= (window.End - window.Start) + 0.15` with the difference and the sum rounded
to `float64`. The bound is inclusive: in a window `[0, 2]` a chunk of duration `2 + 0.15`
passes and one of duration `2 + 0.1501` fails. -/
theorem validateAudioSync_ok_iff :
    (∀ (windows : List Window) (audioChunks : List AudioChunk),
      validateAudioSync windows audioChunks = .ok ()
        ↔ ∀ a ∈ audioChunks,
            0 ≤ a.WindowIndex ∧ a.WindowIndex < (windows.length : Int) ∧ 0 < a.Duration ∧
              ∃ w, windows[a.WindowIndex.toNat]? = some w ∧
                a.Duration ≤ (w.End - w.Start) + 0.15) ∧
    validateAudioSync [⟨0, 2⟩] [⟨0, 0, 2, 2 + 0.15, "a", "deepgram", "", "", []⟩] = .ok () ∧
    validateAudioSync [⟨0, 2⟩] [⟨0, 0, 2, 2 + 0.1501, "a", "deepgram", "", "", []⟩]
      = .error "audio duration 2.15s exceeds window 2.00s" := by
  refine ⟨?_, by decide!, by decide!⟩
  intro windows audioChunks
  unfold validateAudioSync
  exact firstErrorFrom_ok_iff _ _ (fun _ a => validateAudioSyncBody_none_iff windows a) _ 0

theorem validateNarrationsBody_none_iff (windows : List Window) (n : Narration) :
    validateNarrationsBody windows n = none
      ↔ (n.Text ≠ "" → NarrationInWindow windows n) := by
  unfold validateNarrationsBody NarrationInWindow
  by_cases ht : n.Text = ""
  · rw [if_pos ht]
    exact ⟨fun _ h => absurd ht h, fun _ => rfl⟩
  · rw [if_neg ht]
    by_cases h1 : n.WindowIndex < 0 ∨ n.WindowIndex ≥ (windows.length : Int)
    · rw [if_pos h1]
      constructor
      · intro h; exact Option.noConfusion h
      · intro h
        obtain ⟨a0, a1, _⟩ := h ht
        rcases h1 with h1 | h1 <;> omega
    · rw [if_neg h1]
      have h0 : ¬ n.WindowIndex < 0 := fun h => h1 (Or.inl h)
      have hl : ¬ n.WindowIndex ≥ (windows.length : Int) := fun h => h1 (Or.inr h)
      have hget := getD_of_index h0 hl
      simp only []
      by_cases h2 : n.Start < (windows.getD n.WindowIndex.toNat ⟨0, 0⟩).Start ∨
          n.End > (windows.getD n.WindowIndex.toNat ⟨0, 0⟩).End
      · rw [if_pos h2]
        constructor
        · intro h; exact Option.noConfusion h
        · intro h
          obtain ⟨_, _, w, hw, hs, he⟩ := h ht
          rw [hget] at hw
          injection hw with hw
          rw [← hw] at hs he
          rcases h2 with h2 | h2
          · exact absurd hs (not_le.mpr h2)
          · exact absurd he (not_le.mpr h2)
      · rw [if_neg h2]
        refine ⟨fun _ _ => ⟨not_lt.mp h0, not_le.mp hl, _, hget, ?_, ?_⟩, fun _ => rfl⟩
        · exact not_lt.mp (fun h => h2 (Or.inl h))
        · exact not_lt.mp (fun h => h2 (Or.inr h))

theorem firstErrorFrom_index_free {α : Type} (f : α → Option String) (xs : List α) :
    ∀ k k2 : Nat,
      firstErrorFrom (fun _ x => f x) k xs = firstErrorFrom (fun _ x => f x) k2 xs := by
  induction xs with
  | nil => intro k k2; rfl
  | cons x xs ih =>
    intro k k2
    rw [firstErrorFrom, firstErrorFrom]
    cases f x with
    | some e => rfl
    | none => exact ih (k + 1) (k2 + 1)

theorem firstErrorFrom_skip {α : Type} (f : α → Option String) (x : α) (hx : f x = none)
    (post : List α) (pre : List α) :
    ∀ k : Nat, firstErrorFrom (fun _ x => f x) k (pre ++ x :: post)
      = firstErrorFrom (fun _ x => f x) k (pre ++ post) := by
  induction pre with
  | nil =>
    intro k
    rw [List.nil_append, List.nil_append, firstErrorFrom]
    simp only [hx]
    exact firstErrorFrom_index_free f post (k + 1) k
  | cons y pre ih =>
    intro k
    rw [List.cons_append, List.cons_append, firstErrorFrom, firstErrorFrom]
    cases f y with
    | some e => rfl
    | none => exact ih (k + 1)

/-- C17. `validateNarrations(windows, narrations)` succeeds if and only if every
narration with non-empty text has `0 <= WindowIndex < len(windows)`, `Start` at or after
that window's `Start` and `End` at or before that window's `End`; a narration with empty
text never makes it fail, whatever its index and times. -/
theorem validateNarrations_ok_iff (windows : List Window) (narrations : List Narration) :
    (validateNarrations windows narrations = .ok ()
      ↔ ∀ n ∈ narrations, n.Text ≠ "" →
          0 ≤ n.WindowIndex ∧ n.WindowIndex < (windows.length : Int) ∧
            ∃ w, windows[n.WindowIndex.toNat]? = some w ∧
              w.Start ≤ n.Start ∧ n.End ≤ w.End) ∧
    (∀ (pre post : List Narration) (n : Narration), n.Text = "" →
      validateNarrations windows (pre ++ n :: post)
        = validateNarrations windows (pre ++ post)) := by
  refine ⟨?_, ?_⟩
  · unfold validateNarrations
    exact firstErrorFrom_ok_iff _ _ (fun _ n => validateNarrationsBody_none_iff windows n) _ 0
  · intro pre post n hn
    unfold validateNarrations
    refine firstErrorFrom_skip (validateNarrationsBody windows) n ?_ post pre 0
    unfold validateNarrationsBody
    rw [if_pos hn]

theorem validateNarrations_ok_iff_witness :
    ((⟨7, 5, 9, "", ""⟩ : Narration)).Text = "" ∧
      validateNarrations [⟨0, 2⟩] ([⟨0, 0, 1, "a", ""⟩] ++ ⟨7, 5, 9, "", ""⟩ :: [])
        = validateNarrations [⟨0, 2⟩] ([⟨0, 0, 1, "a", ""⟩] ++ []) :=
  ⟨rfl, (validateNarrations_ok_iff [⟨0, 2⟩] []).2 [⟨0, 0, 1, "a", ""⟩] [] ⟨7, 5, 9, "", ""⟩ rfl⟩

theorem validateActionsBody_none_iff (videoDuration : F64) (i : Nat)
    (a : ActionInstruction) :
    validateActionsBody videoDuration i a = none
      ↔ 0 ≤ a.Timestamp ∧ a.Timestamp ≤ videoDuration ∧ a.Action ≠ "" ∧
          ∀ b, a.Bounds = some b → 0 < b.Width ∧ 0 < b.Height := by
  unfold validateActionsBody
  by_cases h1 : a.Timestamp < 0 ∨ a.Timestamp > videoDuration
  · rw [if_pos h1]
    constructor
    · intro h; exact Option.noConfusion h
    · rintro ⟨a0, a1, _, _⟩
      rcases h1 with h1 | h1
      · exact absurd a0 (not_le.mpr h1)
      · exact absurd a1 (not_le.mpr h1)
  · rw [if_neg h1]
    have h0 : 0 ≤ a.Timestamp := not_lt.mp (fun h => h1 (Or.inl h))
    have hd : a.Timestamp ≤ videoDuration := not_lt.mp (fun h => h1 (Or.inr h))
    by_cases h2 : a.Action = ""
    · rw [if_pos h2]
      constructor
      · intro h; exact Option.noConfusion h
      · rintro ⟨_, _, c, _⟩
        exact absurd h2 c
    · rw [if_neg h2]
      cases hb : a.Bounds with
      | none =>
        simp only []
        exact ⟨fun _ => ⟨h0, hd, h2, fun b hb2 => Option.noConfusion hb2⟩, fun _ => trivial⟩
      | some b =>
        simp only []
        by_cases h3 : b.Width ≤ 0 ∨ b.Height ≤ 0
        · rw [if_pos h3]
          constructor
          · intro h; exact Option.noConfusion h
          · rintro ⟨_, _, _, d⟩
            obtain ⟨d1, d2⟩ := d b rfl
            rcases h3 with h3 | h3
            · exact absurd d1 (not_lt.mpr h3)
            · exact absurd d2 (not_lt.mpr h3)
        · rw [if_neg h3]
          refine ⟨fun _ => ⟨h0, hd, h2, ?_⟩, fun _ => rfl⟩
          intro b2 hb2
          injection hb2 with hb2
          rw [← hb2]
          exact ⟨not_le.mp (fun h => h3 (Or.inl h)), not_le.mp (fun h => h3 (Or.inr h))⟩

/-- C18. `validateActions(D, actions)` succeeds if and only if every action instruction
has `0 <= Timestamp <= D`, a non-empty `Action`, and, when `Bounds` is present,
`Width > 0` and `Height > 0`. -/
theorem validateActions_ok_iff (videoDuration : F64) (actions : List ActionInstruction) :
    validateActions videoDuration actions = .ok ()
      ↔ ∀ a ∈ actions, 0 ≤ a.Timestamp ∧ a.Timestamp ≤ videoDuration ∧ a.Action ≠ "" ∧
          ∀ b, a.Bounds = some b → 0 < b.Width ∧ 0 < b.Height := by
  unfold validateActions
  exact firstErrorFrom_ok_iff _ _ (validateActionsBody_none_iff videoDuration) _ 0

theorem validateEffectsBody_none_iff (videoDuration : F64) (i : Nat) (e : DisplayEffect) :
    validateEffectsBody videoDuration i e = none
      ↔ 0 ≤ e.Start ∧ 0 ≤ e.End ∧ e.Start < e.End ∧ e.End ≤ videoDuration ∧
          e.Type_ ≠ "" ∧
          ∀ t b, e.Target = some t → t.Bounds = some b → 0 < b.Width ∧ 0 < b.Height := by
  unfold validateEffectsBody
  by_cases h1 : e.Start < 0 ∨ e.End < 0
  · rw [if_pos h1]
    constructor
    · intro h; exact Option.noConfusion h
    · rintro ⟨a0, a1, _⟩
      rcases h1 with h1 | h1
      · exact absurd a0 (not_le.mpr h1)
      · exact absurd a1 (not_le.mpr h1)
  · rw [if_neg h1]
    have h0 : 0 ≤ e.Start := not_lt.mp (fun h => h1 (Or.inl h))
    have h0e : 0 ≤ e.End := not_lt.mp (fun h => h1 (Or.inr h))
    by_cases h2 : e.Start ≥ e.End
    · rw [if_pos h2]
      constructor
      · intro h; exact Option.noConfusion h
      · rintro ⟨_, _, c, _⟩
        exact absurd c (not_lt.mpr h2)
    · rw [if_neg h2]
      by_cases h3 : e.End > videoDuration
      · rw [if_pos h3]
        constructor
        · intro h; exact Option.noConfusion h
        · rintro ⟨_, _, _, d, _⟩
          exact absurd d (not_le.mpr h3)
      · rw [if_neg h3]
        by_cases h4 : e.Type_ = ""
        · rw [if_pos h4]
          constructor
          · intro h; exact Option.noConfusion h
          · rintro ⟨_, _, _, _, c, _⟩
            exact absurd h4 c
        · rw [if_neg h4]
          have hbounds : ∀ b, effectBounds e = some b
              ↔ ∃ t, e.Target = some t ∧ t.Bounds = some b := by
            intro b
            unfold effectBounds
            cases e.Target with
            | none => simp
            | some t => simp
          cases hb : effectBounds e with
          | none =>
            simp only []
            refine ⟨fun _ => ⟨h0, h0e, not_le.mp h2, not_lt.mp h3, h4, ?_⟩, fun _ => trivial⟩
            intro t b ht htb
            have := (hbounds b).mpr ⟨t, ht, htb⟩
            rw [hb] at this
            exact Option.noConfusion this
          | some b =>
            obtain ⟨t, ht, htb⟩ := (hbounds b).mp hb
            simp only []
            by_cases h5 : b.Width ≤ 0 ∨ b.Height ≤ 0
            · rw [if_pos h5]
              constructor
              · intro h; exact Option.noConfusion h
              · rintro ⟨_, _, _, _, _, d⟩
                obtain ⟨d1, d2⟩ := d t b ht htb
                rcases h5 with h5 | h5
                · exact absurd d1 (not_lt.mpr h5)
                · exact absurd d2 (not_lt.mpr h5)
            · rw [if_neg h5]
              refine ⟨fun _ => ⟨h0, h0e, not_le.mp h2, not_lt.mp h3, h4, ?_⟩, fun _ => rfl⟩
              intro t2 b2 ht2 htb2
              rw [ht] at ht2
              injection ht2 with ht2
              rw [← ht2, htb] at htb2
              injection htb2 with htb2
              rw [← htb2]
              exact ⟨not_le.mp (fun h => h5 (Or.inl h)), not_le.mp (fun h => h5 (Or.inr h))⟩

/-- C19. `validateEffects(D, effects)` succeeds if and only if every display effect has
`Start >= 0`, `End >= 0`, `Start < End`, `End <= D`, a non-empty `Type`, and, when it has
a `Target` with `Bounds`, `Width > 0` and `Height > 0`. -/
theorem validateEffects_ok_iff (videoDuration : F64) (effects : List DisplayEffect) :
    validateEffects videoDuration effects = .ok ()
      ↔ ∀ e ∈ effects, 0 ≤ e.Start ∧ 0 ≤ e.End ∧ e.Start < e.End ∧ e.End ≤ videoDuration ∧
          e.Type_ ≠ "" ∧
          ∀ t b, e.Target = some t → t.Bounds = some b → 0 < b.Width ∧ 0 < b.Height := by
  unfold validateEffects
  exact firstErrorFrom_ok_iff _ _ (validateEffectsBody_none_iff videoDuration) _ 0


/-! ## `ValidateFinalOutput`: order of the checks and content of the errors -/

/-- C14. `ValidateFinalOutput` is fail-fast in a fixed order: its result is the first
error among the duration check, `validateWindows`, `validateNarrations`,
`validateAudioSync`, `validateActions` and `validateEffects`, and nil exactly when none
fails. With a duration `<= 0` it fails whatever the collections hold, and with one
overlapping window and one out-of-bounds narration it returns the window-overlap error. -/
theorem ValidateFinalOutput_fail_fast :
    (∀ (videoDuration : F64) (windows : List Window) (narrations : List Narration)
        (audioChunks : List AudioChunk) (actions : List ActionInstruction)
        (effects : List DisplayEffect),
      ValidateFinalOutput videoDuration windows narrations audioChunks actions effects
          = firstFailure [durationCheck videoDuration,
              validateWindows videoDuration windows,
              validateNarrations windows narrations,
              validateAudioSync windows audioChunks,
              validateActions videoDuration actions,
              validateEffects videoDuration effects] ∧
        (ValidateFinalOutput videoDuration windows narrations audioChunks actions effects
            = .ok ()
          ↔ 0 < videoDuration ∧ validateWindows videoDuration windows = .ok () ∧
              validateNarrations windows narrations = .ok () ∧
              validateAudioSync windows audioChunks = .ok () ∧
              validateActions videoDuration actions = .ok () ∧
              validateEffects videoDuration effects = .ok ()) ∧
        (videoDuration ≤ 0 →
          ValidateFinalOutput videoDuration windows narrations audioChunks actions effects
            = .error "invalid video duration")) ∧
    validateNarrations [⟨0, 2⟩, ⟨1, 3⟩] [⟨0, 5, 6, "x", ""⟩]
      = .error "narration out of window bounds (5.00–6.00 vs 0.00–2.00)" ∧
    ValidateFinalOutput 10 [⟨0, 2⟩, ⟨1, 3⟩] [⟨0, 5, 6, "x", ""⟩] [] [] []
      = .error "window 1 overlaps previous window" := by
  refine ⟨?_, ?_, ?_⟩
  · intro videoDuration windows narrations audioChunks actions effects
    unfold ValidateFinalOutput durationCheck
    by_cases hd : videoDuration ≤ 0
    · simp [hd, firstFailure]
    · have hd' : 0 < videoDuration := not_le.mp hd
      rw [if_neg hd, if_neg hd]
      cases validateWindows videoDuration windows with
      | error e1 => simp [firstFailure, hd]
      | ok u1 =>
        cases validateNarrations windows narrations with
        | error e2 => simp [firstFailure, hd]
        | ok u2 =>
          cases validateAudioSync windows audioChunks with
          | error e3 => simp [firstFailure, hd]
          | ok u3 =>
            cases validateActions videoDuration actions with
            | error e4 => simp [firstFailure, hd]
            | ok u4 =>
              cases validateEffects videoDuration effects with
              | error e5 => simp [firstFailure, hd]
              | ok u5 => simp [firstFailure, hd, hd']
  · decide!
  · decide!

theorem ValidateFinalOutput_fail_fast_witness :
    (-1 : F64) ≤ 0 ∧
      ValidateFinalOutput (-1) [⟨0, 2⟩] [] [] [] [] = .error "invalid video duration" :=
  ⟨by decide!,
    (ValidateFinalOutput_fail_fast.1 (-1) [⟨0, 2⟩] [] [] [] []).2.2 (by decide!)⟩

theorem firstErrorFrom_error {α : Type} (body : Nat → α → Option String) (e : String)
    (xs : List α) :
    ∀ k : Nat, firstErrorFrom body k xs = .error e →
      ∃ i x, xs[i]? = some x ∧ body (k + i) x = some e ∧
        firstErrorFrom body k (xs.take i) = .ok () ∧
        firstErrorFrom body k (xs.take (i + 1)) = .error e := by
  induction xs with
  | nil => intro k h; exact Except.noConfusion h
  | cons x xs ih =>
    intro k h
    rw [firstErrorFrom] at h
    cases hb : body k x with
    | some e2 =>
      rw [hb] at h
      injection h with h
      refine ⟨0, x, by simp, by rw [Nat.add_zero, hb, h], rfl, ?_⟩
      rw [List.take_succ_cons, List.take_zero, firstErrorFrom, hb, h]
    | none =>
      rw [hb] at h
      obtain ⟨i, y, h1, h2, h3, h4⟩ := ih (k + 1) h
      refine ⟨i + 1, y, by simpa using h1, ?_, ?_, ?_⟩
      · rw [← h2]; congr 1; omega
      · rw [List.take_succ_cons, firstErrorFrom, hb]; exact h3
      · rw [List.take_succ_cons, firstErrorFrom, hb]; exact h4

theorem validateWindowsStep_error (videoDuration : F64) (st : ValidateState) (w : Window)
    (e : String) (h : validateWindowsStep videoDuration st w = .error e) :
    e ∈ windowMessages st.1 := by
  unfold validateWindowsStep at h
  unfold windowMessages
  split_ifs at h <;> injection h with h <;> rw [← h] <;> simp

theorem validateWindowsFrom_error (videoDuration : F64) (e : String) (ws : List Window) :
    ∀ st : ValidateState, validateWindowsFrom videoDuration st ws = .error e →
      ∃ i, i < ws.length ∧ validateWindowsFrom videoDuration st (ws.take i) = .ok () ∧
        validateWindowsFrom videoDuration st (ws.take (i + 1)) = .error e ∧
        e ∈ windowMessages (st.1 + i) := by
  induction ws with
  | nil => intro st h; exact Except.noConfusion h
  | cons w ws ih =>
    intro st h
    rw [validateWindowsFrom] at h
    cases hstep : validateWindowsStep videoDuration st w with
    | error e2 =>
      rw [hstep] at h
      injection h with h
      refine ⟨0, by simp, rfl, ?_, ?_⟩
      · rw [List.take_succ_cons, List.take_zero, validateWindowsFrom, hstep, h]
      · rw [Nat.add_zero, ← h]
        exact validateWindowsStep_error videoDuration st w e2 hstep
    | ok st2 =>
      rw [hstep] at h
      obtain ⟨i, h1, h2, h3, h4⟩ := ih st2 h
      have hst : st2 = (st.1 + 1, w.End) :=
        ((validateWindowsStep_ok_iff videoDuration st st2 w).mp hstep).2
      refine ⟨i + 1, by simpa using h1, ?_, ?_, ?_⟩
      · rw [List.take_succ_cons, validateWindowsFrom, hstep]; exact h2
      · rw [List.take_succ_cons, validateWindowsFrom, hstep]; exact h3
      · rw [hst] at h4
        have harith : st.1 + (i + 1) = st.1 + 1 + i := by omega
        rw [harith]; exact h4

theorem validateNarrationsBody_some (windows : List Window) (n : Narration) (e : String)
    (h : validateNarrationsBody windows n = some e) : e ∈ narrationMessages windows n := by
  dsimp only [validateNarrationsBody] at h
  unfold narrationMessages
  split_ifs at h <;> injection h with h <;> rw [← h] <;> simp

theorem validateAudioSyncBody_some (windows : List Window) (a : AudioChunk) (e : String)
    (h : validateAudioSyncBody windows a = some e) : e ∈ audioMessages windows a := by
  dsimp only [validateAudioSyncBody] at h
  unfold audioMessages
  split_ifs at h <;> injection h with h <;> rw [← h] <;> simp

theorem validateActionsBody_some (videoDuration : F64) (i : Nat) (a : ActionInstruction)
    (e : String) (h : validateActionsBody videoDuration i a = some e) :
    e ∈ actionMessages i a := by
  unfold validateActionsBody at h
  unfold actionMessages
  split_ifs at h
  · injection h with h; rw [← h]; simp
  · injection h with h; rw [← h]; simp
  · split at h
    · split_ifs at h
      injection h with h; rw [← h]; simp
    · exact Option.noConfusion h

theorem validateEffectsBody_some (videoDuration : F64) (i : Nat) (d : DisplayEffect)
    (e : String) (h : validateEffectsBody videoDuration i d = some e) :
    e ∈ effectMessages i := by
  unfold validateEffectsBody at h
  unfold effectMessages
  split_ifs at h
  · injection h with h; rw [← h]; simp
  · injection h with h; rw [← h]; simp
  · injection h with h; rw [← h]; simp
  · injection h with h; rw [← h]; simp
  · split at h
    · split_ifs at h
      injection h with h; rw [← h]; simp
    · exact Option.noConfusion h

/-- C20 (counterexample). With the window `[0, 2]`, the chunk list `[bad]` and the chunk
list `[good, bad]`, where `bad` has duration 0, both make `ValidateFinalOutput` return
"audio duration must be positive": the offending chunk is at index 0 in the first list
and at index 1 in the second, and the error is the same, so it does not identify the
index. -/
theorem ValidateFinalOutput_error_without_index :
    ValidateFinalOutput 10 [⟨0, 2⟩] [] [⟨0, 0, 2, 0, "b", "deepgram", "", "", []⟩] [] []
        = .error "audio duration must be positive" ∧
      validateAudioSync [⟨0, 2⟩] [⟨0, 0, 2, 1, "a", "deepgram", "", "", []⟩] = .ok () ∧
      ValidateFinalOutput 10 [⟨0, 2⟩] []
          [⟨0, 0, 2, 1, "a", "deepgram", "", "", []⟩,
           ⟨0, 0, 2, 0, "b", "deepgram", "", "", []⟩] [] []
        = .error "audio duration must be positive" := by
  refine ⟨by decide!, by decide!, by decide!⟩

/-- C20 (amended). Whenever `ValidateFinalOutput` fails, the error is "invalid video
duration", or it comes from the first violating element of one collection. For a window,
an action or an effect the error names the index `i` of that element and the violated
rule (the elements before `i` pass, the element at `i` fails). For a narration or an
audio chunk the error names the violated rule with the window index the element
references or the times involved, but not the position of the element. -/
theorem ValidateFinalOutput_error_report (videoDuration : F64) (windows : List Window)
    (narrations : List Narration) (audioChunks : List AudioChunk)
    (actions : List ActionInstruction) (effects : List DisplayEffect) (e : String)
    (h : ValidateFinalOutput videoDuration windows narrations audioChunks actions effects
      = .error e) :
    e = "invalid video duration" ∨
    (∃ i, i < windows.length ∧
      validateWindows videoDuration (windows.take i) = .ok () ∧
      validateWindows videoDuration (windows.take (i + 1)) = .error e ∧
      e ∈ windowMessages i) ∨
    (∃ i n, narrations[i]? = some n ∧
      validateNarrations windows (narrations.take i) = .ok () ∧
      validateNarrations windows (narrations.take (i + 1)) = .error e ∧
      e ∈ narrationMessages windows n) ∨
    (∃ i a, audioChunks[i]? = some a ∧
      validateAudioSync windows (audioChunks.take i) = .ok () ∧
      validateAudioSync windows (audioChunks.take (i + 1)) = .error e ∧
      e ∈ audioMessages windows a) ∨
    (∃ i a, actions[i]? = some a ∧
      validateActions videoDuration (actions.take i) = .ok () ∧
      validateActions videoDuration (actions.take (i + 1)) = .error e ∧
      e ∈ actionMessages i a) ∨
    (∃ i, i < effects.length ∧
      validateEffects videoDuration (effects.take i) = .ok () ∧
      validateEffects videoDuration (effects.take (i + 1)) = .error e ∧
      e ∈ effectMessages i) := by
  unfold ValidateFinalOutput at h
  by_cases hd : videoDuration ≤ 0
  · rw [if_pos hd] at h
    injection h with h
    exact Or.inl h.symm
  · rw [if_neg hd] at h
    right
    cases hw : validateWindows videoDuration windows with
    | error e1 =>
      rw [hw] at h
      injection h with h
      rw [h] at hw
      left
      obtain ⟨i, h1, h2, h3, h4⟩ := validateWindowsFrom_error videoDuration e windows (0, 0) hw
      exact ⟨i, h1, h2, h3, by simpa using h4⟩
    | ok u1 =>
      rw [hw] at h
      right
      cases hn : validateNarrations windows narrations with
      | error e2 =>
        rw [hn] at h
        injection h with h
        rw [h] at hn
        left
        obtain ⟨i, n, h1, h2, h3, h4⟩ := firstErrorFrom_error _ e narrations 0 hn
        exact ⟨i, n, h1, h3, h4, validateNarrationsBody_some windows n e h2⟩
      | ok u2 =>
        rw [hn] at h
        right
        cases ha : validateAudioSync windows audioChunks with
        | error e3 =>
          rw [ha] at h
          injection h with h
          rw [h] at ha
          left
          obtain ⟨i, a, h1, h2, h3, h4⟩ := firstErrorFrom_error _ e audioChunks 0 ha
          exact ⟨i, a, h1, h3, h4, validateAudioSyncBody_some windows a e h2⟩
        | ok u3 =>
          rw [ha] at h
          right
          cases hc : validateActions videoDuration actions with
          | error e4 =>
            rw [hc] at h
            injection h with h
            rw [h] at hc
            left
            obtain ⟨i, a, h1, h2, h3, h4⟩ := firstErrorFrom_error _ e actions 0 hc
            refine ⟨i, a, h1, h3, h4, ?_⟩
            rw [Nat.zero_add] at h2
            exact validateActionsBody_some videoDuration i a e h2
          | ok u4 =>
            rw [hc] at h
            right
            cases he : validateEffects videoDuration effects with
            | error e5 =>
              rw [he] at h
              injection h with h
              rw [h] at he
              obtain ⟨i, d, h1, h2, h3, h4⟩ := firstErrorFrom_error _ e effects 0 he
              refine ⟨i, ?_, h3, h4, ?_⟩
              · exact (List.getElem?_eq_some_iff.mp h1).1
              · rw [Nat.zero_add] at h2
                exact validateEffectsBody_some videoDuration i d e h2
            | ok u5 =>
              rw [he] at h
              exact Except.noConfusion h

theorem ValidateFinalOutput_error_report_witness :
    ValidateFinalOutput 10 [⟨0, 2⟩, ⟨1, 3⟩] [] [] [] []
        = .error "window 1 overlaps previous window" ∧
      ("window 1 overlaps previous window" = "invalid video duration" ∨
      (∃ i, i < ([⟨0, 2⟩, ⟨1, 3⟩] : List Window).length ∧
        validateWindows 10 (([⟨0, 2⟩, ⟨1, 3⟩] : List Window).take i) = .ok () ∧
        validateWindows 10 (([⟨0, 2⟩, ⟨1, 3⟩] : List Window).take (i + 1))
          = .error "window 1 overlaps previous window" ∧
        "window 1 overlaps previous window" ∈ windowMessages i) ∨
      (∃ i n, ([] : List Narration)[i]? = some n ∧
        validateNarrations [⟨0, 2⟩, ⟨1, 3⟩] (([] : List Narration).take i) = .ok () ∧
        validateNarrations [⟨0, 2⟩, ⟨1, 3⟩] (([] : List Narration).take (i + 1))
          = .error "window 1 overlaps previous window" ∧
        "window 1 overlaps previous window" ∈ narrationMessages [⟨0, 2⟩, ⟨1, 3⟩] n) ∨
      (∃ i a, ([] : List AudioChunk)[i]? = some a ∧
        validateAudioSync [⟨0, 2⟩, ⟨1, 3⟩] (([] : List AudioChunk).take i) = .ok () ∧
        validateAudioSync [⟨0, 2⟩, ⟨1, 3⟩] (([] : List AudioChunk).take (i + 1))
          = .error "window 1 overlaps previous window" ∧
        "window 1 overlaps previous window" ∈ audioMessages [⟨0, 2⟩, ⟨1, 3⟩] a) ∨
      (∃ i a, ([] : List ActionInstruction)[i]? = some a ∧
        validateActions 10 (([] : List ActionInstruction).take i) = .ok () ∧
        validateActions 10 (([] : List ActionInstruction).take (i + 1))
          = .error "window 1 overlaps previous window" ∧
        "window 1 overlaps previous window" ∈ actionMessages i a) ∨
      (∃ i, i < ([] : List DisplayEffect).length ∧
        validateEffects 10 (([] : List DisplayEffect).take i) = .ok () ∧
        validateEffects 10 (([] : List DisplayEffect).take (i + 1))
          = .error "window 1 overlaps previous window" ∧
        "window 1 overlaps previous window" ∈ effectMessages i)) :=
  have h : ValidateFinalOutput 10 [⟨0, 2⟩, ⟨1, 3⟩] [] [] [] []
      = .error "window 1 overlaps previous window" := by decide!
  ⟨h, ValidateFinalOutput_error_report 10 [⟨0, 2⟩, ⟨1, 3⟩] [] [] [] []
    "window 1 overlaps previous window" h⟩

/-! ## Further properties of the windows -/

theorem chain_end_le_start (l : List Window) :
    ∀ a : Window, List.Chain (fun a b : Window => a.End ≤ b.Start) a l →
      (∀ w ∈ l, w.Start < w.End) → ∀ b ∈ l, a.End ≤ b.Start := by
  induction l with
  | nil => intro a _ _ b hb; simp at hb
  | cons c l ih =>
    intro a hch hlt b hb
    rw [List.chain_cons] at hch
    rcases List.mem_cons.mp hb with hb | hb
    · rw [hb]; exact hch.1
    · have h1 := ih c hch.2 (fun w hw => hlt w (List.mem_cons_of_mem _ hw)) b hb
      have h2 := hlt c (List.mem_cons_self _ _)
      exact le_trans hch.1 (le_trans h2.le h1)

theorem pairwise_of_chain_end_le_start (l : List Window) :
    l.Chain' (fun a b => a.End ≤ b.Start) → (∀ w ∈ l, w.Start < w.End) →
      l.Pairwise (fun a b => a.End ≤ b.Start) := by
  induction l with
  | nil => intro _ _; exact List.Pairwise.nil
  | cons a l ih =>
    intro hch hlt
    have hlt2 : ∀ w ∈ l, w.Start < w.End := fun w hw => hlt w (List.mem_cons_of_mem _ hw)
    refine List.Pairwise.cons ?_ (ih (List.chain'_cons'.mp hch).2 hlt2)
    exact chain_end_le_start l a hch hlt2

/-- C28. If a window list passes `validateWindows(D, windows)`, all its windows are
pairwise ordered and disjoint, not only adjacent ones (for `i < j`,
`windows[i].End <= windows[j].Start`), and every window lies in `[0, D]` with
`Start < End`; the empty list always passes. -/
theorem validateWindows_pairwise_disjoint (videoDuration : F64) :
    (∀ windows : List Window, validateWindows videoDuration windows = .ok () →
      windows.Pairwise (fun a b => a.End ≤ b.Start) ∧
      (∀ (i j : Nat) (a b : Window), i < j → windows[i]? = some a → windows[j]? = some b →
        a.End ≤ b.Start) ∧
      ∀ w ∈ windows, 0 ≤ w.Start ∧ w.Start < w.End ∧ w.End ≤ videoDuration) ∧
    validateWindows videoDuration [] = .ok () := by
  refine ⟨?_, rfl⟩
  intro windows h
  unfold validateWindows at h
  obtain ⟨h1, _, h3⟩ := (validateWindowsFrom_ok_iff videoDuration windows (0, 0)).mp h
  have hpw : windows.Pairwise (fun a b => a.End ≤ b.Start) :=
    pairwise_of_chain_end_le_start windows h3 (fun w hw => (h1 w hw).2.2.1)
  refine ⟨hpw, ?_, fun w hw => ⟨(h1 w hw).1, (h1 w hw).2.2.1, (h1 w hw).2.2.2⟩⟩
  intro i j a b hij ha hb
  obtain ⟨hi, rfl⟩ := List.getElem?_eq_some_iff.mp ha
  obtain ⟨hj, rfl⟩ := List.getElem?_eq_some_iff.mp hb
  exact List.pairwise_iff_getElem.mp hpw i j hi hj hij

theorem validateWindows_pairwise_disjoint_witness :
    validateWindows 10 [⟨0, 1⟩, ⟨1, 3⟩, ⟨4, 10⟩] = .ok () ∧
      ([⟨0, 1⟩, ⟨1, 3⟩, ⟨4, 10⟩] : List Window).Pairwise (fun a b => a.End ≤ b.Start) :=
  have h : validateWindows 10 [⟨0, 1⟩, ⟨1, 3⟩, ⟨4, 10⟩] = .ok () := by decide!
  ⟨h, ((validateWindows_pairwise_disjoint 10).1 [⟨0, 1⟩, ⟨1, 3⟩, ⟨4, 10⟩] h).1⟩

/-- C29. Every chunk returned by `MapNarrationsToAudioChunks` has `Duration` 0, and the
result does not depend on the `windows` argument; so `validateAudioSync` rejects every
non-empty chunk list the function returns, whatever the window list. -/
theorem MapNarrationsToAudioChunks_duration_zero (narrations : List Narration)
    (windows : List Window) (provider : String) :
    (∀ c ∈ (MapNarrationsToAudioChunks narrations windows provider).1, c.Duration = 0) ∧
    (∀ windows2 : List Window,
      MapNarrationsToAudioChunks narrations windows2 provider
        = MapNarrationsToAudioChunks narrations windows provider) ∧
    (∀ validated : List Window,
      (MapNarrationsToAudioChunks narrations windows provider).1 ≠ [] →
      ∃ e, validateAudioSync validated
        (MapNarrationsToAudioChunks narrations windows provider).1 = .error e) := by
  have hzero : ∀ c ∈ (MapNarrationsToAudioChunks narrations windows provider).1,
      c.Duration = 0 := by
    intro c hc
    rw [MapNarrationsToAudioChunks_chunks, List.mem_map] at hc
    obtain ⟨n, _, rfl⟩ := hc
    rfl
  refine ⟨hzero, fun _ => rfl, ?_⟩
  intro validated hne
  cases hres : validateAudioSync validated
      (MapNarrationsToAudioChunks narrations windows provider).1 with
  | error e => exact ⟨e, rfl⟩
  | ok u =>
    exfalso
    have hall := (validateAudioSync_body_all validated _).mp hres
    obtain ⟨c, hc⟩ := List.exists_mem_of_ne_nil _ hne
    have hpos := (hall c hc).2.2.1
    rw [hzero c hc] at hpos
    exact lt_irrefl _ hpos

theorem MapNarrationsToAudioChunks_duration_zero_witness :
    (MapNarrationsToAudioChunks [⟨0, 1, 2, "a", ""⟩] [⟨1, 2⟩] "deepgram").1 ≠ [] ∧
      ∃ e, validateAudioSync [⟨1, 2⟩]
        (MapNarrationsToAudioChunks [⟨0, 1, 2, "a", ""⟩] [⟨1, 2⟩] "deepgram").1
          = .error e :=
  have h : (MapNarrationsToAudioChunks [⟨0, 1, 2, "a", ""⟩] [⟨1, 2⟩] "deepgram").1 ≠ [] := by
    have hk : keptNarration ⟨0, 1, 2, "a", ""⟩ = true := by decide!
    rw [MapNarrationsToAudioChunks_chunks, List.filter_cons_of_pos hk]
    simp
  ⟨h, (MapNarrationsToAudioChunks_duration_zero [⟨0, 1, 2, "a", ""⟩] [⟨1, 2⟩]
    "deepgram").2.2 [⟨1, 2⟩] h⟩

theorem groupFrom_speechWords (items : List TimelineItem) :
    ∀ cur : speechSegment, groupFrom cur (speechWords items) = groupFrom cur items := by
  induction items with
  | nil => intro cur; rfl
  | cons item items ih =>
    intro cur
    by_cases hk : item.Kind ≠ "speech_word"
    · rw [speechWords_cons_other items hk, groupFrom, if_pos hk]
      exact ih cur
    · rw [speechWords_cons_speech items hk, groupFrom, groupFrom, if_neg hk, if_neg hk]
      by_cases hg : item.T - cur.end_ > 0.8
      · rw [if_pos hg, ih, if_pos hg]
      · rw [if_neg hg, ih, if_neg hg]

theorem groupNone_speechWords (items : List TimelineItem) :
    groupNone (speechWords items) = groupNone items := by
  induction items with
  | nil => rfl
  | cons item items ih =>
    by_cases hk : item.Kind ≠ "speech_word"
    · rw [speechWords_cons_other items hk, groupNone, if_pos hk]
      exact ih
    · rw [speechWords_cons_speech items hk, groupNone, groupNone, if_neg hk, if_neg hk,
        groupFrom_speechWords]

/-- C30. The windows returned by `ExtractNarrationWindows` depend only on the
`speech_word` items and the duration: removing every item whose `Kind` is not
"speech_word" from the timeline leaves the result unchanged. -/
theorem ExtractNarrationWindows_speech_only (timeline : List TimelineItem)
    (videoDuration : F64) :
    ExtractNarrationWindows
        (timeline.filter (fun x => decide (x.Kind = "speech_word"))) videoDuration
      = ExtractNarrationWindows timeline videoDuration := by
  rw [ExtractNarrationWindows_eq_windowsFrom, ExtractNarrationWindows_eq_windowsFrom]
  have h := groupNone_speechWords timeline
  unfold speechWords at h
  rw [h]

/-! ## `GenerateAudioBytes` -/

/-- C26. `GenerateAudioBytes` rejects unusable requests before any external call: for a
text that is empty or white space only it returns the error "empty text" and no bytes
whatever the provider, and for a provider other than "deepgram" ("elevenlabs" included)
it returns an error and no bytes for every text; in both cases no request is sent and the
result does not depend on the outside world. -/
theorem GenerateAudioBytes_rejects (outcome : HttpOutcome) (text provider : String) :
    (text.data.all isSpace = true →
      GenerateAudioBytes outcome text provider
        = { bytes := [], err := some "empty text", requests := [] }) ∧
    (provider ≠ "deepgram" →
      (GenerateAudioBytes outcome text provider).err ≠ none ∧
      (GenerateAudioBytes outcome text provider).bytes = [] ∧
      (GenerateAudioBytes outcome text provider).requests = [] ∧
      ∀ outcome2 : HttpOutcome,
        GenerateAudioBytes outcome2 text provider
          = GenerateAudioBytes outcome text provider) ∧
    (GenerateAudioBytes outcome "hello" "elevenlabs"
      = { bytes := [], err := some "elevenlabs not configured", requests := [] }) := by
  refine ⟨?_, ?_, ?_⟩
  · intro hblank
    have ht : TrimSpace text = "" := (TrimSpace_eq_empty_iff text).mpr hblank
    unfold GenerateAudioBytes
    rw [if_pos ht]
  · intro hp
    have hp2 : ¬ provider = TTSDeepgram := hp
    by_cases ht : TrimSpace text = ""
    · have h : ∀ o : HttpOutcome, GenerateAudioBytes o text provider
          = { bytes := [], err := some "empty text", requests := [] } := by
        intro o; unfold GenerateAudioBytes; rw [if_pos ht]
      rw [h outcome]
      exact ⟨by simp, rfl, rfl, fun o => h o⟩
    · by_cases he : provider = TTSElevenLab
      · have h : ∀ o : HttpOutcome, GenerateAudioBytes o text provider
            = { bytes := [], err := some "elevenlabs not configured", requests := [] } := by
          intro o; unfold GenerateAudioBytes
          rw [if_neg ht]; simp only []; rw [if_neg hp2, if_pos he]
        rw [h outcome]
        exact ⟨by simp, rfl, rfl, fun o => h o⟩
      · have h : ∀ o : HttpOutcome, GenerateAudioBytes o text provider
            = { bytes := [], err := some ("unsupported provider: " ++ provider),
                requests := [] } := by
          intro o; unfold GenerateAudioBytes
          rw [if_neg ht]; simp only []; rw [if_neg hp2, if_neg he]
        rw [h outcome]
        exact ⟨by simp, rfl, rfl, fun o => h o⟩
  · have ht : ¬ TrimSpace "hello" = "" := by
      rw [TrimSpace_eq_empty_iff]
      simp [blankText, isSpace]
    have hp2 : ¬ "elevenlabs" = TTSDeepgram := by unfold TTSDeepgram; decide
    unfold GenerateAudioBytes
    have he : "elevenlabs" = TTSElevenLab := rfl
    rw [if_neg ht]; simp only []; rw [if_neg hp2, if_pos he]

theorem GenerateAudioBytes_rejects_witness :
    (" \t ".data.all isSpace = true ∧ "elevenlabs" ≠ "deepgram") ∧
      GenerateAudioBytes (.response 200 "200 OK" [1, 2, 3] none) " \t " "elevenlabs"
        = { bytes := [], err := some "empty text", requests := [] } ∧
      (GenerateAudioBytes (.response 200 "200 OK" [1, 2, 3] none) "hello"
        "elevenlabs").err ≠ none :=
  have h1 : " \t ".data.all isSpace = true := by simp [isSpace]
  have h2 : "elevenlabs" ≠ "deepgram" := by decide
  ⟨⟨h1, h2⟩,
    (GenerateAudioBytes_rejects (.response 200 "200 OK" [1, 2, 3] none) " \t "
      "elevenlabs").1 h1,
    ((GenerateAudioBytes_rejects (.response 200 "200 OK" [1, 2, 3] none) "hello"
      "elevenlabs").2.1 h2).1⟩

/-! ## The synthesis loop of `SaveFullAudio` -/

theorem synthLoop_of_failed (world : AudioWorld) (provider : String) (i : Nat)
    (chunk : AudioChunk) (rest : List AudioChunk) (tempFiles : List String)
    (h : synthOk world provider i chunk = false) :
    synthLoop world provider i (chunk :: rest) tempFiles
      = synthLoop world provider (i + 1) rest tempFiles := by
  unfold synthOk at h
  rw [synthLoop]
  cases herr : (GenerateAudioBytes (world.synth i) chunk.Text provider).err with
  | some e => rfl
  | none => rw [herr] at h; simp at h

theorem synthLoop_of_ok (world : AudioWorld) (provider : String) (i : Nat)
    (chunk : AudioChunk) (rest : List AudioChunk) (tempFiles : List String)
    (h : synthOk world provider i chunk = true) :
    synthLoop world provider i (chunk :: rest) tempFiles
      = match world.writeErr i with
        | some e => (tempFiles, some ("failed to write temp chunk: " ++ e))
        | none =>
          synthLoop world provider (i + 1) rest (tempFiles ++ [tempFileName world.pid i]) := by
  unfold synthOk at h
  rw [synthLoop]
  cases herr : (GenerateAudioBytes (world.synth i) chunk.Text provider).err with
  | some e => rw [herr] at h; simp at h
  | none => rfl

theorem synthLoop_writes_ok (world : AudioWorld) (provider : String)
    (hw : ∀ i, world.writeErr i = none) (chunks : List AudioChunk) :
    ∀ (i : Nat) (tempFiles : List String),
      synthLoop world provider i chunks tempFiles
        = (tempFiles ++ (succeeded world provider i chunks).map (tempFileName world.pid),
            none) := by
  induction chunks with
  | nil => intro i tempFiles; simp [synthLoop, succeeded]
  | cons chunk rest ih =>
    intro i tempFiles
    by_cases hok : synthOk world provider i chunk = true
    · rw [synthLoop_of_ok world provider i chunk rest tempFiles hok, hw i]
      simp only []
      rw [ih, succeeded, if_pos hok]
      simp
    · have hok2 : synthOk world provider i chunk = false := by simpa using hok
      rw [synthLoop_of_failed world provider i chunk rest tempFiles hok2, ih, succeeded,
        if_neg hok]

theorem synthLoop_all_failed (world : AudioWorld) (provider : String)
    (chunks : List AudioChunk) :
    ∀ (i : Nat) (tempFiles : List String),
      (∀ j chunk, chunks[j]? = some chunk → synthOk world provider (i + j) chunk = false) →
      synthLoop world provider i chunks tempFiles = (tempFiles, none) := by
  induction chunks with
  | nil => intro i tempFiles _; rfl
  | cons chunk rest ih =>
    intro i tempFiles h
    have h0 : synthOk world provider i chunk = false := h 0 chunk (by simp)
    rw [synthLoop_of_failed world provider i chunk rest tempFiles h0]
    refine ih (i + 1) tempFiles ?_
    intro j c hc
    have := h (j + 1) c (by simpa using hc)
    rw [← this]; congr 1; omega

theorem succeeded_ne_nil (world : AudioWorld) (provider : String)
    (chunks : List AudioChunk) :
    ∀ (i : Nat),
      (∃ j chunk, chunks[j]? = some chunk ∧ synthOk world provider (i + j) chunk = true) →
      succeeded world provider i chunks ≠ [] := by
  induction chunks with
  | nil => intro i h; obtain ⟨j, c, hc, _⟩ := h; simp at hc
  | cons chunk rest ih =>
    intro i h
    rw [succeeded]
    by_cases hok : synthOk world provider i chunk = true
    · rw [if_pos hok]; simp
    · rw [if_neg hok]
      refine ih (i + 1) ?_
      obtain ⟨j, c, hc, hs⟩ := h
      cases j with
      | zero =>
        simp at hc
        rw [← hc] at hs
        exact absurd hs hok
      | succ j =>
        refine ⟨j, c, by simpa using hc, ?_⟩
        rw [← hs]; congr 1; omega

/-- C22. If no chunk synthesizes successfully (every synthesis fails, or the chunk list
is empty) `SaveFullAudio` returns an error without building a mix or invoking ffmpeg
("no audio chunks generated" once the directory exists). A failed synthesis alone never
makes it fail: when the directory is created, at least one chunk succeeds, every file
write succeeds and ffmpeg succeeds, it returns nil. -/
theorem SaveFullAudio_minimum_viability (world : AudioWorld) (chunks : List AudioChunk)
    (provider filename : String) (totalDuration : F64) :
    ((∀ i chunk, chunks[i]? = some chunk →
        (GenerateAudioBytes (world.synth i) chunk.Text provider).err ≠ none) →
      (SaveFullAudio world chunks provider filename totalDuration).err ≠ none ∧
      (SaveFullAudio world chunks provider filename totalDuration).ffmpeg = none ∧
      (world.mkdirErr = none →
        (SaveFullAudio world chunks provider filename totalDuration).err
          = some "no audio chunks generated")) ∧
    (world.mkdirErr = none → (∀ i, world.writeErr i = none) → world.ffmpegErr = none →
      (∃ i chunk, chunks[i]? = some chunk ∧
        (GenerateAudioBytes (world.synth i) chunk.Text provider).err = none) →
      (SaveFullAudio world chunks provider filename totalDuration).err = none) := by
  refine ⟨?_, ?_⟩
  · intro hall
    have hfail : ∀ j chunk, chunks[j]? = some chunk →
        synthOk world provider (0 + j) chunk = false := by
      intro j chunk hc
      have := hall j chunk hc
      rw [Nat.zero_add]
      unfold synthOk
      cases herr : (GenerateAudioBytes (world.synth j) chunk.Text provider).err with
      | none => exact absurd herr this
      | some e => rfl
    have hloop := synthLoop_all_failed world provider chunks 0 [] hfail
    unfold SaveFullAudio
    cases hm : world.mkdirErr with
    | some e => simp
    | none => simp [hloop]
  · intro hm hw hf hex
    have hloop := synthLoop_writes_ok world provider hw chunks 0 []
    have hne : succeeded world provider 0 chunks ≠ [] := by
      refine succeeded_ne_nil world provider chunks 0 ?_
      obtain ⟨i, chunk, hc, herr⟩ := hex
      refine ⟨i, chunk, hc, ?_⟩
      rw [Nat.zero_add]
      unfold synthOk
      rw [herr]; rfl
    unfold SaveFullAudio
    rw [hm]
    simp only []
    rw [hloop]
    simp [hne, hf]

/-! ## Evaluation of `SaveFullAudio` in the test world -/

theorem TrimSpace_hello : ¬ TrimSpace "hello" = "" := by
  rw [TrimSpace_eq_empty_iff]
  simp [blankText, isSpace]

theorem synthOk_testWorld (failing : List Nat) (ffmpegFails : Bool) (i : Nat)
    (start stop : F64) :
    synthOk (testWorld failing ffmpegFails) "deepgram" i (testChunk start stop)
      = decide (i ∉ failing) := by
  have hp : "deepgram" = TTSDeepgram := rfl
  unfold synthOk GenerateAudioBytes
  simp only [testChunk, testWorld]
  rw [if_neg TrimSpace_hello, if_pos hp]
  by_cases hi : i ∈ failing
  · simp [hi]
  · simp [hi]

theorem SaveFullAudio_testWorld (failing : List Nat) (ffmpegFails : Bool)
    (chunks : List AudioChunk) (filename : String) (totalDuration : F64)
    (hne : succeeded (testWorld failing ffmpegFails) "deepgram" 0 chunks ≠ []) :
    SaveFullAudio (testWorld failing ffmpegFails) chunks "deepgram" filename totalDuration
      = { err := if ffmpegFails = true then some "ffmpeg mix error: exit status 1" else none,
          ffmpeg := some (buildMix (testWorld failing ffmpegFails) chunks
            ((succeeded (testWorld failing ffmpegFails) "deepgram" 0 chunks).map
              (tempFileName 7)) filename totalDuration),
          tempFilesLeft :=
            if ffmpegFails = true then
              (succeeded (testWorld failing ffmpegFails) "deepgram" 0 chunks).map
                (tempFileName 7)
            else
              removeAll
                ((succeeded (testWorld failing ffmpegFails) "deepgram" 0 chunks).map
                  (tempFileName 7))
                ((succeeded (testWorld failing ffmpegFails) "deepgram" 0 chunks).map
                  (tempFileName 7)) } := by
  have hw : ∀ i, (testWorld failing ffmpegFails).writeErr i = none := fun _ => rfl
  have hloop := synthLoop_writes_ok (testWorld failing ffmpegFails) "deepgram" hw chunks 0 []
  have hpid : (testWorld failing ffmpegFails).pid = 7 := rfl
  rw [hpid, List.nil_append] at hloop
  have hm : (testWorld failing ffmpegFails).mkdirErr = none := rfl
  unfold SaveFullAudio
  rw [hm]
  simp only []
  rw [hloop]
  simp only [List.length_map, List.length_eq_zero, hne, if_false]
  cases ffmpegFails with
  | true => rfl
  | false => rfl

/-- C21 (evaluation at the failing input). Two chunks, the first starting at 0 and the
second at 4, in a 10 s video; the synthesis of the first fails and that of the second
succeeds. The only voice input is the temporary file of chunk 1, and the voice layer that
reads it, `voice 1`, is delayed by 0 ms and trimmed to 4.2 s, the values of chunk 0, not
by 4000 ms and 6.2 s, those of chunk 1. -/
theorem SaveFullAudio_failed_chunk_shifts_layers :
    synthOk (testWorld [0] false) "deepgram" 0 (testChunk 0 3) = false ∧
    synthOk (testWorld [0] false) "deepgram" 1 (testChunk 4 6) = true ∧
    (SaveFullAudio (testWorld [0] false) [testChunk 0 3, testChunk 4 6] "deepgram"
        "out.mp3" 10).err = none ∧
    (SaveFullAudio (testWorld [0] false) [testChunk 0 3, testChunk 4 6] "deepgram"
        "out.mp3" 10).ffmpeg
      = some { baseDuration := 10, voiceInputs := [tempFileName 7 1],
               musicInputs := [musicPath "upbeat"],
               filterParts := [.voice 1 (4 + 0.2) 0 1, .music 2 4 0 1, .music 2 2 4000 2],
               mixInputs := ["[0]", mixLabel (.voice 1 (4 + 0.2) 0 1),
                 mixLabel (.music 2 4 0 1), mixLabel (.music 2 2 4000 2)],
               output := dirPath ++ "/" ++ "out.mp3" } ∧
    truncToInt ((testChunk 4 6).Start * 1000) = 4000 ∧
    durationLimit [testChunk 0 3, testChunk 4 6] 10 1 (testChunk 4 6) = 6 + 0.2 := by
  have hs : succeeded (testWorld [0] false) "deepgram" 0 [testChunk 0 3, testChunk 4 6]
      = [1] := by
    simp [succeeded, synthOk_testWorld]
  have hne : succeeded (testWorld [0] false) "deepgram" 0 [testChunk 0 3, testChunk 4 6]
      ≠ [] := by rw [hs]; simp
  refine ⟨by simp [synthOk_testWorld], by simp [synthOk_testWorld], ?_, ?_, ?_, ?_⟩
  · rw [SaveFullAudio_testWorld [0] false _ _ _ hne]; rfl
  · decide!
  · decide!
  · decide!

theorem GenerateAudioBytes_err_of_synthOk {world : AudioWorld} {provider : String}
    {i : Nat} {chunk : AudioChunk} (h : synthOk world provider i chunk = true) :
    (GenerateAudioBytes (world.synth i) chunk.Text provider).err = none := by
  unfold synthOk at h
  exact Option.isNone_iff_eq_none.mp h

theorem GenerateAudioBytes_err_of_not_synthOk {world : AudioWorld} {provider : String}
    {i : Nat} {chunk : AudioChunk} (h : synthOk world provider i chunk = false) :
    (GenerateAudioBytes (world.synth i) chunk.Text provider).err ≠ none := by
  unfold synthOk at h
  intro hn
  rw [hn] at h
  simp at h

theorem SaveFullAudio_minimum_viability_witness :
    (∀ i chunk, [testChunk 0 3][i]? = some chunk →
        (GenerateAudioBytes ((testWorld [0] false).synth i) chunk.Text "deepgram").err
          ≠ none) ∧
      (SaveFullAudio (testWorld [0] false) [testChunk 0 3] "deepgram" "out.mp3" 10).err
        = some "no audio chunks generated" ∧
      (SaveFullAudio (testWorld [0] false) [testChunk 0 3, testChunk 4 6] "deepgram"
        "out.mp3" 10).err = none :=
  have h1 : ∀ i chunk, [testChunk 0 3][i]? = some chunk →
      (GenerateAudioBytes ((testWorld [0] false).synth i) chunk.Text "deepgram").err
        ≠ none := by
    intro i chunk hc
    cases i with
    | zero =>
      simp at hc
      rw [← hc]
      exact GenerateAudioBytes_err_of_not_synthOk (by simp [synthOk_testWorld])
    | succ i => simp at hc
  ⟨h1,
    ((SaveFullAudio_minimum_viability (testWorld [0] false) [testChunk 0 3] "deepgram"
      "out.mp3" 10).1 h1).2.2 rfl,
    (SaveFullAudio_minimum_viability (testWorld [0] false) [testChunk 0 3, testChunk 4 6]
      "deepgram" "out.mp3" 10).2 rfl (fun _ => rfl) rfl
      ⟨1, testChunk 4 6, rfl,
        GenerateAudioBytes_err_of_synthOk (by simp [synthOk_testWorld])⟩⟩

theorem removeAll_subset (tempFiles : List String) :
    ∀ onDisk : List String, (∀ f ∈ onDisk, f ∈ tempFiles) →
      removeAll tempFiles onDisk = [] := by
  induction tempFiles with
  | nil =>
    intro onDisk h
    cases onDisk with
    | nil => rfl
    | cons f _ => exact absurd (h f (List.mem_cons_self _ _)) (List.not_mem_nil f)
  | cons t tempFiles ih =>
    intro onDisk h
    unfold removeAll
    rw [List.foldl_cons]
    refine ih _ ?_
    intro f hf
    rw [List.mem_filter] at hf
    have hne : f ≠ t := by simpa using hf.2
    rcases List.mem_cons.mp (h f hf.1) with h1 | h1
    · exact absurd h1 hne
    · exact h1

/-- C25 (evaluation at the failing input). One chunk is synthesized and written, then
ffmpeg fails: `SaveFullAudio` returns "ffmpeg mix error: exit status 1" and the temporary
file of chunk 0 is still on disk. The same holds when the write of the temporary file of
a later chunk fails. (After a successful mixdown no temporary file is left.) -/
theorem SaveFullAudio_keeps_temp_files_on_failure :
    (SaveFullAudio (testWorld [] true) [testChunk 0 3] "deepgram" "out.mp3" 10).err
        = some "ffmpeg mix error: exit status 1" ∧
      (SaveFullAudio (testWorld [] true) [testChunk 0 3] "deepgram" "out.mp3" 10).tempFilesLeft
        = [tempFileName 7 0] ∧
      SaveFullAudio failingWriteWorld [testChunk 0 3, testChunk 4 6] "deepgram" "out.mp3" 10
        = { err := some "failed to write temp chunk: disk full", ffmpeg := none,
            tempFilesLeft := [tempFileName 7 0] } ∧
      (SaveFullAudio (testWorld [] false) [testChunk 0 3] "deepgram" "out.mp3" 10).err
        = none ∧
      (SaveFullAudio (testWorld [] false) [testChunk 0 3] "deepgram" "out.mp3" 10).tempFilesLeft
        = [] := by
  have hs : ∀ b, succeeded (testWorld [] b) "deepgram" 0 [testChunk 0 3] = [0] := by
    intro b; simp [succeeded, synthOk_testWorld]
  have hne : ∀ b, succeeded (testWorld [] b) "deepgram" 0 [testChunk 0 3] ≠ [] := by
    intro b; rw [hs b]; simp
  refine ⟨?_, ?_, ?_, ?_, ?_⟩
  · rw [SaveFullAudio_testWorld [] true _ _ _ (hne true)]; rfl
  · rw [SaveFullAudio_testWorld [] true _ _ _ (hne true), hs true]; rfl
  · have hok : ∀ i start stop,
        synthOk failingWriteWorld "deepgram" i (testChunk start stop) = true := by
      intro i start stop
      have := synthOk_testWorld [] false i start stop
      simpa using this
    have hloop : synthLoop failingWriteWorld "deepgram" 0 [testChunk 0 3, testChunk 4 6] []
        = ([tempFileName 7 0], some "failed to write temp chunk: disk full") := by
      rw [synthLoop_of_ok _ _ _ _ _ _ (hok 0 0 3)]
      have hw0 : failingWriteWorld.writeErr 0 = none := rfl
      have hw1 : failingWriteWorld.writeErr 1 = some "disk full" := rfl
      have hpid : failingWriteWorld.pid = 7 := rfl
      rw [hw0]
      simp only []
      rw [synthLoop_of_ok _ _ _ _ _ _ (hok 1 4 6), hw1, hpid]
      rfl
    have hm : failingWriteWorld.mkdirErr = none := rfl
    unfold SaveFullAudio
    rw [hm]
    simp only []
    rw [hloop]
  · rw [SaveFullAudio_testWorld [] false _ _ _ (hne false)]; rfl
  · rw [SaveFullAudio_testWorld [] false _ _ _ (hne false)]
    exact removeAll_subset _ _ (fun f hf => hf)

/-! ## The voice and music layers of `SaveFullAudio` -/

theorem SaveFullAudio_ffmpeg_eq (world : AudioWorld) (chunks : List AudioChunk)
    (provider filename : String) (totalDuration : F64) (spec : MixSpec)
    (h : (SaveFullAudio world chunks provider filename totalDuration).ffmpeg = some spec) :
    ∃ tempFiles : List String,
      synthLoop world provider 0 chunks [] = (tempFiles, none) ∧ tempFiles ≠ [] ∧
      spec = buildMix world chunks tempFiles filename totalDuration := by
  unfold SaveFullAudio at h
  cases hm : world.mkdirErr with
  | some e => rw [hm] at h; exact Option.noConfusion h
  | none =>
    rw [hm] at h
    simp only [] at h
    cases hl : synthLoop world provider 0 chunks [] with
    | mk tempFiles err =>
      rw [hl] at h
      cases err with
      | some e => exact Option.noConfusion h
      | none =>
        simp only [] at h
        by_cases hz : tempFiles.length = 0
        · rw [if_pos hz] at h; exact Option.noConfusion h
        · rw [if_neg hz] at h
          have hne : tempFiles ≠ [] := fun he => hz (by rw [he]; rfl)
          refine ⟨tempFiles, rfl, hne, ?_⟩
          cases hf : world.ffmpegErr with
          | some e => rw [hf] at h; injection h with h; exact h.symm
          | none => rw [hf] at h; injection h with h; exact h.symm

theorem voiceLoop_getElem (chunks : List AudioChunk) (tempFiles : List String)
    (totalDuration : F64) (tail : List FilterPart) (rest : List AudioChunk) :
    ∀ (i j : Nat) (chunk : AudioChunk), rest[j]? = some chunk → i + j < tempFiles.length →
      (voiceLoop chunks tempFiles totalDuration i rest ++ tail)[j]?
        = some (.voice (i + j + 1) (durationLimit chunks totalDuration (i + j) chunk)
            (truncToInt (chunk.Start * 1000)) (i + j + 1)) := by
  induction rest with
  | nil => intro i j chunk h _; simp at h
  | cons c rest ih =>
    intro i j chunk h hlt
    have hi : ¬ i ≥ tempFiles.length := by omega
    rw [voiceLoop, if_neg hi]
    cases j with
    | zero =>
      simp at h
      rw [← h]
      simp
    | succ j =>
      have h2 : rest[j]? = some chunk := by simpa using h
      have := ih (i + 1) j chunk h2 (by omega)
      have harith : i + 1 + j = i + (j + 1) := by omega
      rw [harith] at this
      simpa using this

theorem durationLimit_cases (chunks : List AudioChunk) (totalDuration : F64) (i : Nat)
    (chunk : AudioChunk) (hc : chunks[i]? = some chunk) :
    (∀ next, chunks[i + 1]? = some next → next.Start > chunk.Start →
      durationLimit chunks totalDuration i chunk = (next.Start - chunk.Start) + 0.2) ∧
    (∀ next, chunks[i + 1]? = some next → next.Start ≤ chunk.Start →
      durationLimit chunks totalDuration i chunk = 100) ∧
    (i + 1 = chunks.length →
      durationLimit chunks totalDuration i chunk = (totalDuration - chunk.Start) + 0.2) := by
  have hi : i < chunks.length := (List.getElem?_eq_some_iff.mp hc).1
  refine ⟨?_, ?_, ?_⟩
  · intro next hn hgt
    have hlt : i + 1 < chunks.length := (List.getElem?_eq_some_iff.mp hn).1
    have hget : chunks.getD (i + 1) zeroChunk = next := by
      rw [List.getD_eq_getElem?_getD, hn]; rfl
    unfold durationLimit
    rw [hget, if_pos ⟨by omega, hgt⟩]
  · intro next hn hle
    have hlt : i + 1 < chunks.length := (List.getElem?_eq_some_iff.mp hn).1
    have hget : chunks.getD (i + 1) zeroChunk = next := by
      rw [List.getD_eq_getElem?_getD, hn]; rfl
    unfold durationLimit
    rw [hget, if_neg (fun h => absurd h.2 (not_lt.mpr hle)), if_neg (by omega)]
  · intro hlast
    unfold durationLimit
    rw [if_neg (fun h => by omega), if_pos (by omega)]

theorem SaveFullAudio_equal_starts :
    (SaveFullAudio (testWorld [] false) [testChunk 5 8, testChunk 5 6] "deepgram"
        "out.mp3" 10).ffmpeg
      = some { baseDuration := 10, voiceInputs := [tempFileName 7 0, tempFileName 7 1],
               musicInputs := [musicPath "upbeat"],
               filterParts := [.voice 1 100 5000 1, .voice 2 (5 + 0.2) 5000 2,
                 .music 3 3 5000 1, .music 3 1 5000 2],
               mixInputs := ["[0]", mixLabel (.voice 1 100 5000 1),
                 mixLabel (.voice 2 (5 + 0.2) 5000 2), mixLabel (.music 3 3 5000 1),
                 mixLabel (.music 3 1 5000 2)],
               output := dirPath ++ "/" ++ "out.mp3" } := by
  have hs : succeeded (testWorld [] false) "deepgram" 0 [testChunk 5 8, testChunk 5 6]
      = [0, 1] := by
    simp [succeeded, synthOk_testWorld]
  have hne : succeeded (testWorld [] false) "deepgram" 0 [testChunk 5 8, testChunk 5 6]
      ≠ [] := by rw [hs]; simp
  decide!

/-- C23 (counterexample). Two chunks that both start at 5, both synthesized, in a 10 s
video: the voice layer of chunk 0, which is not the last chunk, is trimmed to 100, not to
`(chunks[1].Start - chunks[0].Start) + 0.2 = 0.2`. -/
theorem SaveFullAudio_default_duration_limit :
    (SaveFullAudio (testWorld [] false) [testChunk 5 8, testChunk 5 6] "deepgram"
        "out.mp3" 10).ffmpeg.map (fun spec => spec.filterParts[0]?)
      = some (some (.voice 1 100 5000 1)) ∧
    (100 : F64) ≠ ((testChunk 5 6).Start - (testChunk 5 8).Start) + 0.2 := by
  refine ⟨?_, ?_⟩
  · rw [SaveFullAudio_equal_starts]; rfl
  · decide!

/-- C23 (amended). The voice layer that `SaveFullAudio` builds from `chunks[i]` is trimmed
to `(chunks[i+1].Start - chunks[i].Start) + 0.2` when chunk `i` is not the last chunk and
chunk `i+1` starts later than chunk `i`, to 100 when chunk `i` is not the last chunk and
chunk `i+1` does not start later, and to `(totalDuration - chunks[i].Start) + 0.2` when
chunk `i` is the last chunk. -/
theorem SaveFullAudio_voice_trim (world : AudioWorld) (chunks : List AudioChunk)
    (provider filename : String) (totalDuration : F64) (spec : MixSpec)
    (h : (SaveFullAudio world chunks provider filename totalDuration).ffmpeg = some spec)
    (i : Nat) (chunk : AudioChunk) (hc : chunks[i]? = some chunk)
    (hi : i < spec.voiceInputs.length) :
    ∃ limit : F64,
      spec.filterParts[i]?
        = some (.voice (i + 1) limit (truncToInt (chunk.Start * 1000)) (i + 1)) ∧
      (∀ next, chunks[i + 1]? = some next → next.Start > chunk.Start →
        limit = (next.Start - chunk.Start) + 0.2) ∧
      (∀ next, chunks[i + 1]? = some next → next.Start ≤ chunk.Start → limit = 100) ∧
      (i + 1 = chunks.length → limit = (totalDuration - chunk.Start) + 0.2) := by
  obtain ⟨tempFiles, _, _, hspec⟩ :=
    SaveFullAudio_ffmpeg_eq world chunks provider filename totalDuration spec h
  have hi2 : 0 + i < tempFiles.length := by
    rw [hspec] at hi
    simpa [buildMix] using hi
  have hget := voiceLoop_getElem chunks tempFiles totalDuration
    (musicLoop chunks (buildMusicMap world tempFiles).1 0 chunks) chunks 0 i chunk hc hi2
  rw [Nat.zero_add] at hget
  refine ⟨durationLimit chunks totalDuration i chunk, ?_,
    durationLimit_cases chunks totalDuration i chunk hc⟩
  rw [hspec]
  exact hget

theorem SaveFullAudio_voice_trim_witness :
    (SaveFullAudio (testWorld [] false) [testChunk 5 8, testChunk 5 6] "deepgram"
        "out.mp3" 10).ffmpeg
      = some { baseDuration := 10, voiceInputs := [tempFileName 7 0, tempFileName 7 1],
               musicInputs := [musicPath "upbeat"],
               filterParts := [.voice 1 100 5000 1, .voice 2 (5 + 0.2) 5000 2,
                 .music 3 3 5000 1, .music 3 1 5000 2],
               mixInputs := ["[0]", mixLabel (.voice 1 100 5000 1),
                 mixLabel (.voice 2 (5 + 0.2) 5000 2), mixLabel (.music 3 3 5000 1),
                 mixLabel (.music 3 1 5000 2)],
               output := dirPath ++ "/" ++ "out.mp3" } ∧
      [testChunk 5 8, testChunk 5 6][1]? = some (testChunk 5 6) ∧
      1 < [tempFileName 7 0, tempFileName 7 1].length ∧
      ∃ limit : F64,
        ([.voice 1 100 5000 1, .voice 2 (5 + 0.2) 5000 2, .music 3 3 5000 1,
            .music 3 1 5000 2] : List FilterPart)[1]?
          = some (.voice (1 + 1) limit (truncToInt ((testChunk 5 6).Start * 1000)) (1 + 1)) ∧
        (∀ next, [testChunk 5 8, testChunk 5 6][1 + 1]? = some next →
          next.Start > (testChunk 5 6).Start →
          limit = (next.Start - (testChunk 5 6).Start) + 0.2) ∧
        (∀ next, [testChunk 5 8, testChunk 5 6][1 + 1]? = some next →
          next.Start ≤ (testChunk 5 6).Start → limit = 100) ∧
        (1 + 1 = [testChunk 5 8, testChunk 5 6].length →
          limit = (10 - (testChunk 5 6).Start) + 0.2) :=
  ⟨SaveFullAudio_equal_starts, rfl, by decide,
    SaveFullAudio_voice_trim (testWorld [] false) [testChunk 5 8, testChunk 5 6] "deepgram"
      "out.mp3" 10 _ SaveFullAudio_equal_starts 1 (testChunk 5 6) rfl (by decide)⟩

theorem findPrimaryActionForWindow_eq_find (actions : List TimelineItem) (w : Window) :
    findPrimaryActionForWindow actions w
      = actions.find? (fun a => decide (a.Kind = "action") && decide (w.Start ≤ a.T) &&
          decide (a.T ≤ w.End) && decide (a.Action ≠ "scroll")) := by
  induction actions with
  | nil => rfl
  | cons a actions ih =>
    rw [findPrimaryActionForWindow, List.find?_cons]
    by_cases hk : a.Kind ≠ "action"
    · rw [if_pos hk, ih]
      have hk2 : ¬ a.Kind = "action" := hk
      simp [hk2]
    · rw [if_neg hk]
      have hk2 : a.Kind = "action" := not_not.mp hk
      by_cases ht : a.T < w.Start ∨ a.T > w.End
      · rw [if_pos ht, ih]
        rcases ht with ht | ht
        · simp [not_le.mpr ht]
        · simp [not_le.mpr ht]
      · rw [if_neg ht]
        have h1 : w.Start ≤ a.T := not_lt.mp (fun h => ht (Or.inl h))
        have h2 : a.T ≤ w.End := not_lt.mp (fun h => ht (Or.inr h))
        by_cases hs : a.Action = "scroll"
        · rw [if_pos hs, ih]
          simp [hs]
        · rw [if_neg hs]
          simp [hk2, h1, h2, hs]

/-- C33 (evaluation at the failing input). The window `[0, 2]` and one action, a scroll
at time 1: there is an action inside the window, every action inside the window is a
scroll, and the claim says that this scroll is returned as the primary action; the code
returns nil. -/
theorem findPrimaryActionForWindow_only_scroll :
    (∃ a ∈ [actionItem 1 "scroll" none],
      a.Kind = "action" ∧ (⟨0, 2⟩ : Window).Start ≤ a.T ∧ a.T ≤ (⟨0, 2⟩ : Window).End) ∧
    (∀ a ∈ [actionItem 1 "scroll" none],
      a.Kind = "action" → (⟨0, 2⟩ : Window).Start ≤ a.T → a.T ≤ (⟨0, 2⟩ : Window).End →
        a.Action = "scroll") ∧
    findPrimaryActionForWindow [actionItem 1 "scroll" none] ⟨0, 2⟩ = none ∧
    findPrimaryActionForWindow [actionItem 1 "scroll" none] ⟨0, 2⟩
      ≠ some (actionItem 1 "scroll" none) := by
  have hnone : findPrimaryActionForWindow [actionItem 1 "scroll" none] ⟨0, 2⟩ = none := by
    rw [findPrimaryActionForWindow_eq_find]
    simp [actionItem]
  refine ⟨⟨actionItem 1 "scroll" none, List.mem_singleton.mpr rfl, rfl, by decide!,
    by decide!⟩, ?_, hnone, ?_⟩
  · intro a ha _ _ _
    rw [List.mem_singleton.mp ha]
    rfl
  · rw [hnone]
    exact fun h => Option.noConfusion h

theorem findPrimaryActionForWindow_mem (actions : List TimelineItem) (w : Window)
    (a : TimelineItem) (h : findPrimaryActionForWindow actions w = some a) :
    a ∈ actions := by
  rw [findPrimaryActionForWindow_eq_find] at h
  exact List.mem_of_find?_eq_some h

theorem foldl_generateEffectsStep (actions : List TimelineItem) (videoDuration : F64)
    (windows : List Window) :
    ∀ effects : List DisplayEffect,
      windows.foldl (generateEffectsStep actions videoDuration) effects
        = effects ++ windows.filterMap (effectOfWindow actions videoDuration) := by
  induction windows with
  | nil => intro effects; simp
  | cons w windows ih =>
    intro effects
    rw [List.foldl_cons, ih, List.filterMap_cons]
    unfold generateEffectsStep effectOfWindow
    by_cases hw : w.End ≤ w.Start
    · simp [hw]
    · rw [if_neg hw, if_neg hw]
      cases findPrimaryActionForWindow actions w with
      | none => simp
      | some a =>
        simp only []
        cases generateEffectForAction a w videoDuration with
        | none => simp
        | some e => simp

theorem GenerateEffects_eq_filterMap (actions : List TimelineItem) (windows : List Window)
    (videoDuration : F64) :
    GenerateEffects actions windows videoDuration
      = windows.filterMap (effectOfWindow actions videoDuration) := by
  unfold GenerateEffects
  rw [foldl_generateEffectsStep]
  rfl

/-- The duration `max(MinEffectDuration, (End - Start) * EffectCoverageRatio)` of an
effect is more than half the length of its window, rounding included. -/
theorem effectDuration_gt_half {a b : F64} (hab : a < b) :
    b.val - a.val
      < 2 * (max MinEffectDuration ((b - a) * EffectCoverageRatio)).val := by
  have hδ : 0 < b.val - a.val := by have := F64.lt_def.mp hab; linarith
  rcases lt_or_le (b.val - a.val) (4 / 5) with hsmall | hbig
  · have h1 : MinEffectDuration
        ≤ max MinEffectDuration ((b - a) * EffectCoverageRatio) := le_max_left _ _
    have h2 : (2 / 5 : ℚ) ≤ MinEffectDuration.val := by decide!
    have := F64.le_def.mp h1
    linarith
  · have h1 : (b - a) * EffectCoverageRatio
        ≤ max MinEffectDuration ((b - a) * EffectCoverageRatio) := le_max_right _ _
    have h1 := F64.le_def.mp h1
    have hc : EffectCoverageRatio.val = 3 / 4 := by decide!
    have hrel : ∀ x : ℚ, 1 / 2 ≤ x → (99 / 100) * x ≤ round64 x := by
      intro x hx
      have hx0 : 0 < x := by linarith
      have hmin : (2 : ℚ) ^ (-1022 : ℤ) ≤ |x| := by
        rw [abs_of_pos hx0]
        calc (2 : ℚ) ^ (-1022 : ℤ) ≤ 2 ^ (-1 : ℤ) :=
              zpow_le_zpow_right₀ (by norm_num) (by norm_num)
          _ = 1 / 2 := by norm_num
          _ ≤ x := hx
      have h := abs_round64_sub_le_rel hmin
      rw [abs_of_pos hx0] at h
      have hε : x * (2 : ℚ) ^ (-53 : ℤ) ≤ x * (1 / 100) :=
        mul_le_mul_of_nonneg_left (by norm_num) hx0.le
      have h3 := (abs_le.mp (le_trans h hε)).1
      linarith
    have hdlow : (99 / 100) * (b.val - a.val) ≤ (b - a).val := by
      rw [F64.sub_val]
      exact hrel _ (by linarith)
    have hplow : (99 / 100) * ((b - a).val * (3 / 4)) ≤ ((b - a) * EffectCoverageRatio).val := by
      rw [F64.mul_val, hc]
      exact hrel _ (by linarith)
    linarith

theorem effectEnd_bounds (w : Window) (videoDuration : F64) (h1 : w.Start < w.End)
    (h2 : w.End ≤ videoDuration) :
    w.Start < effectEnd w videoDuration ∧ effectEnd w videoDuration ≤ min w.End videoDuration := by
  have hle : min w.End videoDuration = w.End := min_eq_left h2
  rw [hle]
  unfold effectEnd
  simp only []
  split_ifs with ha hb hc
  · exact ⟨lt_of_lt_of_le h1 h2, le_of_lt hb⟩
  · exact ⟨h1, le_refl _⟩
  · exact ⟨lt_of_lt_of_le h1 h2, le_of_lt (lt_of_lt_of_le hc (not_lt.mp ha))⟩
  · exact ⟨F64.lt_add_of_half_lt h1 (effectDuration_gt_half h1), not_lt.mp ha⟩

theorem generateEffectForAction_props (a : TimelineItem) (w : Window) (videoDuration : F64)
    (e : DisplayEffect) (h : generateEffectForAction a w videoDuration = some e) :
    e.Start = w.Start ∧ e.End = effectEnd w videoDuration ∧ e.Type_ ≠ "" ∧
      ∀ t b, e.Target = some t → t.Bounds = some b → a.Bounds = some b := by
  have hbounds : ∀ (ty : String) (sty : Option (List (String × String))), ty ≠ "" →
      (match a.Bounds with
        | none => none
        | some b =>
          some ({ Start := w.Start, End := effectEnd w videoDuration, Type_ := ty,
                  Target := some { Selector := effects.extractSelector a, Bounds := some b },
                  Style := sty } : DisplayEffect)) = some e →
      e.Start = w.Start ∧ e.End = effectEnd w videoDuration ∧ e.Type_ ≠ "" ∧
        ∀ t b, e.Target = some t → t.Bounds = some b → a.Bounds = some b := by
    intro ty sty hty hm
    cases hb : a.Bounds with
    | none => rw [hb] at hm; exact Option.noConfusion hm
    | some b0 =>
      rw [hb] at hm
      injection hm with hm
      rw [← hm]
      refine ⟨rfl, rfl, hty, ?_⟩
      intro t b ht htb
      injection ht with ht
      rw [← ht] at htb
      exact htb
  unfold generateEffectForAction at h
  simp only [] at h
  split_ifs at h
  · exact hbounds "highlight" _ (by decide) h
  · exact hbounds "focus" _ (by decide) h
  · unfold effectForNavigation at h
    simp only [] at h
    split_ifs at h
    injection h with h
    rw [← h]
    have hne : ("label" : String) ≠ "" := by decide
    refine ⟨rfl, rfl, hne, ?_⟩
    intro t b ht _
    exact Option.noConfusion ht
  · exact hbounds "highlight" _ (by decide) h

/-- C31. If the windows pass `validateWindows(D, windows)` and every action's `Bounds`,
when present, has `Width > 0` and `Height > 0`, then
`validateEffects(D, GenerateEffects(actions, windows, D))` succeeds: every generated
effect starts at its window's `Start`, ends strictly later and no later than
`min(window.End, D)`, and has a non-empty `Type`; at most one effect is generated per
window (the effects are the windows' effects, in window order). -/
theorem GenerateEffects_valid (actions : List TimelineItem) (windows : List Window)
    (videoDuration : F64) (hw : validateWindows videoDuration windows = .ok ())
    (hb : ∀ a ∈ actions, ∀ b, a.Bounds = some b → 0 < b.Width ∧ 0 < b.Height) :
    validateEffects videoDuration (GenerateEffects actions windows videoDuration) = .ok () ∧
    GenerateEffects actions windows videoDuration
      = windows.filterMap (effectOfWindow actions videoDuration) ∧
    (GenerateEffects actions windows videoDuration).length ≤ windows.length ∧
    ∀ e ∈ GenerateEffects actions windows videoDuration,
      ∃ w ∈ windows, effectOfWindow actions videoDuration w = some e ∧
        e.Start = w.Start ∧ e.Start < e.End ∧ e.End ≤ min w.End videoDuration ∧
        e.Type_ ≠ "" := by
  unfold validateWindows at hw
  obtain ⟨hok, _, _⟩ := (validateWindowsFrom_ok_iff videoDuration windows (0, 0)).mp hw
  have hall : ∀ e ∈ GenerateEffects actions windows videoDuration,
      ∃ w ∈ windows, effectOfWindow actions videoDuration w = some e ∧
        e.Start = w.Start ∧ e.Start < e.End ∧ e.End ≤ min w.End videoDuration ∧
        e.Type_ ≠ "" ∧
        ∀ t b, e.Target = some t → t.Bounds = some b → 0 < b.Width ∧ 0 < b.Height := by
    intro e he
    rw [GenerateEffects_eq_filterMap, List.mem_filterMap] at he
    obtain ⟨w, hwm, hwe⟩ := he
    refine ⟨w, hwm, hwe, ?_⟩
    obtain ⟨h0, _, hlt, hle⟩ := hok w hwm
    unfold effectOfWindow at hwe
    rw [if_neg (not_le.mpr hlt)] at hwe
    cases hp : findPrimaryActionForWindow actions w with
    | none => rw [hp] at hwe; exact Option.noConfusion hwe
    | some a =>
      rw [hp] at hwe
      obtain ⟨hs, hend, hty, htb⟩ := generateEffectForAction_props a w videoDuration e hwe
      have hbnd := effectEnd_bounds w videoDuration hlt hle
      refine ⟨hs, ?_, ?_, hty, ?_⟩
      · rw [hs, hend]; exact hbnd.1
      · rw [hend]; exact hbnd.2
      · intro t b ht hbb
        exact hb a (findPrimaryActionForWindow_mem actions w a hp) b (htb t b ht hbb)
  refine ⟨?_, GenerateEffects_eq_filterMap actions windows videoDuration, ?_, ?_⟩
  · unfold validateEffects
    refine (firstErrorFrom_ok_iff _ _ (validateEffectsBody_none_iff videoDuration) _ 0).mpr ?_
    intro e he
    obtain ⟨w, hwm, _, hs, hlt, hle, hty, hbb⟩ := hall e he
    obtain ⟨h0, _, _, hwd⟩ := hok w hwm
    have h1 : 0 ≤ e.Start := by rw [hs]; exact h0
    refine ⟨h1, le_of_lt (lt_of_le_of_lt h1 hlt), hlt, ?_, hty, hbb⟩
    exact le_trans hle (min_le_right _ _)
  · rw [GenerateEffects_eq_filterMap]
    exact List.length_filterMap_le _ _
  · intro e he
    obtain ⟨w, hwm, hwe, hs, hlt, hle, hty, _⟩ := hall e he
    exact ⟨w, hwm, hwe, hs, hlt, hle, hty⟩

theorem GenerateEffects_valid_witness :
    validateWindows 10 [⟨0, 2⟩, ⟨3, 4⟩] = .ok () ∧
      (∀ a ∈ [actionItem 1 "scroll" none, actionItem 1.5 "click" (some ⟨0, 0, 10, 10⟩)],
        ∀ b, a.Bounds = some b → 0 < b.Width ∧ 0 < b.Height) ∧
      validateEffects 10
        (GenerateEffects
          [actionItem 1 "scroll" none, actionItem 1.5 "click" (some ⟨0, 0, 10, 10⟩)]
          [⟨0, 2⟩, ⟨3, 4⟩] 10) = .ok () :=
  have h1 : validateWindows 10 [⟨0, 2⟩, ⟨3, 4⟩] = .ok () := by decide!
  have h2 : ∀ a ∈ [actionItem 1 "scroll" none,
      actionItem 1.5 "click" (some ⟨0, 0, 10, 10⟩)],
      ∀ b, a.Bounds = some b → 0 < b.Width ∧ 0 < b.Height := by
    intro a ha b hb
    simp only [List.mem_cons, List.mem_singleton, List.not_mem_nil, or_false] at ha
    rcases ha with ha | ha
    · rw [ha] at hb; exact Option.noConfusion hb
    · rw [ha] at hb
      simp only [actionItem] at hb
      injection hb with hb
      rw [← hb]
      exact ⟨by decide!, by decide!⟩
  ⟨h1, h2, (GenerateEffects_valid _ _ 10 h1 h2).1⟩

/-! ## `GenerateActionInstructions` -/

theorem normalizeAction_range (toLower : String → String) (a : String) :
    normalizeAction toLower a = "" ∨
      normalizeAction toLower a
        ∈ ["click", "input", "scroll", "hover", "zoom", "navigate"] := by
  unfold normalizeAction
  simp only []
  split_ifs <;> simp

theorem clampTime_bounds (t videoDuration : F64) (hd : 0 ≤ videoDuration) :
    0 ≤ clampTime t videoDuration ∧ clampTime t videoDuration ≤ videoDuration := by
  unfold clampTime
  split_ifs with h1 h2
  · exact ⟨le_refl _, hd⟩
  · exact ⟨hd, le_refl _⟩
  · exact ⟨not_lt.mp h1, not_lt.mp h2⟩

theorem foldl_instructionsStep (toLower : String → String) (videoDuration : F64)
    (actions : List TimelineItem) :
    ∀ st : List ActionInstruction × F64,
      (actions.foldl (instructionsStep toLower videoDuration) st).1
        = st.1 ++ (actions.filter (keptAction toLower)).map
            (fun a => instructionOf toLower (clampTime a.T videoDuration) a) := by
  induction actions with
  | nil => intro st; simp
  | cons a actions ih =>
    intro st
    rw [List.foldl_cons, ih]
    unfold instructionsStep keptAction
    by_cases hk : a.Kind ≠ "action"
    · have hk2 : ¬ a.Kind = "action" := hk
      rw [if_pos hk]
      simp [hk2]
    · have hk2 : a.Kind = "action" := not_not.mp hk
      rw [if_neg hk]
      simp only []
      by_cases hn : (instructionOf toLower (clampTime a.T videoDuration) a).Action = ""
      · have hn2 : normalizeAction toLower a.Action = "" := hn
        rw [if_pos hn]
        simp [hk2, hn2]
      · have hn2 : ¬ normalizeAction toLower a.Action = "" := hn
        rw [if_neg hn]
        simp [hk2, hn2]

theorem normalizeAction_cases (toLower : String → String) (a : String) :
    (toLower a ∉ ["click", "input", "type", "scroll", "hover", "zoom", "navigation",
        "route_change"] ∧ normalizeAction toLower a = "") ∨
    (toLower a = "click" ∧ normalizeAction toLower a = "click") ∨
    ((toLower a = "input" ∨ toLower a = "type") ∧ normalizeAction toLower a = "input") ∨
    (toLower a = "scroll" ∧ normalizeAction toLower a = "scroll") ∨
    (toLower a = "hover" ∧ normalizeAction toLower a = "hover") ∨
    (toLower a = "zoom" ∧ normalizeAction toLower a = "zoom") ∨
    ((toLower a = "navigation" ∨ toLower a = "route_change") ∧
      normalizeAction toLower a = "navigate") := by
  unfold normalizeAction
  simp only []
  by_cases h1 : toLower a = "click"
  · right; left; exact ⟨h1, by rw [if_pos h1]⟩
  rw [if_neg h1]
  by_cases h2 : toLower a = "input" ∨ toLower a = "type"
  · right; right; left; exact ⟨h2, by rw [if_pos h2]⟩
  rw [if_neg h2]
  by_cases h3 : toLower a = "scroll"
  · right; right; right; left; exact ⟨h3, by rw [if_pos h3]⟩
  rw [if_neg h3]
  by_cases h4 : toLower a = "hover"
  · right; right; right; right; left; exact ⟨h4, by rw [if_pos h4]⟩
  rw [if_neg h4]
  by_cases h5 : toLower a = "zoom"
  · right; right; right; right; right; left; exact ⟨h5, by rw [if_pos h5]⟩
  rw [if_neg h5]
  by_cases h6 : toLower a = "navigation" ∨ toLower a = "route_change"
  · right; right; right; right; right; right; exact ⟨h6, by rw [if_pos h6]⟩
  rw [if_neg h6]
  left
  refine ⟨?_, rfl⟩
  simp only [List.mem_cons, List.mem_singleton, List.not_mem_nil, or_false]
  tauto

theorem keptAction_eq (toLower : String → String) (a : TimelineItem) :
    keptAction toLower a
      = (decide (a.Kind = "action") &&
          decide (toLower a.Action ∈ ["click", "input", "type", "scroll", "hover", "zoom",
            "navigation", "route_change"])) := by
  unfold keptAction
  congr 1
  have hiff : normalizeAction toLower a.Action ≠ "" ↔
      toLower a.Action ∈ ["click", "input", "type", "scroll", "hover", "zoom",
        "navigation", "route_change"] := by
    simp only [List.mem_cons, List.mem_singleton, List.not_mem_nil, or_false]
    rcases normalizeAction_cases toLower a.Action with h | h | h | h | h | h | h
    · simp only [List.mem_cons, List.mem_singleton, List.not_mem_nil, or_false] at h
      constructor
      · intro hne; exact absurd h.2 hne
      · intro hm; exact absurd hm h.1
    · exact ⟨fun _ => by tauto, fun _ => by rw [h.2]; decide⟩
    · exact ⟨fun _ => by tauto, fun _ => by rw [h.2]; decide⟩
    · exact ⟨fun _ => by tauto, fun _ => by rw [h.2]; decide⟩
    · exact ⟨fun _ => by tauto, fun _ => by rw [h.2]; decide⟩
    · exact ⟨fun _ => by tauto, fun _ => by rw [h.2]; decide⟩
    · exact ⟨fun _ => by tauto, fun _ => by rw [h.2]; decide⟩
  exact decide_eq_decide.mpr hiff

theorem clampTime_cases (t videoDuration : F64) :
    (0 ≤ t ∧ t ≤ videoDuration ∧ clampTime t videoDuration = t) ∨
      (t < 0 ∧ clampTime t videoDuration = 0) ∨
      (videoDuration < t ∧ clampTime t videoDuration = videoDuration) := by
  unfold clampTime
  by_cases h1 : t < 0
  · right; left; exact ⟨h1, by rw [if_pos h1]⟩
  · rw [if_neg h1]
    by_cases h2 : t > videoDuration
    · right; right; exact ⟨h2, by rw [if_pos h2]⟩
    · rw [if_neg h2]
      left; exact ⟨not_lt.mp h1, not_lt.mp h2, rfl⟩

theorem forall₂_map_of_forall {α β : Type} (R : α → β → Prop) (f : α → β) :
    ∀ l : List α, (∀ a ∈ l, R a (f a)) → List.Forall₂ R l (l.map f)
  | [], _ => List.Forall₂.nil
  | a :: l, h =>
    List.Forall₂.cons (h a (List.mem_cons_self a l))
      (forall₂_map_of_forall R f l (fun b hb => h b (List.mem_cons_of_mem a hb)))

/-- C32. `GenerateActionInstructions` returns an error if and only if
`videoDuration <= 0`. For `D > 0` its output holds, in input order, one instruction per
item of kind "action" whose lower-cased action is one of click, input, type, scroll,
hover, zoom, navigation and route_change; every other item is dropped. The instruction of
an item has the item's `T` as `Timestamp` when `0 <= T <= D`, 0 when `T < 0` and `D` when
`T > D`; its `Action` is click, input (for input and type), scroll, hover, zoom or
navigate (for navigation and route_change); its `Bounds` are the item's. Hence every
`Timestamp` is in `[0, D]`, every `Action` is among click, input, scroll, hover, zoom and
navigate, and if every action's `Bounds`, when present, has positive `Width` and
`Height`, `validateActions(D, output)` succeeds. -/
theorem GenerateActionInstructions_valid (toLower : String → String)
    (actions : List TimelineItem) (videoDuration : F64) :
    ((GenerateActionInstructions toLower actions videoDuration).2 ≠ none
      ↔ videoDuration ≤ 0) ∧
    (0 < videoDuration →
      List.Forall₂
        (fun (a : TimelineItem) (inst : ActionInstruction) =>
          ((0 ≤ a.T ∧ a.T ≤ videoDuration ∧ inst.Timestamp = a.T) ∨
            (a.T < 0 ∧ inst.Timestamp = 0) ∨
            (videoDuration < a.T ∧ inst.Timestamp = videoDuration)) ∧
          ((toLower a.Action = "click" ∧ inst.Action = "click") ∨
            ((toLower a.Action = "input" ∨ toLower a.Action = "type") ∧
              inst.Action = "input") ∨
            (toLower a.Action = "scroll" ∧ inst.Action = "scroll") ∨
            (toLower a.Action = "hover" ∧ inst.Action = "hover") ∨
            (toLower a.Action = "zoom" ∧ inst.Action = "zoom") ∨
            ((toLower a.Action = "navigation" ∨ toLower a.Action = "route_change") ∧
              inst.Action = "navigate")) ∧
          inst.Bounds = a.Bounds)
        (actions.filter (fun a => decide (a.Kind = "action") &&
          decide (toLower a.Action ∈ ["click", "input", "type", "scroll", "hover", "zoom",
            "navigation", "route_change"])))
        (GenerateActionInstructions toLower actions videoDuration).1 ∧
      (GenerateActionInstructions toLower actions videoDuration).1
        = (actions.filter (fun a => decide (a.Kind = "action") &&
              decide (normalizeAction toLower a.Action ≠ ""))).map
            (fun a => instructionOf toLower (clampTime a.T videoDuration) a) ∧
      (∀ inst ∈ (GenerateActionInstructions toLower actions videoDuration).1,
        0 ≤ inst.Timestamp ∧ inst.Timestamp ≤ videoDuration ∧
        inst.Action ∈ ["click", "input", "scroll", "hover", "zoom", "navigate"]) ∧
      ((∀ a ∈ actions, ∀ b, a.Bounds = some b → 0 < b.Width ∧ 0 < b.Height) →
        validateActions videoDuration
          (GenerateActionInstructions toLower actions videoDuration).1 = .ok ())) := by
  refine ⟨?_, ?_⟩
  · unfold GenerateActionInstructions
    by_cases hd : videoDuration ≤ 0
    · simp [hd]
    · simp [hd]
  · intro hpos
    have hd : ¬ videoDuration ≤ 0 := not_le.mpr hpos
    have hout : (GenerateActionInstructions toLower actions videoDuration).1
        = (actions.filter (keptAction toLower)).map
            (fun a => instructionOf toLower (clampTime a.T videoDuration) a) := by
      unfold GenerateActionInstructions
      rw [if_neg hd]
      simp only []
      rw [foldl_instructionsStep]
      rfl
    have hmem : ∀ inst ∈ (GenerateActionInstructions toLower actions videoDuration).1,
        ∃ a ∈ actions, keptAction toLower a = true ∧
          inst = instructionOf toLower (clampTime a.T videoDuration) a := by
      intro inst hinst
      rw [hout, List.mem_map] at hinst
      obtain ⟨a, ha, he⟩ := hinst
      rw [List.mem_filter] at ha
      exact ⟨a, ha.1, ha.2, he.symm⟩
    have hprops : ∀ inst ∈ (GenerateActionInstructions toLower actions videoDuration).1,
        0 ≤ inst.Timestamp ∧ inst.Timestamp ≤ videoDuration ∧
        inst.Action ∈ ["click", "input", "scroll", "hover", "zoom", "navigate"] := by
      intro inst hinst
      obtain ⟨a, _, hk, he⟩ := hmem inst hinst
      have hc := clampTime_bounds a.T videoDuration (le_of_lt hpos)
      rw [he]
      refine ⟨hc.1, hc.2, ?_⟩
      have hne : normalizeAction toLower a.Action ≠ "" := by
        unfold keptAction at hk
        simp at hk
        exact hk.2
      rcases normalizeAction_range toLower a.Action with h | h
      · exact absurd h hne
      · exact h
    refine ⟨?_, hout, hprops, ?_⟩
    · have hfun : (fun a : TimelineItem => decide (a.Kind = "action") &&
          decide (toLower a.Action ∈ ["click", "input", "type", "scroll", "hover", "zoom",
            "navigation", "route_change"])) = keptAction toLower :=
        funext (fun a => (keptAction_eq toLower a).symm)
      rw [hfun, hout]
      apply forall₂_map_of_forall
      intro a ha
      rw [List.mem_filter] at ha
      refine ⟨?_, ?_, rfl⟩
      · show (0 ≤ a.T ∧ a.T ≤ videoDuration ∧ clampTime a.T videoDuration = a.T) ∨
          (a.T < 0 ∧ clampTime a.T videoDuration = 0) ∨
          (videoDuration < a.T ∧ clampTime a.T videoDuration = videoDuration)
        exact clampTime_cases a.T videoDuration
      · show (toLower a.Action = "click" ∧ normalizeAction toLower a.Action = "click") ∨
          ((toLower a.Action = "input" ∨ toLower a.Action = "type") ∧
            normalizeAction toLower a.Action = "input") ∨
          (toLower a.Action = "scroll" ∧ normalizeAction toLower a.Action = "scroll") ∨
          (toLower a.Action = "hover" ∧ normalizeAction toLower a.Action = "hover") ∨
          (toLower a.Action = "zoom" ∧ normalizeAction toLower a.Action = "zoom") ∨
          ((toLower a.Action = "navigation" ∨ toLower a.Action = "route_change") ∧
            normalizeAction toLower a.Action = "navigate")
        have hk := ha.2
        rw [keptAction_eq] at hk
        simp only [Bool.and_eq_true, decide_eq_true_eq] at hk
        rcases normalizeAction_cases toLower a.Action with h | h
        · exact absurd hk.2 h.1
        · exact h
    · intro hb
      unfold validateActions
      refine (firstErrorFrom_ok_iff _ _ (validateActionsBody_none_iff videoDuration) _ 0).mpr ?_
      intro inst hinst
      obtain ⟨h0, h1, h2⟩ := hprops inst hinst
      obtain ⟨a, ha, _, he⟩ := hmem inst hinst
      refine ⟨h0, h1, ?_, ?_⟩
      · intro hempty
        rw [hempty] at h2
        simp at h2
      · intro b hbb
        rw [he] at hbb
        exact hb a ha b hbb

theorem GenerateActionInstructions_valid_witness :
    (0 : F64) < 10 ∧
      (GenerateActionInstructions asciiToLower
        [actionItem (-1) "Click" none, word 3, actionItem 4 "TYPE" none,
          actionItem 5 "drag" none, actionItem 12 "route_change" none] 10).1.map
          (fun inst => (inst.Timestamp, inst.Action))
        = [(0, "click"), (4, "input"), (10, "navigate")] ∧
      (∀ a ∈ [actionItem (-1) "Click" none, word 3, actionItem 4 "TYPE" none,
          actionItem 5 "drag" none, actionItem 12 "route_change" none],
        ∀ b, a.Bounds = some b → 0 < b.Width ∧ 0 < b.Height) ∧
      validateActions 10
        (GenerateActionInstructions asciiToLower
          [actionItem (-1) "Click" none, word 3, actionItem 4 "TYPE" none,
            actionItem 5 "drag" none, actionItem 12 "route_change" none] 10).1 = .ok () :=
  have h2 : ∀ a ∈ [actionItem (-1) "Click" none, word 3, actionItem 4 "TYPE" none,
      actionItem 5 "drag" none, actionItem 12 "route_change" none],
      ∀ b, a.Bounds = some b → 0 < b.Width ∧ 0 < b.Height := by
    intro a ha b hb
    simp only [List.mem_cons, List.mem_singleton, List.not_mem_nil, or_false] at ha
    rcases ha with ha | ha | ha | ha | ha <;>
      (rw [ha] at hb; exact Option.noConfusion hb)
  ⟨by decide!, by decide!, h2,
    ((GenerateActionInstructions_valid asciiToLower
      [actionItem (-1) "Click" none, word 3, actionItem 4 "TYPE" none,
        actionItem 5 "drag" none, actionItem 12 "route_change" none] 10).2
          (by decide!)).2.2.2 h2⟩

/-! ## `NormalizeDomEvents` -/

/-- Scrolls 1500 ms apart at the rounding boundary. The second scroll of 502 ms and
2002 ms is dropped (`2.002 - 0.502` is 1.4999999999999998 in `float64`). The second
scroll of 1 ms and 1501 ms is kept (`1.501 - 0.001` is 1.5 in `float64`, the exact
difference of the two values being below 1.5). The second scroll of 128 ms and 1628 ms is
kept (`1.628 - 0.128` is 1.5 in `float64`) although the `float64` sum `0.128 + 1.5` is
1.6280000000000001, above 1.628: the distance of two scrolls is what the subtraction
gives. -/
theorem NormalizeDomEvents_boundary :
    (NormalizeDomEvents [⟨"scroll", 502, none, none⟩, ⟨"scroll", 2002, none, none⟩] 0
        10).1.map (fun x => x.T) = [0.502] ∧
      (2.002 : F64) - 0.502 = 1.4999999999999998 ∧
      (NormalizeDomEvents [⟨"scroll", 1, none, none⟩, ⟨"scroll", 1501, none, none⟩] 0
        10).1.map (fun x => x.T) = [0.001, 1.501] ∧
      (1.501 : F64) - 0.001 = 1.5 ∧ (1.501 : F64).val - (0.001 : F64).val < 3 / 2 ∧
      (NormalizeDomEvents [⟨"scroll", 128, none, none⟩, ⟨"scroll", 1628, none, none⟩] 0
        10).1.map (fun x => x.T) = [0.128, 1.628] ∧
      (1.628 : F64) - 0.128 = 1.5 ∧ (0.128 : F64) + 1.5 = 1.6280000000000001 ∧
      (1.628 : F64) < 1.6280000000000001 := by
  refine ⟨by decide!, by decide!, by decide!, by decide!, by decide!, by decide!, by decide!,
    by decide!, by decide!⟩

/-! ## `GenerateScript` -/

theorem fieldsFrom_words (cs : List Char) :
    ∀ cur : List Char, (∀ c ∈ cur, isSpace c = false) →
      ∀ w ∈ fieldsFrom cur cs, w ≠ [] ∧ ∀ c ∈ w, isSpace c = false := by
  induction cs with
  | nil =>
    intro cur hcur w hw
    rw [fieldsFrom] at hw
    split_ifs at hw with h
    · simp at hw
    · simp at hw
      rw [hw]
      exact ⟨h, hcur⟩
  | cons c cs ih =>
    intro cur hcur w hw
    rw [fieldsFrom] at hw
    split_ifs at hw with h1 h2
    · exact ih [] (by simp) w hw
    · rcases List.mem_cons.mp hw with hw | hw
      · rw [hw]; exact ⟨h2, hcur⟩
      · exact ih [] (by simp) w hw
    · refine ih (cur ++ [c]) ?_ w hw
      intro x hx
      rcases List.mem_append.mp hx with hx | hx
      · exact hcur x hx
      · simp at hx
        rw [hx]
        simpa using h1

theorem fieldsFrom_append_word (w : List Char) :
    ∀ (cur rest : List Char), (∀ c ∈ w, isSpace c = false) →
      fieldsFrom cur (w ++ rest) = fieldsFrom (cur ++ w) rest := by
  induction w with
  | nil => intro cur rest _; simp
  | cons c w ih =>
    intro cur rest hw
    have hc : ¬ isSpace c = true := by
      rw [hw c (List.mem_cons_self _ _)]; simp
    rw [List.cons_append, fieldsFrom, if_neg hc,
      ih (cur ++ [c]) rest (fun x hx => hw x (List.mem_cons_of_mem _ hx))]
    simp

theorem fieldsFrom_joinChars (ws : List (List Char)) :
    (∀ w ∈ ws, w ≠ [] ∧ ∀ c ∈ w, isSpace c = false) →
      fieldsFrom [] (joinChars ws) = ws := by
  induction ws with
  | nil => intro _; rfl
  | cons w ws ih =>
    intro h
    have hw := h w (List.mem_cons_self _ _)
    cases ws with
    | nil =>
      have := fieldsFrom_append_word w [] [] hw.2
      rw [List.append_nil, List.nil_append] at this
      rw [joinChars, this, fieldsFrom, if_neg hw.1]
    | cons w2 ws =>
      have hrest := ih (fun x hx => h x (List.mem_cons_of_mem _ hx))
      have hsp : isSpace ' ' = true := by decide
      have hcc : joinChars (w :: w2 :: ws) = w ++ ' ' :: joinChars (w2 :: ws) := rfl
      rw [hcc, fieldsFrom_append_word w [] _ hw.2, List.nil_append, fieldsFrom,
        if_pos hsp, if_neg hw.1, hrest]

theorem joinSpace_data (ws : List String) :
    (joinSpace ws).data = joinChars (ws.map String.data) := by
  induction ws with
  | nil => rfl
  | cons w ws ih =>
    cases ws with
    | nil => rfl
    | cons w2 ws =>
      have hcc : joinSpace (w :: w2 :: ws) = w ++ " " ++ joinSpace (w2 :: ws) := rfl
      have hdd : joinChars (w.data :: w2.data :: ws.map String.data)
          = w.data ++ ' ' :: joinChars (w2.data :: ws.map String.data) := rfl
      rw [hcc, String.data_append, String.data_append, ih]
      simp only [List.map_cons]
      rw [hdd]
      simp

theorem Fields_joinSpace_take (text : String) (n : Nat) :
    Fields (joinSpace ((Fields text).take n)) = (Fields text).take n := by
  have hgood : ∀ w ∈ (fieldsFrom [] text.data).take n,
      w ≠ [] ∧ ∀ c ∈ w, isSpace c = false := by
    intro w hw
    exact fieldsFrom_words text.data [] (by simp) w (List.mem_of_mem_take hw)
  have hdata : ((Fields text).take n).map String.data = (fieldsFrom [] text.data).take n := by
    unfold Fields
    rw [← List.map_take, List.map_map]
    have : (String.data ∘ String.mk) = id := by funext l; rfl
    rw [this, List.map_id]
  have h1 : Fields (joinSpace ((Fields text).take n))
      = ((fieldsFrom [] text.data).take n).map String.mk := by
    unfold Fields at hdata ⊢
    rw [joinSpace_data, hdata, fieldsFrom_joinChars _ hgood]
  rw [h1]
  unfold Fields
  rw [List.map_take]

theorem trimToWordLimit_length (text : String) (maxWords : Int) (hpos : 0 < maxWords)
    (hlong : ((Fields text).length : Int) > maxWords) :
    ((Fields (trimToWordLimit text maxWords)).length : Int) ≤ maxWords := by
  unfold trimToWordLimit
  rw [if_neg (not_le.mpr hpos)]
  simp only []
  rw [if_neg (not_le.mpr hlong), Fields_joinSpace_take, List.length_take]
  omega

theorem Fields_empty : Fields "" = [] := by decide

/-- C34 (counterexample). In the window `[0, 1]` with four spoken words at 0.1, 0.2, 0.3
and 0.4, `GenerateScript` returns the four words "one two three four", although
`floor((End - Start) * 2.5) = 2`, in `float64` as in exact arithmetic. -/
theorem GenerateScript_speech_over_limit :
    GenerateScript asciiToLower ⟨0, 1⟩
        [spoken 0.1 "one", spoken 0.2 "two", spoken 0.3 "three", spoken 0.4 "four"]
      = ("one two three four", none) ∧
    (Fields "one two three four").length = 4 ∧
    truncToInt (((1 : F64) - 0) * 2.5) = 2 ∧
    Int.floor (((1 : ℚ) - 0) * 2.5) = 2 := by
  refine ⟨by decide!, by decide!, by decide!, by decide!⟩

/-- Windows at the rounding boundary. The window `[1.1, 1.9]` has the `float64` length
0.7999999999999998, below 0.8: `GenerateScript` returns the empty text although the
window holds a usable spoken word. The window `[0.1, 1.7]` has the `float64` length
1.5999999999999999, and `int(1.5999999999999999 * 2.5) = 3`: the four words "An item is
selected." of its click are above the limit and the empty text is returned. -/
theorem GenerateScript_rounded_windows :
    (1.9 : F64) - 1.1 = 0.7999999999999998 ∧
      extractSpeechForWindow asciiToLower ⟨1.1, 1.9⟩ [spoken 1.5 "hello"] = "hello" ∧
      GenerateScript asciiToLower ⟨1.1, 1.9⟩ [spoken 1.5 "hello"] = ("", none) ∧
      truncToInt (((1.7 : F64) - 0.1) * 2.5) = 3 ∧
      Int.floor (((1.7 : ℚ) - 0.1) * 2.5) = 4 ∧
      narrateActions asciiToLower
          (extractActionsForWindow ⟨0.1, 1.7⟩ [actionItem 0.5 "click" none])
        = "An item is selected." ∧
      GenerateScript asciiToLower ⟨0.1, 1.7⟩ [actionItem 0.5 "click" none] = ("", none) ∧
      GenerateScript asciiToLower ⟨0, 1.6⟩ [actionItem 0.5 "click" none]
        = ("An item is selected.", none) := by
  refine ⟨by decide!, by decide!, by decide!, by decide!, by decide!, by decide!, by decide!,
    by decide!⟩

theorem GenerateScript_err (toLower : String → String) (window : Window)
    (timeline : List TimelineItem) :
    (GenerateScript toLower window timeline).2 ≠ none ↔ window.End ≤ window.Start := by
  unfold GenerateScript
  by_cases h1 : window.End ≤ window.Start
  · rw [if_pos h1]; simp [h1]
  · rw [if_neg h1]
    simp only []
    constructor
    · intro h
      exfalso
      apply h
      split_ifs <;> rfl
    · intro h; exact absurd h h1

theorem GenerateScript_short (toLower : String → String) (window : Window)
    (timeline : List TimelineItem) (h : window.End - window.Start < 0.8) :
    (GenerateScript toLower window timeline).1 = "" := by
  unfold GenerateScript
  by_cases h1 : window.End ≤ window.Start
  · rw [if_pos h1]
  · rw [if_neg h1]
    simp only []
    have h2 : window.End - window.Start < MinWindowDurationSec := h
    rw [if_pos h2]

theorem GenerateScript_speech (toLower : String → String) (window : Window)
    (timeline : List TimelineItem) (h1 : window.Start < window.End)
    (h2 : 0.8 ≤ window.End - window.Start)
    (hs : extractSpeechForWindow toLower window timeline ≠ "") :
    (GenerateScript toLower window timeline).1
      = extractSpeechForWindow toLower window timeline := by
  unfold GenerateScript
  have h2b : ¬ window.End - window.Start < MinWindowDurationSec := not_lt.mpr h2
  rw [if_neg (not_le.mpr h1)]
  simp only []
  rw [if_neg h2b, if_pos hs]

theorem GenerateScript_word_limit (toLower : String → String) (window : Window)
    (timeline : List TimelineItem) (h1 : window.Start < window.End)
    (hs : extractSpeechForWindow toLower window timeline = "") :
    ((Fields (GenerateScript toLower window timeline).1).length : Int)
      ≤ truncToInt ((window.End - window.Start) * 2.5) := by
  have hδ : (0 : ℚ) ≤ (window.End - window.Start).val := by
    rw [F64.sub_val]
    exact round64_nonneg (by have := F64.lt_def.mp h1; linarith)
  have hc : MaxWordsPerSecond.val = 5 / 2 := by decide!
  have hdur : 0 ≤ ((window.End - window.Start) * MaxWordsPerSecond).val := by
    rw [F64.mul_val, hc]
    exact round64_nonneg (by positivity)
  have hmax : truncToInt ((window.End - window.Start) * 2.5)
      = truncToInt ((window.End - window.Start) * MaxWordsPerSecond) := rfl
  have hfloor : 0 ≤ truncToInt ((window.End - window.Start) * MaxWordsPerSecond) := by
    rw [truncToInt_of_nonneg _ hdur]
    exact Int.floor_nonneg.mpr hdur
  rw [hmax]
  have hempty : ((Fields ("" : String)).length : Int)
      ≤ truncToInt ((window.End - window.Start) * MaxWordsPerSecond) := by
    rw [Fields_empty]; exact hfloor
  have hns : ¬ extractSpeechForWindow toLower window timeline ≠ "" := not_not.mpr hs
  unfold GenerateScript
  rw [if_neg (not_le.mpr h1)]
  simp only []
  split_ifs with c1 c2 c3 c4 c5 c6 c7
  · exact hempty
  · exact hempty
  · exact hempty
  · exact hempty
  · exact hempty
  · have hpos : 0 < truncToInt ((window.End - window.Start) * MaxWordsPerSecond) := by
      by_contra hcon
      exact c4 ⟨c5, by omega⟩
    exact trimToWordLimit_length
      (narrateActions toLower (extractActionsForWindow window timeline)) _ hpos c5
  · exact hempty
  · exact not_lt.mp c5

/-- The word limit `int((End - Start) * 2.5)` against the exact product, for a window
shorter than 2^32 s: the two roundings add less than 2^(-19). -/
theorem maxWords_le (window : Window) (h1 : window.Start < window.End)
    (hsmall : window.End.val - window.Start.val < 2 ^ 32) :
    ((truncToInt ((window.End - window.Start) * 2.5) : Int) : ℚ)
      ≤ (window.End.val - window.Start.val) * (5 / 2) + 2 ^ (-19 : ℤ) := by
  have hpos : (0 : ℚ) < window.End.val - window.Start.val := by
    have := F64.lt_def.mp h1; linarith
  have hc : (2.5 : F64).val = 5 / 2 := by decide!
  have hδ : (0 : ℚ) ≤ (window.End - window.Start).val := by
    rw [F64.sub_val]
    exact round64_nonneg hpos.le
  have hdur : 0 ≤ ((window.End - window.Start) * 2.5).val := by
    rw [F64.mul_val, hc]
    exact round64_nonneg (by positivity)
  have e1 := abs_round64_sub_le_of_lt (x := window.End.val - window.Start.val) (k := -21)
    (by norm_num) (by rw [abs_of_pos hpos]; norm_num; linarith)
  rw [← F64.sub_val, abs_le] at e1
  have h22 : (2 : ℚ) ^ (-21 : ℤ) / 2 ≤ 1 := by norm_num
  have e2 := abs_round64_sub_le_of_lt (x := (window.End - window.Start).val * (5 / 2))
    (k := -19) (by norm_num)
    (by rw [abs_of_nonneg (by positivity)]; norm_num; linarith [e1.2])
  rw [← hc, ← F64.mul_val, abs_le, hc] at e2
  rw [truncToInt_of_nonneg _ hdur]
  have hfl := Int.floor_le ((window.End - window.Start) * 2.5).val
  have n1 : (2 : ℚ) ^ (-21 : ℤ) / 2 = 2 ^ (-19 : ℤ) / 8 := by norm_num
  have n2 : (2 : ℚ) ^ (-19 : ℤ) / 2 = 2 ^ (-19 : ℤ) * (1 / 2) := by ring
  have n3 : (0 : ℚ) < 2 ^ (-19 : ℤ) := by positivity
  rw [n1] at e1
  linarith [e1.2, e2.2]

/-- C34 (amended). `GenerateScript` returns an error exactly when
`window.End <= window.Start`, and the empty text for every window whose `float64` length
`End - Start` is below 0.8. For a valid window without usable speech the text it returns
has at most `int((End - Start) * 2.5)` words, the product being that of `float64`; for a
window shorter than 2^32 s this is at most `(End - Start) * 2.5 + 2^(-19)` in exact
arithmetic. For a window with usable speech whose `float64` length is at least 0.8 it
returns that speech as it is, whatever its number of words. -/
theorem GenerateScript_time_safe (toLower : String → String) (window : Window)
    (timeline : List TimelineItem) :
    ((GenerateScript toLower window timeline).2 ≠ none ↔ window.End ≤ window.Start) ∧
    (window.End - window.Start < 0.8 → (GenerateScript toLower window timeline).1 = "") ∧
    (window.Start < window.End →
      extractSpeechForWindow toLower window timeline = "" →
      ((Fields (GenerateScript toLower window timeline).1).length : Int)
          ≤ truncToInt ((window.End - window.Start) * 2.5) ∧
        (window.End.val - window.Start.val < 2 ^ 32 →
          (((Fields (GenerateScript toLower window timeline).1).length : Int) : ℚ)
            ≤ (window.End.val - window.Start.val) * (5 / 2) + 2 ^ (-19 : ℤ))) ∧
    (window.Start < window.End → 0.8 ≤ window.End - window.Start →
      extractSpeechForWindow toLower window timeline ≠ "" →
      (GenerateScript toLower window timeline).1
        = extractSpeechForWindow toLower window timeline) :=
  ⟨GenerateScript_err toLower window timeline,
    GenerateScript_short toLower window timeline,
    fun h1 hs => ⟨GenerateScript_word_limit toLower window timeline h1 hs,
      fun hsmall => le_trans
        (Int.cast_le.mpr (GenerateScript_word_limit toLower window timeline h1 hs))
        (maxWords_le window h1 hsmall)⟩,
    GenerateScript_speech toLower window timeline⟩

theorem GenerateScript_time_safe_witness :
    (0 : F64) < 3 ∧
      extractSpeechForWindow asciiToLower ⟨0, 3⟩ [actionItem 0.5 "scroll" none] = "" ∧
      GenerateScript asciiToLower ⟨0, 3⟩ [actionItem 0.5 "scroll" none]
        = ("The page is scrolled to explore more", none) ∧
      truncToInt (((3 : F64) - 0) * 2.5) = 7 ∧
      ((Fields (GenerateScript asciiToLower ⟨0, 3⟩
          [actionItem 0.5 "scroll" none]).1).length : Int)
        ≤ truncToInt (((3 : F64) - 0) * 2.5) :=
  have hs : extractSpeechForWindow asciiToLower ⟨0, 3⟩ [actionItem 0.5 "scroll" none]
      = "" := by decide!
  ⟨by decide!, hs, by decide!, by decide!,
    ((GenerateScript_time_safe asciiToLower ⟨0, 3⟩ [actionItem 0.5 "scroll" none]).2.2.1
      (by decide!) hs).1⟩

end GoBackend
